import Mathlib

/-!
# Daisy workflow engine: patch-job registry, step executors and chained workflows

A shallow embedding of `daisy/patch_jobs.go`, `daisy/step_await_patch_jobs.go`,
`daisy/step_execute_patch_jobs.go`, `daisy/step_create_machine_images.go`,
`daisy/step_create_snapshots.go` and `daisy/chained_workflow.go`.

Conventions of the embedding.

* A Go pointer that the source compares with `nil`, or whose zero value the
  source can observe (`creator`, `onSuccess`, `onFailure`, `entry`, the linked
  `*Workflow`), is an `Option Nat`: `none` is `nil`, `some a` is the object at
  address `a`.  Objects live in explicit heaps (`Nat → PatchJob`, `Nat → Link`,
  `Nat → Workflow`), so two pointers to one object alias as they do in Go.
* Elements of descriptor slices (`[]*PatchJob`, `[]*Link`, ...) are addresses of
  live objects.
* A Go map is a function to `Option`.
* A nil-pointer dereference is the outcome `panic`.
* Calls into code outside these files (the provider client, `nestedDepends`,
  `Workflow.Run`, ...) are parameters of the definitions.
-/

namespace Daisy

/-! ## Errors -/

/-- Go `error` values returned by the provider client: a `*googleapi.Error`
carrying an HTTP status code, or any other error. -/
inductive GoErr where
  | api (code : Int) (msg : String)
  | other (msg : String)
  deriving DecidableEq, Repr

/-- Modelled from the spec: the provider's job-state enumeration
(`osconfigpb.PatchJob_State`, declared outside this repository).  The source
names four of its constants; every other state is kept by its printed name. -/
inductive PatchJobState where
  | SUCCEEDED
  | COMPLETED_WITH_ERRORS
  | TIMED_OUT
  | CANCELED
  | otherState (name : String)
  deriving DecidableEq, Repr

/-- The `%v` rendering of a state: the name of the constant. -/
def PatchJobState.toString : PatchJobState → String
  | .SUCCEEDED => "SUCCEEDED"
  | .COMPLETED_WITH_ERRORS => "COMPLETED_WITH_ERRORS"
  | .TIMED_OUT => "TIMED_OUT"
  | .CANCELED => "CANCELED"
  | .otherState name => name

/-- The provider's job handle `*osconfigpb.PatchJob` (fields the source reads). -/
structure OsPatchJob where
  Name : String
  State : PatchJobState
  ErrorMessage : String
  deriving DecidableEq, Repr

/-- Go pointer `*Step`: `none` is nil, `some i` the step object `i`. -/
abbrev StepPtr := Option Nat

/-- The `dErr` values built by `errf` / `newErr` in the embedded files. -/
inductive DErr where
  /-- `errf("missing reference for PatchJob %q", name)` -/
  | missingReference (name : String)
  /-- `errf("cannot create PatchJob %q; already created by step %q", name, creator.name)` -/
  | alreadyCreated (name : String) (creator : Nat)
  /-- `errf("using PatchJob %q MUST transitively depend on step %q which creates %q", ...)` -/
  | mustDepend (name : String) (creator : Nat)
  /-- `newErr(err)` -/
  | wrapped (e : GoErr)
  /-- `errf("error deleting existing machine image: %v", err)` -/
  | deletingMachineImage (e : GoErr)
  /-- `errf("error deleting existing image: %v", err)` -/
  | deletingSnapshot (e : GoErr)
  /-- `errf("error while fetching patch job %q: %s", name, getStatusFromError(err))` -/
  | fetching (name : String) (e : GoErr)
  /-- `errf("failure status %v with message '%s'", res.State, res.GetErrorMessage())` -/
  | failureStatus (state : PatchJobState) (msg : String)
  /-- `errf("must provide name")` -/
  | mustProvideName
  /-- `errf("must provide snapshot name")` -/
  | mustProvideSnapshotName
  /-- `errf("error listing images for project %q: %v", project, err)` -/
  | listing (project : String) (e : GoErr)
  /-- `errf("%s: must provide either SourceInstance", pre)`, with the daisy name in `pre` -/
  | mustProvideSourceInstance (daisyName : String)
  /-- `errf("%s: must provide SourceDisk", pre)`, with the daisy name in `pre` -/
  | mustProvideSourceDisk (daisyName : String)
  /-- `typedErr(resourceDNEError, err)` -/
  | resourceDNE (e : GoErr)
  /-- An error returned by a resource registry outside these files (`regUse`,
  `regCreate` of `w.instances`, `w.disks`, `w.machineImages`, `w.snapshots`). -/
  | registry (msg : String)
  deriving DecidableEq, Repr

/-- Outcome of a call that returns an error of type `ε` and works on a state
`σ`: `ok` is a nil error, `fail` a non-nil one (both with the state the call
left), `panic` a nil-pointer dereference. -/
inductive Res (ε σ : Type) where
  | ok (st : σ)
  | fail (e : ε) (st : σ)
  | panic

/-- The call returned a non-nil error. -/
def Res.isFail {ε σ : Type} : Res ε σ → Bool
  | .fail _ _ => true
  | _ => false

/-- The call returned nil. -/
def Res.isOk {ε σ : Type} : Res ε σ → Bool
  | .ok _ => true
  | _ => false

/-! ## `patch_jobs.go` -/

/-- The embedded `*osconfigpb.ExecutePatchJobRequest` (fields the source reads). -/
structure ExecutePatchJobRequest where
  Parent : String
  Description : String
  deriving DecidableEq, Repr

/-- `type PatchJob struct`. -/
structure PatchJob where
  Name : String
  ExecutePatchJobRequest : Option ExecutePatchJobRequest
  patchJob : Option OsPatchJob
  creator : StepPtr
  users : List StepPtr
  deriving DecidableEq, Repr

/-- The `PatchJob` objects, by address. -/
abbrev PatchJobHeap := Nat → PatchJob

/-- `type patchJobRegistry struct`: the map `m` from workflow-local names to
`*PatchJob`, together with the objects those pointers refer to. -/
structure patchJobRegistry where
  m : String → Option Nat
  mem : PatchJobHeap

/-- `newPatchJobRegistry`: the empty map (over the given descriptor objects). -/
def newPatchJobRegistry (mem : PatchJobHeap) : patchJobRegistry :=
  { m := fun _ => none, mem := mem }

/-- `patchJobRegistry.setJob`. -/
def patchJobRegistry.setJob (r : patchJobRegistry) (name : String) (j : Option OsPatchJob) :
    Res DErr patchJobRegistry :=
  match r.m name with
  | none => .fail (.missingReference name) r
  | some pj =>
    .ok { r with mem := fun a => if a = pj then { r.mem pj with patchJob := j } else r.mem a }

/-- `patchJobRegistry.getJobName`; `GetName` of a nil handle is the empty string. -/
def patchJobRegistry.getJobName (r : patchJobRegistry) (name : String) : Except DErr String :=
  match r.m name with
  | none => .error (.missingReference name)
  | some pj =>
    match (r.mem pj).patchJob with
    | none => .ok ""
    | some j => .ok j.Name

/-- `patchJobRegistry.regCreate`.  The error message of the duplicate case reads
`pj.creator.name` of the entry already registered, which panics when that
creator is nil. -/
def patchJobRegistry.regCreate (r : patchJobRegistry) (name : String) (pj : Nat) (s : StepPtr) :
    Res DErr patchJobRegistry :=
  match r.m name with
  | some old =>
    match (r.mem old).creator with
    | some c => .fail (.alreadyCreated name c) r
    | none => .panic
  | none =>
    let mem1 : PatchJobHeap := fun a => if a = pj then { r.mem pj with creator := s } else r.mem a
    .ok { m := fun k => if k = name then some pj else r.m k, mem := mem1 }

/-- `patchJobRegistry.regUse`; `nestedDepends s c` is `s.nestedDepends(c)`. -/
def patchJobRegistry.regUse (nestedDepends : StepPtr → StepPtr → Bool) (r : patchJobRegistry)
    (name : String) (s : StepPtr) : Res DErr patchJobRegistry :=
  match r.m name with
  | none => .fail (.missingReference name) r
  | some pj =>
    match (r.mem pj).creator with
    | some c =>
      if !nestedDepends s (some c) then .fail (.mustDepend name c) r
      else .ok { r with mem := fun a =>
        if a = pj then { r.mem pj with users := (r.mem pj).users ++ [s] } else r.mem a }
    | none =>
      .ok { r with mem := fun a =>
        if a = pj then { r.mem pj with users := (r.mem pj).users ++ [s] } else r.mem a }

/-- A call on the registry made by a (non-nil) step. -/
inductive RegOp where
  | regCreate (name : String) (pj : Nat) (s : Nat)
  | regUse (name : String) (s : Nat)
  | setJob (name : String) (j : Option OsPatchJob)

/-- The descriptor a call registers, if it is a `regCreate`. -/
def RegOp.descriptor : RegOp → Option Nat
  | .regCreate _ pj _ => some pj
  | _ => none

/-- One registry call. -/
def RegOp.apply (nestedDepends : StepPtr → StepPtr → Bool) (r : patchJobRegistry) :
    RegOp → Res DErr patchJobRegistry
  | .regCreate name pj s => r.regCreate name pj (some s)
  | .regUse name s => r.regUse nestedDepends name (some s)
  | .setJob name j => r.setJob name j

/-- A sequence of registry calls; a call that returns an error leaves the
registry as that call left it and the sequence goes on; `none` on a panic. -/
def runOps (nestedDepends : StepPtr → StepPtr → Bool) :
    List RegOp → patchJobRegistry → Option patchJobRegistry
  | [], r => some r
  | op :: ops, r =>
    match op.apply nestedDepends r with
    | .ok r1 => runOps nestedDepends ops r1
    | .fail _ r1 => runOps nestedDepends ops r1
    | .panic => none

/-- What holds of a registry on which the calls made so far registered only
descriptors in `U`: a registered descriptor is in `U`, has a creator, and each
of its users depends on that creator; a descriptor outside `U` has no users. -/
def patchJobRegistry.Consistent (nestedDepends : StepPtr → StepPtr → Bool)
    (r : patchJobRegistry) (U : Nat → Prop) : Prop :=
  (∀ name pj, r.m name = some pj → U pj) ∧
  (∀ name pj, r.m name = some pj →
    ∃ c, (r.mem pj).creator = some c ∧ ∀ u ∈ (r.mem pj).users, nestedDepends u (some c) = true) ∧
  (∀ pj, ¬ U pj → (r.mem pj).users = [])

/-- Every name registered in `r` is registered in `r1` with the same descriptor
and the same creator. -/
def patchJobRegistry.Keeps (r r1 : patchJobRegistry) : Prop :=
  ∀ name pj, r.m name = some pj → r1.m name = some pj ∧ (r1.mem pj).creator = (r.mem pj).creator

/-! ## `step_await_patch_jobs.go` -/

/-- `type AwaitPatchJob struct`. -/
structure AwaitPatchJob where
  Name : String
  Interval : String
  interval : Int := 0
  deriving DecidableEq, Repr

/-- The `dErr` accumulated over a pass: nil, or the collected errors. -/
abbrev dErr := Option (List DErr)

/-- `AwaitPatchJobs.validate`.  The loop calls `addErrs(errs, regUse(...))` as a
statement: its result is not assigned, and `errs` is passed by value, so the
local `errs` keeps its zero value.  `addErrs` (declared outside these files) is
a parameter. -/
def AwaitPatchJobs.validate (addErrs : dErr → Option DErr → dErr)
    (nestedDepends : StepPtr → StepPtr → Bool)
    (a : List AwaitPatchJob) (s : Nat) (r : patchJobRegistry) : dErr × patchJobRegistry :=
  a.foldl
    (fun (acc : dErr × patchJobRegistry) aj =>
      let errs := acc.1
      match acc.2.regUse nestedDepends aj.Name (some s) with
      | .ok r1 => let _unused := addErrs errs none; (errs, r1)
      | .fail e r1 => let _unused := addErrs errs (some e); (errs, r1)
      | .panic => (errs, acc.2))
    (none, r)

/-- `AwaitPatchJobs.populate`.  `ParseDuration` is `time.ParseDuration` (its
result in nanoseconds; on an error Go returns the duration 0) and
`defaultInterval` the constant of that name, both declared outside these files.
As in `validate`, `addErrs(errs, err)` is called as a statement and its result
is not assigned.  Returns the error and the awaited jobs as the pass leaves
them. -/
def AwaitPatchJobs.populate (addErrs : dErr → Option DErr → dErr)
    (ParseDuration : String → Except GoErr Int) (defaultInterval : String)
    (a : List AwaitPatchJob) : dErr × List AwaitPatchJob :=
  a.foldl
    (fun (acc : dErr × List AwaitPatchJob) job =>
      let errs := acc.1
      let as1 : AwaitPatchJob :=
        if job.Interval = "" then { job with Interval := defaultInterval } else job
      match ParseDuration as1.Interval with
      | .ok d => (errs, acc.2 ++ [{ as1 with interval := d }])
      | .error err =>
        let _unused := addErrs errs (some (.wrapped err))
        (errs, acc.2 ++ [{ as1 with interval := 0 }]))
    (none, [])

/-- `isPatchJobFailureState`. -/
def isPatchJobFailureState (state : PatchJobState) : Bool :=
  state == .COMPLETED_WITH_ERRORS || state == .TIMED_OUT || state == .CANCELED

/-- What a polling worker of `AwaitPatchJobs.run` has done once the given
responses are consumed: it sent an error on the channel, it returned without
one, or it is still in its loop waiting for the next tick. -/
inductive AwaitEnd where
  | sent (e : DErr)
  | done
  | polling
  deriving DecidableEq, Repr

/-- The `for { select { case <-tick: ... } }` loop of a worker of
`AwaitPatchJobs.run`: `name` is the provider-side job name, `ajName` the
workflow-local one, `resps` the results of the successive `GetPatchJob` calls
(one per tick).  Returns the number of `GetPatchJob` calls made, how the worker
ended, and the registry (updated by `setJob`, whose result the loop ignores). -/
def AwaitPatchJobs.poll (name ajName : String) :
    List (Except GoErr OsPatchJob) → patchJobRegistry → Nat × AwaitEnd × patchJobRegistry
  | [], r => (0, .polling, r)
  | .error err :: _, r => (1, .sent (.fetching name err), r)
  | .ok res :: rest, r =>
    let r1 : patchJobRegistry :=
      match r.setJob ajName (some res) with
      | .ok r2 => r2
      | .fail _ r2 => r2
      | .panic => r
    if isPatchJobFailureState res.State then
      (1, .sent (.failureStatus res.State res.ErrorMessage), r1)
    else if res.State = .SUCCEEDED then
      (1, .done, r1)
    else
      let out := AwaitPatchJobs.poll name ajName rest r1
      (out.1 + 1, out.2.1, out.2.2)

/-- One worker goroutine of `AwaitPatchJobs.run` for the awaited job `aj`.
`time.Tick(aj.interval)` returns a nil channel when the interval is not
positive; the `select` then waits on it for ever and the worker never fetches
the job. -/
def AwaitPatchJobs.worker (aj : AwaitPatchJob) (resps : List (Except GoErr OsPatchJob))
    (r : patchJobRegistry) : Nat × AwaitEnd × patchJobRegistry :=
  match r.getJobName aj.Name with
  | .error e => (0, .sent e, r)
  | .ok name =>
    if aj.interval ≤ 0 then (0, .polling, r)
    else AwaitPatchJobs.poll name aj.Name resps r

/-- Text of a `dErr`, for the errors whose format string the claims speak of. -/
def DErr.text : DErr → String
  | .failureStatus state msg =>
    "failure status " ++ state.toString ++ " with message '" ++ msg ++ "'"
  | .missingReference name => "missing reference for PatchJob \"" ++ name ++ "\""
  | _ => ""

/-- The text `big` contains the text `small`. -/
def containsText (big small : String) : Prop :=
  small.data <:+: big.data

/-! ## `step_execute_patch_jobs.go` -/

/-- `ExecutePatchJobs.run`.  `exec i req` is the result of the provider call
`ExecutePatchJob(ctx, req)` when it is the `i`-th call of the run (counted from
`i`).  Returns the error, the requests sent to the provider in order, and the
descriptor objects. -/
def ExecutePatchJobs.run (exec : Nat → Option ExecutePatchJobRequest → Except GoErr OsPatchJob) :
    Nat → List Nat → PatchJobHeap →
      Option DErr × List (Option ExecutePatchJobRequest) × PatchJobHeap
  | _, [], mem => (none, [], mem)
  | i, j :: rest, mem =>
    match exec i (mem j).ExecutePatchJobRequest with
    | .error err => (some (.wrapped err), [(mem j).ExecutePatchJobRequest], mem)
    | .ok job =>
      let mem1 : PatchJobHeap := fun a => if a = j then { mem j with patchJob := some job } else mem a
      let out := ExecutePatchJobs.run exec (i + 1) rest mem1
      (out.1, (mem j).ExecutePatchJobRequest :: out.2.1, out.2.2)

/-! ## `step_create_machine_images.go`, `step_create_snapshots.go` -/

/-- `type Resource struct` (declared outside these files): the fields read here. -/
structure Resource where
  Project : String
  daisyName : String
  link : String
  deriving DecidableEq, Repr

/-- `type MachineImage struct`: the provider's `computeAlpha.MachineImage`
(`Name`, `Description`, `SourceInstance`), the embedded `Resource`, `OverWrite`. -/
structure MachineImage where
  Name : String
  Description : String
  SourceInstance : String
  Resource : Resource
  OverWrite : Bool
  deriving DecidableEq, Repr

/-- `type Snapshot struct`: the provider's `compute.Snapshot` (`Name`,
`Description`, `SourceDisk`), `GuestFlush`, `OverWrite`, the embedded `Resource`. -/
structure Snapshot where
  Name : String
  Description : String
  SourceDisk : String
  GuestFlush : Bool
  OverWrite : Bool
  Resource : Resource
  deriving DecidableEq, Repr

/-- A call on `w.ComputeClient`, with its arguments.  The last argument of the
two creation calls is the provider struct (`&ci.MachineImage`, `&cs.Snapshot`),
given by its `Name`, `Description` and source field. -/
inductive ProviderCall where
  | DeleteMachineImage (project name : String)
  | CreateMachineImage (project name description sourceInstance : String)
  | DeleteSnapshot (project name : String)
  | CreateSnapshot (project zone disk name description sourceDisk : String)
  deriving DecidableEq, Repr

/-- The provider client as seen by one worker: the result of each call. -/
structure ComputeClient where
  call : ProviderCall → Option GoErr

/-- The resource registries of the workflow that hold sources of machine
images and snapshots (`w.disks`, `w.instances`), each given by its `get`:
the resource registered under a workflow-local name, if any. -/
structure Registries where
  disks : String → Option Resource
  instances : String → Option Resource

/-- `err.(*googleapi.Error)` with `apiErr.Code != 404` negated: the delete error
is a provider error with code 404. -/
def GoErr.is404 : GoErr → Bool
  | .api code _ => code == 404
  | .other _ => false

/-- The first statement of a worker of `CreateMachineImages.run`:
`if d, ok := w.disks.get(ci.SourceInstance); ok { ci.SourceInstance = d.link }`. -/
def CreateMachineImages.resolveSource (w : Registries) (ci : MachineImage) : MachineImage :=
  match w.disks ci.SourceInstance with
  | some d => { ci with SourceInstance := d.link }
  | none => ci

/-- One worker goroutine of `CreateMachineImages.run` for descriptor `ci`.
Returns the provider calls issued in order, the error sent on the channel (if
any), and the descriptor. -/
def CreateMachineImages.worker (client : ComputeClient) (w : Registries)
    (ci : MachineImage) : List ProviderCall × Option DErr × MachineImage :=
  let ci1 : MachineImage := CreateMachineImages.resolveSource w ci
  let create := ProviderCall.CreateMachineImage ci1.Resource.Project ci1.Name ci1.Description
    ci1.SourceInstance
  if ci1.OverWrite then
    let del := ProviderCall.DeleteMachineImage ci1.Resource.Project ci1.Name
    match client.call del with
    | some err =>
      if !err.is404 then ([del], some (.deletingMachineImage err), ci1)
      else
        match client.call create with
        | some e => ([del, create], some (.wrapped e), ci1)
        | none => ([del, create], none, ci1)
    | none =>
      match client.call create with
      | some e => ([del, create], some (.wrapped e), ci1)
      | none => ([del, create], none, ci1)
  else
    match client.call create with
    | some e => ([create], some (.wrapped e), ci1)
    | none => ([create], none, ci1)

/-- The first statement of a worker of `CreateSnapshots.run`:
`if d, ok := w.disks.get(cs.SourceDisk); ok { cs.SourceDisk = d.link }`. -/
def CreateSnapshots.resolveSource (w : Registries) (cs : Snapshot) : Snapshot :=
  match w.disks cs.SourceDisk with
  | some d => { cs with SourceDisk := d.link }
  | none => cs

/-- One worker goroutine of `CreateSnapshots.run` for descriptor `cs`.
`namedSubexp src key` is `namedSubexp(diskURLRgx, src)[key]`. -/
def CreateSnapshots.worker (client : ComputeClient) (w : Registries)
    (namedSubexp : String → String → String)
    (cs : Snapshot) : List ProviderCall × Option DErr × Snapshot :=
  let cs1 : Snapshot := CreateSnapshots.resolveSource w cs
  let m := namedSubexp cs1.SourceDisk
  let create := ProviderCall.CreateSnapshot cs1.Resource.Project (m "zone") (m "disk") cs1.Name
    cs1.Description cs1.SourceDisk
  if cs1.OverWrite then
    let del := ProviderCall.DeleteSnapshot cs1.Resource.Project cs1.Name
    match client.call del with
    | some err =>
      if !err.is404 then ([del], some (.deletingSnapshot err), cs1)
      else
        match client.call create with
        | some e => ([del, create], some (.wrapped e), cs1)
        | none => ([del, create], none, cs1)
    | none =>
      match client.call create with
      | some e => ([del, create], some (.wrapped e), cs1)
      | none => ([del, create], none, cs1)
  else
    match client.call create with
    | some e => ([create], some (.wrapped e), cs1)
    | none => ([create], none, cs1)

/-! ## The goroutines of `CreateMachineImages.run` and `CreateSnapshots.run`

Both functions have the same body around their workers: an unbuffered channel
`e`, a wait group counting the workers, one goroutine that waits for the group
and then sends nil on `e`, and a final `select` between `<-e` and `<-w.Cancel`
whose cancellation branch calls `wg.Wait()` and returns nil.  The state below
records where each goroutine stands; `RunState.next` lists the states one step
later. -/

/-- Where a worker goroutine stands. -/
inductive WorkerPc where
  /-- Dispatched, its delete / creation calls in flight; `outcome` is the error
  the worker will have to report (nil if its calls succeed). -/
  | calling (outcome : Option DErr)
  /-- A call failed: blocked at `e <- err`, its deferred `wg.Done()` not yet run. -/
  | sending (err : DErr)
  /-- Returned; `wg.Done()` has run. -/
  | done
  deriving DecidableEq, Repr

/-- Where the goroutine `go func() { wg.Wait(); e <- nil }()` stands. -/
inductive CloserPc where
  | waiting
  | sending
  | done
  deriving DecidableEq, Repr

/-- Where `run` itself stands. -/
inductive MainPc where
  /-- At `select { case err := <-e: ...; case <-w.Cancel: ... }`. -/
  | selecting
  /-- In the branch `case <-w.Cancel`, at `wg.Wait()`. -/
  | draining
  /-- `run` has returned `err`. -/
  | returned (err : Option DErr)
  deriving DecidableEq, Repr

/-- The goroutines of one call of `run`; `cancelled` says that `w.Cancel` is
closed. -/
structure RunState where
  workers : List WorkerPc
  closer : CloserPc
  main : MainPc
  cancelled : Bool
  deriving DecidableEq, Repr

/-- `wg.Wait()` can return: every worker has run `wg.Done()`. -/
def RunState.allDone (s : RunState) : Bool :=
  s.workers.all (fun w => w == .done)

/-- The steps of worker `i`: its calls end (it returns, or goes to send its
error); a worker blocked at `e <- err` hands `err` over when `run` is at the
`select`, which makes `run` return `err`. -/
def RunState.workerSteps (s : RunState) (i : Nat) : List RunState :=
  match s.workers[i]? with
  | some (.calling none) => [{ s with workers := s.workers.set i .done }]
  | some (.calling (some err)) => [{ s with workers := s.workers.set i (.sending err) }]
  | some (.sending err) =>
    if s.main = .selecting then
      [{ s with workers := s.workers.set i .done, main := .returned (some err) }]
    else []
  | _ => []

/-- The steps of the goroutine `wg.Wait(); e <- nil`. -/
def RunState.closerSteps (s : RunState) : List RunState :=
  match s.closer with
  | .waiting => if s.allDone then [{ s with closer := .sending }] else []
  | .sending =>
    if s.main = .selecting then [{ s with closer := .done, main := .returned none }] else []
  | .done => []

/-- The workflow is cancelled (`w.Cancel` is closed). -/
def RunState.cancelSteps (s : RunState) : List RunState :=
  if s.cancelled then [] else [{ s with cancelled := true }]

/-- The steps of `run` that involve no other goroutine: taking the branch
`case <-w.Cancel`, and returning nil from it once `wg.Wait()` returns. -/
def RunState.mainSteps (s : RunState) : List RunState :=
  match s.main with
  | .selecting => if s.cancelled then [{ s with main := .draining }] else []
  | .draining => if s.allDone then [{ s with main := .returned none }] else []
  | .returned _ => []

/-- All states one step after `s`. -/
def RunState.next (s : RunState) : List RunState :=
  (List.range s.workers.length).flatMap s.workerSteps ++ s.closerSteps ++ s.cancelSteps ++
    s.mainSteps

/-- The state `t` is reached from `s` in some number of steps. -/
inductive RunState.Reaches : RunState → RunState → Prop where
  | refl (s : RunState) : RunState.Reaches s s
  | step (s t u : RunState) (h : t ∈ s.next) (rest : RunState.Reaches t u) : RunState.Reaches s u

/-- `run` just after it dispatched its workers, whose calls will end with the
given outcomes. -/
def RunState.start (outcomes : List (Option DErr)) : RunState :=
  { workers := outcomes.map WorkerPc.calling, closer := .waiting, main := .selecting,
    cancelled := false }

/-! ## `machine_image.go`, `snapshot.go`: existence caches, `validate`, `deleteFn` -/

/-- A provider resource as returned by a listing call (`*computeAlpha.MachineImage`,
`*compute.Snapshot`): the field the caches read. -/
structure Listed where
  Name : String
  deriving DecidableEq, Repr

/-- `machineImageCache.exists` / `snapshotCache.exists`: a nil map, or a map from
project to the listing cached for it. -/
abbrev ExistsCache := Option (String → Option (List Listed))

/-- The cached listing of a project, if any (a nil map has none). -/
def ExistsCache.listing (cache : ExistsCache) (project : String) : Option (List Listed) :=
  match cache with
  | none => none
  | some m => m project

/-- The common body of `machineImageExists` and `snapshotExists`, which differ in
the listing call and in the text of the empty-name error (`noName`).  `list` is
what the provider's listing call answers at the time of the query.  Returns the
pair `(bool, dErr)`, the number of listing calls made, and the cache. -/
def cacheExists (noName : DErr) (list : String → Except GoErr (List Listed))
    (cache : ExistsCache) (project name : String) : (Bool × Option DErr) × Nat × ExistsCache :=
  if name = "" then ((false, some noName), 0, cache)
  else
    let m : String → Option (List Listed) :=
      match cache with
      | none => fun _ => none
      | some m0 => m0
    match m project with
    | none =>
      match list project with
      | .error err => ((false, some (.listing project err)), 1, some m)
      | .ok il =>
        ((il.any (fun i => name == i.Name), none), 1,
          some (fun p => if p = project then some il else m p))
    | some il => ((il.any (fun i => name == i.Name), none), 0, some m)

/-- `machineImageExists`; `list` is `client.ListMachineImages`. -/
def machineImageExists (list : String → Except GoErr (List Listed))
    (cache : ExistsCache) (project name : String) : (Bool × Option DErr) × Nat × ExistsCache :=
  cacheExists .mustProvideName list cache project name

/-- `snapshotExists`; `list` is `client.ListSnapshots`. -/
def snapshotExists (list : String → Except GoErr (List Listed))
    (cache : ExistsCache) (project name : String) : (Bool × Option DErr) × Nat × ExistsCache :=
  cacheExists .mustProvideSnapshotName list cache project name

/-- One query of an existence cache: the project and name asked for, and what
the provider's listing call would answer at that time. -/
structure ExistsQuery where
  list : String → Except GoErr (List Listed)
  project : String
  name : String

/-- Successive queries on one process-wide cache (`noName` selects the function,
as in `cacheExists`): the answers with the number of listing calls each made,
and the final cache. -/
def cacheQueries (noName : DErr) :
    List ExistsQuery → ExistsCache → List ((Bool × Option DErr) × Nat) × ExistsCache
  | [], cache => ([], cache)
  | q :: rest, cache =>
    let out := cacheExists noName q.list cache q.project q.name
    let outs := cacheQueries noName rest out.2.2
    ((out.1, out.2.1) :: outs.1, outs.2)

/-- Successive queries of `machineImageExists` on `machineImageCache`. -/
def machineImageQueries (qs : List ExistsQuery) (cache : ExistsCache) :
    List ((Bool × Option DErr) × Nat) × ExistsCache :=
  cacheQueries .mustProvideName qs cache

/-- Successive queries of `snapshotExists` on `snapshotCache`. -/
def snapshotQueries (qs : List ExistsQuery) (cache : ExistsCache) :
    List ((Bool × Option DErr) × Nat) × ExistsCache :=
  cacheQueries .mustProvideSnapshotName qs cache

/-- Modelled from the spec: `addErrs` is declared outside these files; it
aggregates the errors of a pass: a nil error adds nothing, a non-nil one is
collected. -/
def addErrs (e : dErr) (err : Option DErr) : dErr :=
  match err with
  | none => e
  | some x => some (e.getD [] ++ [x])

/-- A call on one of the workflow's resource registries made by `validate`. -/
inductive RegistryCall where
  | instancesRegUse (name : String) (s : Nat)
  | disksRegUse (name : String) (s : Nat)
  | machineImagesRegCreate (name : String) (res : Resource) (s : Nat) (overWrite : Bool)
  | snapshotsRegCreate (name : String) (res : Resource) (s : Nat) (overWrite : Bool)
  deriving DecidableEq, Repr

/-- The resource registries of the workflow as seen by one `validate` call: the
error each call returns (`regUse`, `regCreate` of `baseResourceRegistry` are
declared outside these files). -/
structure RegistryAnswers where
  call : RegistryCall → Option DErr

/-- `MachineImage.validate`.  `resourceErrs` is the result of
`i.Resource.validate(ctx, s, pre)`; `newErr` of a `dErr` is that `dErr`.
Returns the error and the registry calls made, in order. -/
def MachineImage.validate (resourceErrs : dErr) (w : RegistryAnswers) (i : MachineImage)
    (s : Nat) : dErr × List RegistryCall :=
  let errs := resourceErrs
  if i.SourceInstance = "" then
    (addErrs errs (some (.mustProvideSourceInstance i.Resource.daisyName)), [])
  else
    let use := RegistryCall.instancesRegUse i.SourceInstance s
    match w.call use with
    | some err => (addErrs errs (some err), [use])
    | none =>
      let create := RegistryCall.machineImagesRegCreate i.Resource.daisyName i.Resource s
        i.OverWrite
      (addErrs errs (w.call create), [use, create])

/-- `Snapshot.validate`, as `MachineImage.validate`. -/
def Snapshot.validate (resourceErrs : dErr) (w : RegistryAnswers) (sn : Snapshot)
    (st : Nat) : dErr × List RegistryCall :=
  let errs := resourceErrs
  if sn.SourceDisk = "" then
    (addErrs errs (some (.mustProvideSourceDisk sn.Resource.daisyName)), [])
  else
    let use := RegistryCall.disksRegUse sn.SourceDisk st
    match w.call use with
    | some err => (addErrs errs (some err), [use])
    | none =>
      let create := RegistryCall.snapshotsRegCreate sn.Resource.daisyName sn.Resource st
        sn.OverWrite
      let errs1 := addErrs errs (w.call create)
      (errs1, [use, create])

/-- The URL regular expressions of the package that these files name. -/
inductive URLRgx where
  | imageURLRgx
  | machineImageURLRgx
  | snapshotURLRgx
  | diskURLRgx
  | instanceURLRgx
  deriving DecidableEq, Repr

/-- `machineImageRegistry.deleteFn`.  `namedSubexp re s key` is
`namedSubexp(re, s)[key]` (the empty string for a key the map lacks).  Returns
the provider call issued and the error. -/
def machineImageRegistry.deleteFn (namedSubexp : URLRgx → String → String → String)
    (client : ComputeClient) (res : Resource) : ProviderCall × Option DErr :=
  let m := namedSubexp .imageURLRgx res.link
  let del := ProviderCall.DeleteMachineImage (m "project") (m "machineImage")
  match client.call del with
  | some (.api code msg) =>
    if code = 404 then (del, some (.resourceDNE (.api code msg)))
    else (del, some (.wrapped (.api code msg)))
  | some err => (del, some (.wrapped err))
  | none => (del, none)

/-- `snapshotRegistry.deleteFn`. -/
def snapshotRegistry.deleteFn (namedSubexp : URLRgx → String → String → String)
    (client : ComputeClient) (res : Resource) : ProviderCall × Option DErr :=
  let m := namedSubexp .snapshotURLRgx res.link
  let del := ProviderCall.DeleteSnapshot (m "project") (m "snapshot")
  match client.call del with
  | some (.api code msg) =>
    if code = 404 then (del, some (.resourceDNE (.api code msg)))
    else (del, some (.wrapped (.api code msg)))
  | some err => (del, some (.wrapped err))
  | none => (del, none)

/-! ## `chained_workflow.go` -/

/-- Modelled from the spec: `type Workflow struct` is declared outside these
files; these are the fields the chain reads and writes.  `Vars` lists the
declared variables with their values. -/
structure Workflow where
  Name : String
  Project : String
  Zone : String
  GCSPath : String
  OAuthPath : String
  Vars : List (String × String)
  externalLogging : Bool
  deriving DecidableEq, Repr

/-- `type Link struct`.  `Workflow` is the `*Workflow` inside `linkedWorkflow`;
`Vars` lists the map in the order the `range` loop visits it. -/
structure Link where
  Name : String
  Project : String
  Zone : String
  GCSPath : String
  OAuthPath : String
  Workflow : Option Nat
  Vars : List (String × String)
  OnSuccess : String
  OnFailure : String
  number : Nat
  onSuccess : Option Nat
  onFailure : Option Nat
  deriving DecidableEq, Repr

/-- `type ChainedWorkflow struct`. -/
structure ChainedWorkflow where
  Name : String
  Project : String
  Zone : String
  GCSPath : String
  OAuthPath : String
  Chain : List Nat
  entry : Option Nat
  externalLogging : Bool
  deriving DecidableEq, Repr

/-- The `Link` and `Workflow` objects, by address. -/
structure ChainMem where
  links : Nat → Link
  wfs : Nat → Workflow

/-- Write a `Link` object. -/
def ChainMem.setLink (mem : ChainMem) (a : Nat) (l : Link) : ChainMem :=
  { mem with links := fun b => if b = a then l else mem.links b }

/-- Write a `Workflow` object. -/
def ChainMem.setWf (mem : ChainMem) (a : Nat) (w : Workflow) : ChainMem :=
  { mem with wfs := fun b => if b = a then w else mem.wfs b }

/-- The methods of `Workflow` the chain calls (declared outside these files):
each takes the workflow's address and value; `PopulateClients` and `populate`
return the workflow as they leave it and their error, `Run` its error. -/
structure WorkflowOps where
  PopulateClients : Nat → Workflow → Workflow × Option String
  populate : Nat → Workflow → Workflow × Option String
  Run : Option Nat → Option String

/-- The errors built in `chained_workflow.go`. -/
inductive ChainErr where
  /-- `"Project field must be set in ChainedWorkflow"` -/
  | projectUnset
  /-- `"link entry %d must have a name"` -/
  | noName (number : Nat)
  /-- `"link entry %d: duplicate name %q with link entry %d"` -/
  | duplicateName (number : Nat) (name : String) (oldNumber : Nat)
  /-- `"linked workflow %q cannot be blank"` -/
  | blankWorkflow (chainName : String)
  /-- `"link %q: unknown Var %q"` -/
  | unknownVar (link key : String)
  /-- `"link %q: error running PopulateClients: %v"` -/
  | populateClients (link err : String)
  /-- `"link %q: error running populate on workflow: %v"` -/
  | populateWorkflow (link err : String)
  /-- `"OnSuccess link %q does not exist"` -/
  | onSuccessMissing (name : String)
  /-- `"OnFailure link %q does not exist"` -/
  | onFailureMissing (name : String)
  /-- `"a Link's onSuccess cannot be itself"` -/
  | selfOnSuccess
  /-- `"a Link's onFailure cannot be itself"` -/
  | selfOnFailure
  deriving DecidableEq, Repr

/-- Modelled from the spec: `strOr` is declared outside these files; the chain's
value is the default used when the link's own value is empty. -/
def strOr (s dflt : String) : String :=
  if s = "" then dflt else s

/-- Modelled from the spec: `Workflow.AddVar` is declared outside these files; it
sets variable `k` of the workflow to `v`. -/
def Workflow.AddVar (w : Workflow) (k v : String) : Workflow :=
  if w.Vars.any (fun kv => kv.1 == k) then
    { w with Vars := w.Vars.map (fun kv => if kv.1 = k then (k, v) else kv) }
  else
    { w with Vars := w.Vars ++ [(k, v)] }

/-- `Link.SetOnSuccess`; `l` is the receiver. -/
def Link.SetOnSuccess (mem : ChainMem) (l : Option Nat) (onSuccess : Option Nat) :
    Res ChainErr ChainMem :=
  if l = onSuccess then .fail .selfOnSuccess mem
  else
    match l with
    | none => .panic
    | some a => .ok (mem.setLink a { mem.links a with onSuccess := onSuccess })

/-- `Link.SetOnFailure`; `l` is the receiver. -/
def Link.SetOnFailure (mem : ChainMem) (l : Option Nat) (onFailure : Option Nat) :
    Res ChainErr ChainMem :=
  if l = onFailure then .fail .selfOnFailure mem
  else
    match l with
    | none => .panic
    | some a => .ok (mem.setLink a { mem.links a with onFailure := onFailure })

/-- `Link.addVar`; `l` is the receiver. -/
def Link.addVar (mem : ChainMem) (l : Nat) (k v : String) : Res ChainErr ChainMem :=
  match (mem.links l).Workflow with
  | none => .panic
  | some w =>
    if (mem.wfs w).Vars.any (fun kv => kv.1 == k) then
      .ok (mem.setWf w ((mem.wfs w).AddVar k v))
    else
      .fail (.unknownVar (mem.links l).Name k) mem

/-- How a run of a chain ended. -/
inductive RunErr where
  | build (e : ChainErr)
  | workflow (msg : String)
  deriving DecidableEq, Repr

/-- Result of `Link.run` / `ChainedWorkflow.Run`: it returned (nil or an error),
it dereferenced a nil `*Link`, or the recursion is deeper than the fuel. -/
inductive RunEnd where
  | returned (err : Option RunErr)
  | panicked
  | outOfFuel
  deriving DecidableEq, Repr

/-- `Link.run`, with the receiver `l` and a bound on the recursion depth.
Returns the links whose workflow was run, in order, and how the run ended. -/
def Link.run (wfRun : Option Nat → Option String) (mem : ChainMem) :
    Nat → Option Nat → List Nat × RunEnd
  | 0, _ => ([], .outOfFuel)
  | _ + 1, none => ([], .panicked)
  | fuel + 1, some l =>
    match wfRun (mem.links l).Workflow with
    | some err =>
      if (mem.links l).onFailure ≠ none then
        let out := Link.run wfRun mem fuel (mem.links l).onFailure
        (l :: out.1, out.2)
      else (l :: [], .returned (some (.workflow err)))
    | none =>
      if (mem.links l).onFailure ≠ none then
        let out := Link.run wfRun mem fuel (mem.links l).onSuccess
        (l :: out.1, out.2)
      else (l :: [], .returned none)

/-- The first loop of `ChainedWorkflow.populate`: numbers the links and fills
the name map `m`; `i` is the loop index. -/
def ChainedWorkflow.populateNames :
    Nat → List Nat → (String → Option Nat) → Option Nat → ChainMem →
      Res ChainErr ((String → Option Nat) × Option Nat × ChainMem)
  | _, [], m, entry, mem => .ok (m, entry, mem)
  | i, link :: rest, m, entry, mem =>
    let mem1 := mem.setLink link { mem.links link with number := i + 1 }
    let l := mem1.links link
    if l.Name = "" then .fail (.noName l.number) (m, entry, mem1)
    else
      match m l.Name with
      | some old => .fail (.duplicateName l.number l.Name (mem1.links old).number) (m, entry, mem1)
      | none =>
        ChainedWorkflow.populateNames (i + 1) rest
          (fun k => if k = l.Name then some link else m k)
          (if l.number = 1 then some link else entry) mem1

/-- The `for k, v := range link.Vars` loop of `ChainedWorkflow.populate`. -/
def ChainedWorkflow.populateVars (link : Nat) :
    List (String × String) → ChainMem → Res ChainErr ChainMem
  | [], mem => .ok mem
  | (k, v) :: rest, mem =>
    match Link.addVar mem link k v with
    | .ok mem1 => ChainedWorkflow.populateVars link rest mem1
    | .fail e mem1 => .fail e mem1
    | .panic => .panic

/-- The end of the body of the second loop of `ChainedWorkflow.populate`:
resolving `OnSuccess` and `OnFailure`.  The results of `SetOnSuccess` and
`SetOnFailure` are not looked at. -/
def ChainedWorkflow.populateContinuations (m : String → Option Nat) (link : Nat)
    (mem : ChainMem) : Res ChainErr ChainMem :=
  let afterSuccess : Res ChainErr ChainMem :=
    if (mem.links link).OnSuccess ≠ "" then
      match m (mem.links link).OnSuccess with
      | none => .fail (.onSuccessMissing (mem.links link).OnSuccess) mem
      | some onSuccess =>
        match Link.SetOnSuccess mem (some link) (some onSuccess) with
        | .ok mem1 => .ok mem1
        | .fail _ mem1 => .ok mem1
        | .panic => .panic
    else .ok mem
  match afterSuccess with
  | .fail e mem1 => .fail e mem1
  | .panic => .panic
  | .ok mem1 =>
    if (mem1.links link).OnFailure ≠ "" then
      match m (mem1.links link).OnFailure with
      | none => .fail (.onFailureMissing (mem1.links link).OnFailure) mem1
      | some onFailure =>
        match Link.SetOnFailure mem1 (some link) (some onFailure) with
        | .ok mem2 => .ok mem2
        | .fail _ mem2 => .ok mem2
        | .panic => .panic
    else .ok mem1

/-- The body of the second loop of `ChainedWorkflow.populate` for one link. -/
def ChainedWorkflow.populateLink (ops : WorkflowOps) (c : ChainedWorkflow)
    (m : String → Option Nat) (link : Nat) (mem : ChainMem) : Res ChainErr ChainMem :=
  match (mem.links link).Workflow with
  | none => .fail (.blankWorkflow c.Name) mem
  | some w =>
    let l0 := mem.links link
    let l1 : Link := { l0 with
      Project := strOr l0.Project c.Project
      Zone := strOr l0.Zone c.Zone
      GCSPath := strOr l0.GCSPath c.GCSPath
      OAuthPath := strOr l0.OAuthPath c.OAuthPath }
    let mem1 := mem.setLink link l1
    let mem2 := mem1.setWf w { mem1.wfs w with
      Name := l1.Name
      Project := l1.Project
      Zone := l1.Zone
      GCSPath := l1.GCSPath
      OAuthPath := l1.OAuthPath }
    match ChainedWorkflow.populateVars link l1.Vars mem2 with
    | .fail e mem3 => .fail e mem3
    | .panic => .panic
    | .ok mem3 =>
      let clients := ops.PopulateClients w { mem3.wfs w with externalLogging := c.externalLogging }
      let mem4 := mem3.setWf w clients.1
      match clients.2 with
      | some err => .fail (.populateClients (mem4.links link).Name err) mem4
      | none =>
        let populated := ops.populate w (mem4.wfs w)
        let mem5 := mem4.setWf w populated.1
        match populated.2 with
        | some err => .fail (.populateWorkflow (mem5.links link).Name err) mem5
        | none => ChainedWorkflow.populateContinuations m link mem5

/-- The second loop of `ChainedWorkflow.populate`. -/
def ChainedWorkflow.populateLinks (ops : WorkflowOps) (c : ChainedWorkflow)
    (m : String → Option Nat) : List Nat → ChainMem → Res ChainErr ChainMem
  | [], mem => .ok mem
  | link :: rest, mem =>
    match ChainedWorkflow.populateLink ops c m link mem with
    | .ok mem1 => ChainedWorkflow.populateLinks ops c m rest mem1
    | .fail e mem1 => .fail e mem1
    | .panic => .panic

/-- `ChainedWorkflow.populate` (the build pass). -/
def ChainedWorkflow.populate (ops : WorkflowOps) (c : ChainedWorkflow) (mem : ChainMem) :
    Res ChainErr (ChainedWorkflow × ChainMem) :=
  if c.Project = "" then .fail .projectUnset (c, mem)
  else
    match ChainedWorkflow.populateNames 0 c.Chain (fun _ => none) c.entry mem with
    | .panic => .panic
    | .fail e (_, entry, mem1) => .fail e ({ c with entry := entry }, mem1)
    | .ok (m, entry, mem1) =>
      match ChainedWorkflow.populateLinks ops c m c.Chain mem1 with
      | .panic => .panic
      | .fail e mem2 => .fail e ({ c with entry := entry }, mem2)
      | .ok mem2 => .ok ({ c with entry := entry }, mem2)

/-- `ChainedWorkflow.Run`, with a bound on the recursion depth of `Link.run`.
Returns the links whose workflow was run, in order, and how the run ended. -/
def ChainedWorkflow.Run (ops : WorkflowOps) (fuel : Nat) (c : ChainedWorkflow)
    (mem : ChainMem) : List Nat × RunEnd :=
  match ChainedWorkflow.populate ops { c with externalLogging := true } mem with
  | .fail e _ => ([], .returned (some (.build e)))
  | .panic => ([], .panicked)
  | .ok (c1, mem1) => Link.run ops.Run mem1 fuel c1.entry

/-- The `if link.OnSuccess != "" { ... }` statement of `ChainedWorkflow.populate`,
the first half of `populateContinuations`. -/
def ChainedWorkflow.resolveOnSuccess (m : String → Option Nat) (link : Nat)
    (mem : ChainMem) : Res ChainErr ChainMem :=
  if (mem.links link).OnSuccess ≠ "" then
    match m (mem.links link).OnSuccess with
    | none => .fail (.onSuccessMissing (mem.links link).OnSuccess) mem
    | some onSuccess =>
      match Link.SetOnSuccess mem (some link) (some onSuccess) with
      | .ok mem1 => .ok mem1
      | .fail _ mem1 => .ok mem1
      | .panic => .panic
  else .ok mem

/-- The `if link.OnFailure != "" { ... }` statement of `ChainedWorkflow.populate`,
the second half of `populateContinuations`. -/
def ChainedWorkflow.resolveOnFailure (m : String → Option Nat) (link : Nat)
    (mem : ChainMem) : Res ChainErr ChainMem :=
  if (mem.links link).OnFailure ≠ "" then
    match m (mem.links link).OnFailure with
    | none => .fail (.onFailureMissing (mem.links link).OnFailure) mem
    | some onFailure =>
      match Link.SetOnFailure mem (some link) (some onFailure) with
      | .ok mem2 => .ok mem2
      | .fail _ mem2 => .ok mem2
      | .panic => .panic
  else .ok mem

/-- The link after the four `strOr` assignments of `ChainedWorkflow.populate`. -/
def ChainedWorkflow.cascadeLink (c : ChainedWorkflow) (l0 : Link) : Link :=
  { l0 with
    Project := strOr l0.Project c.Project
    Zone := strOr l0.Zone c.Zone
    GCSPath := strOr l0.GCSPath c.GCSPath
    OAuthPath := strOr l0.OAuthPath c.OAuthPath }

/-- The linked workflow after the five assignments from the link `l1`. -/
def ChainedWorkflow.cascadeWorkflow (l1 : Link) (wf : Workflow) : Workflow :=
  { wf with
    Name := l1.Name
    Project := l1.Project
    Zone := l1.Zone
    GCSPath := l1.GCSPath
    OAuthPath := l1.OAuthPath }

/-- The state a call left, if it returned. -/
def Res.state? {ε σ : Type} : Res ε σ → Option σ
  | .ok st => some st
  | .fail _ st => some st
  | .panic => none

/-- The call returned (nil or an error) and left the state `st`. -/
def Res.Leaves {ε σ : Type} (r : Res ε σ) (st : σ) : Prop :=
  r = .ok st ∨ ∃ e, r = .fail e st

/-- The workflow declares the variable `k`. -/
def Workflow.declares (w : Workflow) (k : String) : Bool :=
  w.Vars.any (fun kv => kv.1 == k)

/-- The value of the variable `k` of the workflow, if it has one. -/
def Workflow.varValue (w : Workflow) (k : String) : Option String :=
  (w.Vars.find? (fun kv => kv.1 == k)).map (fun kv => kv.2)

/-- The fields of a link that the user declares and the build pass only reads:
`Name`, `Workflow`, `Vars`, `OnSuccess`, `OnFailure`. -/
def Link.declared (l : Link) : String × Option Nat × List (String × String) × String × String :=
  (l.Name, l.Workflow, l.Vars, l.OnSuccess, l.OnFailure)

/-- The values the build pass cascades, as the link holds them: `Name`,
`Project`, `Zone`, `GCSPath`, `OAuthPath`. -/
def Link.cascaded (l : Link) : String × String × String × String × String :=
  (l.Name, l.Project, l.Zone, l.GCSPath, l.OAuthPath)

/-- The values the build pass cascades, as the workflow holds them. -/
def Workflow.cascaded (w : Workflow) : String × String × String × String × String :=
  (w.Name, w.Project, w.Zone, w.GCSPath, w.OAuthPath)

/-- The link `l1` is the link `l2` but for its `number`. -/
def Link.sameButNumber (l1 l2 : Link) : Prop :=
  l1 = { l2 with number := l1.number }

/-- The cascade has been applied to the link `l`: the four `strOr` assignments
would not change it, and its linked workflow (if any) holds its Name, Project,
Zone, GCSPath and OAuthPath. -/
def ChainMem.Settled (c : ChainedWorkflow) (mem : ChainMem) (l : Nat) : Prop :=
  (ChainedWorkflow.cascadeLink c (mem.links l)).cascaded = (mem.links l).cascaded ∧
  ∀ w, (mem.links l).Workflow = some w → (mem.wfs w).cascaded = (mem.links l).cascaded

/-- No link is its own success or failure continuation. -/
def ChainMem.NoSelf (mem : ChainMem) : Prop :=
  ∀ a, (mem.links a).onSuccess ≠ some a ∧ (mem.links a).onFailure ≠ some a

/-- A call that changes continuation pointers. -/
inductive ChainOp where
  | SetOnSuccess (l : Option Nat) (onSuccess : Option Nat)
  | SetOnFailure (l : Option Nat) (onFailure : Option Nat)
  | populate (ops : WorkflowOps) (c : ChainedWorkflow)

/-- The objects after a call of `Link.SetOnSuccess`, `Link.SetOnFailure` or
`ChainedWorkflow.populate`, whether it returned nil or an error; a call that
panics has written nothing. -/
def ChainOp.apply (mem : ChainMem) : ChainOp → ChainMem
  | .SetOnSuccess l onSuccess =>
    match Link.SetOnSuccess mem l onSuccess with
    | .ok mem1 => mem1
    | .fail _ mem1 => mem1
    | .panic => mem
  | .SetOnFailure l onFailure =>
    match Link.SetOnFailure mem l onFailure with
    | .ok mem1 => mem1
    | .fail _ mem1 => mem1
    | .panic => mem
  | .populate ops c =>
    match ChainedWorkflow.populate ops c mem with
    | .ok st => st.2
    | .fail _ st => st.2
    | .panic => mem

/-- A sequence of such calls. -/
def runChainOps : List ChainOp → ChainMem → ChainMem
  | [], mem => mem
  | op :: rest, mem => runChainOps rest (op.apply mem)

/-- The link `t` is a continuation of the link `l`: `l.onSuccess` or
`l.onFailure` points to it. -/
def Link.follows (mem : ChainMem) (l t : Nat) : Prop :=
  (mem.links l).onSuccess = some t ∨ (mem.links l).onFailure = some t

/-- The continuation pointers of the links `nodes` form an acyclic graph: no
link of `nodes` is reached from itself by following one or more pointers. -/
def ChainMem.Acyclic (mem : ChainMem) (nodes : List Nat) : Prop :=
  ∀ l ∈ nodes, ¬ Relation.TransGen (Link.follows mem) l l

/-- The continuations of the links `nodes` are links of `nodes`. -/
def ChainMem.Closed (mem : ChainMem) (nodes : List Nat) : Prop :=
  ∀ l ∈ nodes, ∀ t, Link.follows mem l t → t ∈ nodes

/-- The project argument of a provider call. -/
def ProviderCall.project : ProviderCall → String
  | .DeleteMachineImage project _ => project
  | .CreateMachineImage project _ _ _ => project
  | .DeleteSnapshot project _ => project
  | .CreateSnapshot project _ _ _ _ _ => project

/-! ## `populate` of the resource descriptors (`snapshot.go`, `machine_image.go`, `patch_jobs.go`) -/

/-- The value of `s.w.osconfigClient` when it is not nil: a client returned by
`osconfig.NewClient` for the given credential files, or the placeholder
`&osconfig.Client{}` stored after a failed connection. -/
inductive OsconfigClient where
  | connected (credentialsFiles : List String)
  | placeholder
  deriving DecidableEq, Repr

/-- The fields of the workflow `s.w` that the `populate` methods of the
descriptors read and write (`type Workflow struct` is declared outside these
files). -/
structure StepWorkflow where
  Name : String
  Project : String
  OAuthPath : String
  username : String
  osconfigClient : Option OsconfigClient
  deriving DecidableEq, Repr

/-- Code outside these files that the `populate` methods call:
`Resource.populateWithGlobal` (it may write the resource and returns the name
and the errors), the verb `%q` of `fmt.Sprintf`, `MatchString` of the URL
patterns, `extendPartialURL`, and `osconfig.NewClient` (by the credential files
given as options). -/
structure PopulateEnv where
  populateWithGlobal : Resource → StepWorkflow → String → Resource × String × dErr
  quote : String → String
  MatchString : URLRgx → String → Bool
  extendPartialURL : String → String → String
  NewClient : List String → Except GoErr OsconfigClient

/-- `Snapshot.populate`; `w` is `st.w`.  Returns the errors and the descriptor. -/
def Snapshot.populate (env : PopulateEnv) (w : StepWorkflow) (s : Snapshot) : dErr × Snapshot :=
  let out := env.populateWithGlobal s.Resource w s.Name
  let s1 : Snapshot := { s with Resource := out.1, Name := out.2.1 }
  let errs := out.2.2
  let s2 : Snapshot :=
    { s1 with
      Description := strOr s1.Description
        ("Snapshot created by Daisy in workflow " ++ env.quote w.Name ++ " on behalf of " ++
          w.username ++ ".") }
  let s3 : Snapshot :=
    if env.MatchString .diskURLRgx s2.SourceDisk then
      { s2 with SourceDisk := env.extendPartialURL s2.SourceDisk w.Project }
    else s2
  (errs,
    { s3 with
      Resource :=
        { s3.Resource with link := "projects/" ++ w.Project ++ "/global/snapshots/" ++ s3.Name } })

/-- `MachineImage.populate`; `w` is `s.w`.  Returns the errors and the descriptor. -/
def MachineImage.populate (env : PopulateEnv) (w : StepWorkflow) (i : MachineImage) :
    dErr × MachineImage :=
  let out := env.populateWithGlobal i.Resource w i.Name
  let i1 : MachineImage := { i with Resource := out.1, Name := out.2.1 }
  let errs := out.2.2
  let i2 : MachineImage :=
    { i1 with
      Description := strOr i1.Description
        ("Machine image created by Daisy in workflow " ++ env.quote w.Name ++ " on behalf of " ++
          w.username ++ ".") }
  let i3 : MachineImage :=
    if env.MatchString .instanceURLRgx i2.SourceInstance then
      { i2 with SourceInstance := env.extendPartialURL i2.SourceInstance i2.Resource.Project }
    else i2
  (errs,
    { i3 with
      Resource :=
        { i3.Resource with
          link := "projects/" ++ i3.Resource.Project ++ "/global/machineImages/" ++ i3.Name } })

/-- `strings.HasPrefix(s, pre)`. -/
def HasPrefix (s pre : String) : Bool :=
  pre.data.isPrefixOf s.data

/-- `PatchJob.populate`; `w` is `s.w`.  Returns the workflow and the descriptor as
the call leaves them; dereferences nil when the descriptor has no request. -/
def PatchJob.populate (env : PopulateEnv) (w : StepWorkflow) (j : PatchJob) :
    Res DErr (StepWorkflow × PatchJob) :=
  let normalise (w1 : StepWorkflow) : Res DErr (StepWorkflow × PatchJob) :=
    match j.ExecutePatchJobRequest with
    | none => .panic
    | some r =>
      let parent := strOr r.Parent w1.Project
      let parent1 := if !HasPrefix parent "projects/" then "projects/" ++ parent else parent
      let description := strOr r.Description
        ("PatchJob created by Daisy in workflow " ++ env.quote w1.Name ++ " on behalf of " ++
          w1.username ++ ".")
      .ok (w1,
        { j with ExecutePatchJobRequest := some { Parent := parent1, Description := description } })
  match w.osconfigClient with
  | none =>
    let opts : List String := if w.OAuthPath ≠ "" then [w.OAuthPath] else []
    match env.NewClient opts with
    | .error err => .fail (.wrapped err) ({ w with osconfigClient := some .placeholder }, j)
    | .ok client => normalise { w with osconfigClient := some client }
  | some _ => normalise w

/-! ## Example states -/

/-- A populated chain A, B, C at addresses 0, 1, 2, with workflows 0, 1, 2:
A continues with B on success, B with C on failure, C has no continuation. -/
def exampleChainMem : ChainMem where
  links := fun a =>
    if a = 0 then
      { Name := "A", Project := "p", Zone := "", GCSPath := "", OAuthPath := "",
        Workflow := some 0, Vars := [], OnSuccess := "B", OnFailure := "", number := 1,
        onSuccess := some 1, onFailure := none }
    else if a = 1 then
      { Name := "B", Project := "p", Zone := "", GCSPath := "", OAuthPath := "",
        Workflow := some 1, Vars := [], OnSuccess := "", OnFailure := "C", number := 2,
        onSuccess := none, onFailure := some 2 }
    else
      { Name := "C", Project := "p", Zone := "", GCSPath := "", OAuthPath := "",
        Workflow := some 2, Vars := [], OnSuccess := "", OnFailure := "", number := 3,
        onSuccess := none, onFailure := none }
  wfs := fun _ =>
    { Name := "", Project := "p", Zone := "", GCSPath := "", OAuthPath := "", Vars := [],
      externalLogging := true }

/-- Outcomes for `exampleChainMem`: the workflow of B fails, the others succeed. -/
def exampleOutcomes : Option Nat → Option String
  | some 1 => some "B failed"
  | _ => none

/-- Descriptor objects no registry has touched yet. -/
def freshPatchJobs : PatchJobHeap := fun _ =>
  { Name := "", ExecutePatchJobRequest := none, patchJob := none, creator := none, users := [] }

/-- A registry in which step 7 has created patch job "a" (descriptor 0). -/
def exampleRegistry : patchJobRegistry where
  m := fun k => if k = "a" then some 0 else none
  mem := fun a =>
    if a = 0 then
      { Name := "a", ExecutePatchJobRequest := none, patchJob := none, creator := some 7,
        users := [] }
    else freshPatchJobs a

/-- A dependency relation in which step 8 depends on step 7 and nothing else holds. -/
def exampleDepends : StepPtr → StepPtr → Bool
  | some 8, some 7 => true
  | _, _ => false

/-- Calls made on `exampleRegistry`-like registries: step 7 creates "a" with
descriptor 0, step 8 uses it. -/
def exampleOps1 : List RegOp :=
  [.regCreate "a" 0 7, .regUse "a" 8]

/-- Further calls: the job of "a" is stored, step 9 creates "b" with descriptor 1,
and step 9 tries to create "a" again with descriptor 2. -/
def exampleOps2 : List RegOp :=
  [.setJob "a" none, .regCreate "b" 1 9, .regCreate "a" 2 9]

/-- A chain of one link A (address 0, workflow 0) that names itself as its
success continuation, before the build pass. -/
def selfChainMem : ChainMem where
  links := fun _ =>
    { Name := "A", Project := "", Zone := "", GCSPath := "", OAuthPath := "",
      Workflow := some 0, Vars := [], OnSuccess := "A", OnFailure := "", number := 0,
      onSuccess := none, onFailure := none }
  wfs := fun _ =>
    { Name := "", Project := "", Zone := "", GCSPath := "", OAuthPath := "", Vars := [],
      externalLogging := false }

/-- The chained workflow over `selfChainMem`. -/
def selfChain : ChainedWorkflow :=
  { Name := "chain", Project := "p", Zone := "", GCSPath := "", OAuthPath := "",
    Chain := [0], entry := none, externalLogging := false }

/-- Workflows whose `PopulateClients`, `populate` and `Run` all succeed and
change nothing. -/
def quietOps : WorkflowOps where
  PopulateClients := fun _ w => (w, none)
  populate := fun _ w => (w, none)
  Run := fun _ => none

/-- Registries of a workflow in which "inst" is an instance created by the
workflow, with its resolved link, and no disk is registered. -/
def exampleRegistries : Registries where
  disks := fun _ => none
  instances := fun k =>
    if k = "inst" then
      some { Project := "p", daisyName := "inst", link := "projects/p/zones/z/instances/inst" }
    else none

/-- A machine image of the instance "inst" of the same workflow. -/
def exampleMachineImage : MachineImage :=
  { Name := "img", Description := "d", SourceInstance := "inst",
    Resource := { Project := "p", daisyName := "img", link := "projects/p/global/machineImages/img" },
    OverWrite := false }

/-- A provider on which every call succeeds. -/
def okClient : ComputeClient where
  call := fun _ => none

/-- A provider on which deleting answers 404 and creating succeeds. -/
def notFoundClient : ComputeClient where
  call := fun c =>
    match c with
    | .DeleteMachineImage _ _ => some (.api 404 "not found")
    | .DeleteSnapshot _ _ => some (.api 404 "not found")
    | _ => none

/-- A snapshot of the disk "projects/p/zones/z/disks/d0", overwriting. -/
def exampleSnapshot : Snapshot :=
  { Name := "snap", Description := "d", SourceDisk := "projects/p/zones/z/disks/d0",
    GuestFlush := false, OverWrite := true,
    Resource := { Project := "p", daisyName := "snap", link := "projects/p/global/snapshots/snap" } }

/-- The named groups of the example disk URL. -/
def exampleSubexp : String → String → String :=
  fun _ key => if key = "zone" then "z" else if key = "disk" then "d0" else ""

/-- A job the provider reports as still running. -/
def runningJob : OsPatchJob :=
  { Name := "projects/p/patchJobs/j", State := .otherState "RUNNING", ErrorMessage := "" }

/-- A job the provider reports as completed with errors. -/
def failedJob : OsPatchJob :=
  { Name := "projects/p/patchJobs/j", State := .COMPLETED_WITH_ERRORS,
    ErrorMessage := "2 instances failed" }

/-- A job the provider reports as succeeded. -/
def succeededJob : OsPatchJob :=
  { Name := "projects/p/patchJobs/j", State := .SUCCEEDED, ErrorMessage := "" }

/-- Patch-job descriptors with a request each; descriptor 2 already holds a
job handle, the others hold none. -/
def exampleJobs : PatchJobHeap := fun a =>
  { Name := "job", ExecutePatchJobRequest := some { Parent := "projects/p", Description := "" },
    patchJob := if a = 2 then some succeededJob else none, creator := none, users := [] }

/-- A provider whose first execute call succeeds and whose second fails. -/
def exampleExec : Nat → Option ExecutePatchJobRequest → Except GoErr OsPatchJob :=
  fun i _ => if i = 1 then .error (.other "quota") else .ok runningJob

/-- A provider listing two resources, "old" and "new", in every project. -/
def laterListing : String → Except GoErr (List Listed) :=
  fun _ => .ok [{ Name := "old" }, { Name := "new" }]

/-- A cache holding, for project "p", the listing made when only "old" existed. -/
def exampleCache : ExistsCache :=
  some (fun p => if p = "p" then some [{ Name := "old" }] else none)

/-- Two queries for project "p" made while the provider lists "old" and "new". -/
def exampleQueries : List ExistsQuery :=
  [{ list := laterListing, project := "p", name := "new" },
   { list := laterListing, project := "p", name := "old" }]

/-- A `time.ParseDuration` that accepts "5s" (5e9 ns) and "1m" and rejects
everything else. -/
def exampleParseDuration : String → Except GoErr Int :=
  fun d =>
    if d = "5s" then .ok 5000000000
    else if d = "1m" then .ok 60000000000
    else .error (.other "time: invalid duration")

/-- Registries in which every `regUse` and `regCreate` succeeds. -/
def okRegistries : RegistryAnswers where
  call := fun _ => none

/-- Registries in which using the instance "inst" is a dependency violation. -/
def violatingRegistries : RegistryAnswers where
  call := fun c =>
    match c with
    | .instancesRegUse _ _ => some (.registry "MUST transitively depend on step")
    | .disksRegUse _ _ => some (.registry "MUST transitively depend on step")
    | _ => none

/-- What the URL regular expressions extract from three links of project "p":
each expression matches links of its own collection only, with the named groups
of its pattern; a key the match lacks reads as the empty string. -/
def exampleURLSubexp : URLRgx → String → String → String
  | .machineImageURLRgx, "projects/p/global/machineImages/img", "project" => "p"
  | .machineImageURLRgx, "projects/p/global/machineImages/img", "machineImage" => "img"
  | .snapshotURLRgx, "projects/p/global/snapshots/snap", "project" => "p"
  | .snapshotURLRgx, "projects/p/global/snapshots/snap", "snapshot" => "snap"
  | .imageURLRgx, "projects/p/global/images/img", "project" => "p"
  | .imageURLRgx, "projects/p/global/images/img", "image" => "img"
  | _, _, _ => ""

/-- A link A (address 0) whose workflow (address 0) declares the variable "zone",
and which passes the variables "zone" and "disk". -/
def varsChainMem : ChainMem where
  links := fun _ =>
    { Name := "A", Project := "", Zone := "", GCSPath := "", OAuthPath := "",
      Workflow := some 0, Vars := [("zone", "z1"), ("disk", "d1")], OnSuccess := "",
      OnFailure := "", number := 0, onSuccess := none, onFailure := none }
  wfs := fun _ =>
    { Name := "", Project := "", Zone := "", GCSPath := "", OAuthPath := "",
      Vars := [("zone", "z0")], externalLogging := false }

/-- Calls on the links of `selfChainMem`: the build pass, then link 0 is given
itself and then link 1 as success continuation. -/
def exampleChainOps : List ChainOp :=
  [.populate quietOps selfChain, .SetOnSuccess (some 0) (some 0), .SetOnSuccess (some 0) (some 1)]

/-- Two links before the build pass: A (address 0) with the linked workflow 0, and
B (every other address) without a linked workflow. -/
def blankChainMem : ChainMem where
  links := fun a =>
    if a = 0 then
      { Name := "A", Project := "", Zone := "", GCSPath := "", OAuthPath := "",
        Workflow := some 0, Vars := [], OnSuccess := "", OnFailure := "", number := 0,
        onSuccess := none, onFailure := none }
    else
      { Name := "B", Project := "", Zone := "", GCSPath := "", OAuthPath := "",
        Workflow := none, Vars := [], OnSuccess := "", OnFailure := "", number := 0,
        onSuccess := none, onFailure := none }
  wfs := fun _ =>
    { Name := "", Project := "", Zone := "", GCSPath := "", OAuthPath := "", Vars := [],
      externalLogging := false }

/-- The chained workflow A, B over `blankChainMem`. -/
def blankChain : ChainedWorkflow :=
  { Name := "chain", Project := "p", Zone := "z", GCSPath := "", OAuthPath := "",
    Chain := [0, 1], entry := none, externalLogging := false }

/-- The chain A, B, C before the build pass: as `exampleChainMem`, without
numbers and continuation pointers, B without a Project of its own, and with
workflows that carry no values yet. -/
def cascadeChainMem : ChainMem where
  links := fun a =>
    if a = 0 then
      { Name := "A", Project := "pa", Zone := "", GCSPath := "", OAuthPath := "",
        Workflow := some 0, Vars := [], OnSuccess := "B", OnFailure := "", number := 0,
        onSuccess := none, onFailure := none }
    else if a = 1 then
      { Name := "B", Project := "", Zone := "zb", GCSPath := "", OAuthPath := "",
        Workflow := some 1, Vars := [], OnSuccess := "", OnFailure := "C", number := 0,
        onSuccess := none, onFailure := none }
    else
      { Name := "C", Project := "", Zone := "", GCSPath := "", OAuthPath := "",
        Workflow := some a, Vars := [], OnSuccess := "", OnFailure := "", number := 0,
        onSuccess := none, onFailure := none }
  wfs := fun _ =>
    { Name := "", Project := "", Zone := "", GCSPath := "", OAuthPath := "", Vars := [],
      externalLogging := false }

/-- The chained workflow A, B, C over `cascadeChainMem`. -/
def cascadeChain : ChainedWorkflow :=
  { Name := "chain", Project := "p", Zone := "z", GCSPath := "gs://b", OAuthPath := "",
    Chain := [0, 1, 2], entry := none, externalLogging := false }

/-- The chain and its objects after the build pass of `cascadeChain`. -/
def cascadeChainPopulated : ChainedWorkflow × ChainMem :=
  match ChainedWorkflow.populate quietOps cascadeChain cascadeChainMem with
  | .ok st => st
  | _ => (cascadeChain, cascadeChainMem)

/-- A creation call rejected by the provider, as a worker reports it. -/
def quotaErr : DErr :=
  .wrapped (.api 403 "quota exceeded")

/-- One worker whose creation call has failed is blocked at `e <- err`, while
`run`, cancelled, is at `wg.Wait()`. -/
def stuckRun : RunState :=
  { workers := [.sending quotaErr], closer := .waiting, main := .draining, cancelled := true }

/-- Two links before the build pass: A (address 0, workflow 0), whose OnFailure
is "B" and whose OnSuccess is empty, and B (address 1, workflow 1). -/
def failureOnlyChainMem : ChainMem where
  links := fun a =>
    if a = 0 then
      { Name := "A", Project := "", Zone := "", GCSPath := "", OAuthPath := "",
        Workflow := some 0, Vars := [], OnSuccess := "", OnFailure := "B", number := 0,
        onSuccess := none, onFailure := none }
    else
      { Name := "B", Project := "", Zone := "", GCSPath := "", OAuthPath := "",
        Workflow := some 1, Vars := [], OnSuccess := "", OnFailure := "", number := 0,
        onSuccess := none, onFailure := none }
  wfs := fun _ =>
    { Name := "", Project := "", Zone := "", GCSPath := "", OAuthPath := "", Vars := [],
      externalLogging := false }

/-- The chained workflow A, B over `failureOnlyChainMem`. -/
def failureOnlyChain : ChainedWorkflow :=
  { Name := "chain", Project := "p", Zone := "", GCSPath := "", OAuthPath := "",
    Chain := [0, 1], entry := none, externalLogging := false }

/-- A chained workflow with a Project and no link, as read from a definition
whose Chain is empty. -/
def emptyChain : ChainedWorkflow :=
  { Name := "chain", Project := "p", Zone := "", GCSPath := "", OAuthPath := "",
    Chain := [], entry := none, externalLogging := false }

/-- Code around the descriptors for the examples: `populateWithGlobal` keeps
the name and the resource and gives an empty Project the workflow's, `%q` puts
the name between double quotes, no source is a partial URL, and the connection
to the patch service fails. -/
def exampleEnv : PopulateEnv where
  populateWithGlobal := fun r w name => ({ r with Project := strOr r.Project w.Project }, name, none)
  quote := fun n => "\"" ++ n ++ "\""
  MatchString := fun _ _ => false
  extendPartialURL := fun url _ => url
  NewClient := fun _ => .error (.other "no credentials")

/-- The workflow "wf" of project "p", run by "user", with a client for the patch
service. -/
def exampleStepWorkflow : StepWorkflow :=
  { Name := "wf", Project := "p", OAuthPath := "", username := "user",
    osconfigClient := some (.connected []) }

/-- A patch job whose request names no Parent and no Description. -/
def examplePatchJob : PatchJob :=
  { Name := "job", ExecutePatchJobRequest := some { Parent := "", Description := "" },
    patchJob := none, creator := none, users := [] }

/-- A snapshot of a disk of project "q", declared with Project "q", overwriting. -/
def crossProjectSnapshot : Snapshot :=
  { Name := "snap", Description := "d", SourceDisk := "projects/q/zones/z/disks/d0",
    GuestFlush := false, OverWrite := true,
    Resource := { Project := "q", daisyName := "snap", link := "" } }

/-- A machine image of an instance of project "q", declared with Project "q",
overwriting. -/
def crossProjectMachineImage : MachineImage :=
  { Name := "img", Description := "d", SourceInstance := "projects/q/zones/z/instances/i0",
    Resource := { Project := "q", daisyName := "img", link := "" }, OverWrite := true }

/-- Workflows whose `populate` gives an empty GCSPath the default
"gs://default"; nothing fails. -/
def defaultingOps : WorkflowOps where
  PopulateClients := fun _ w => (w, none)
  populate := fun _ w => ({ w with GCSPath := strOr w.GCSPath "gs://default" }, none)
  Run := fun _ => none

/-- Workflows whose `PopulateClients` records in the variable "connected" that it
has run, and sets the OAuthPath to "first.json" on a workflow without variables
and to "later.json" otherwise; nothing fails. -/
def statefulClientOps : WorkflowOps where
  PopulateClients := fun _ w =>
    ({ w with
        OAuthPath := if w.Vars.isEmpty then "first.json" else "later.json",
        Vars := w.Vars ++ [("connected", "yes")] }, none)
  populate := fun _ w => (w, none)
  Run := fun _ => none

/-- Workflows whose `populate` adds the variable "populated" each time it runs
and whose `PopulateClients` fails on a workflow with two or more variables; both
leave Name, Project, Zone, GCSPath and OAuthPath as they find them. -/
def countingOps : WorkflowOps where
  PopulateClients := fun _ w =>
    (w, if 2 ≤ w.Vars.length then some "too many variables" else none)
  populate := fun _ w => ({ w with Vars := w.Vars ++ [("populated", "yes")] }, none)
  Run := fun _ => none

/-- Workflows whose `populate` records in the variable "populated" that it has
run, and sets the GCSPath to "gs://first" on a workflow without variables and to
"gs://later" otherwise; nothing fails. -/
def statefulOps : WorkflowOps where
  PopulateClients := fun _ w => (w, none)
  populate := fun _ w =>
    ({ w with
        GCSPath := if w.Vars.isEmpty then "gs://first" else "gs://later",
        Vars := w.Vars ++ [("populated", "yes")] }, none)
  Run := fun _ => none

/-- Two links before the build pass, A (address 0) and B (address 1), both linked
to the workflow at address 0. -/
def sharedChainMem : ChainMem where
  links := fun a =>
    if a = 0 then
      { Name := "A", Project := "", Zone := "", GCSPath := "", OAuthPath := "",
        Workflow := some 0, Vars := [], OnSuccess := "", OnFailure := "", number := 0,
        onSuccess := none, onFailure := none }
    else
      { Name := "B", Project := "", Zone := "", GCSPath := "", OAuthPath := "",
        Workflow := some 0, Vars := [], OnSuccess := "", OnFailure := "", number := 0,
        onSuccess := none, onFailure := none }
  wfs := fun _ =>
    { Name := "", Project := "", Zone := "", GCSPath := "", OAuthPath := "", Vars := [],
      externalLogging := false }

/-- The chained workflow A, B of `failureOnlyChain`, without a Project. -/
def unsetProjectChain : ChainedWorkflow :=
  { failureOnlyChain with Project := "" }

/-- Three links before the build pass, at addresses 0, 1, 2 with workflows 0, 1,
2: A, a link whose Name is empty, and C. -/
def namelessChainMem : ChainMem where
  links := fun a =>
    { Name := if a = 0 then "A" else if a = 1 then "" else "C", Project := "", Zone := "",
      GCSPath := "", OAuthPath := "", Workflow := some a, Vars := [], OnSuccess := "",
      OnFailure := "", number := 0, onSuccess := none, onFailure := none }
  wfs := fun _ =>
    { Name := "", Project := "", Zone := "", GCSPath := "", OAuthPath := "", Vars := [],
      externalLogging := false }

/-- The chained workflow over the three links of `namelessChainMem`. -/
def namelessChain : ChainedWorkflow :=
  { Name := "chain", Project := "p", Zone := "", GCSPath := "", OAuthPath := "",
    Chain := [0, 1, 2], entry := none, externalLogging := false }

/-! ## Theorems -/

/-- C1 (code at the claim's own example): on the populated chain A (OnSuccess B),
B (OnFailure C), C, with A succeeding and B failing, `Link.run` started at A runs
the workflow of A only and returns nil, for every recursion bound: after the
success of A the source tests `l.onFailure`, which A does not have, so B and C
are never run.  The claim asks for the sequence A, B, C. -/
theorem Link_run_example_runs_only_A (fuel : Nat) :
    Link.run exampleOutcomes exampleChainMem (fuel + 1) (some 0) = ([0], .returned none) ∧
    (Link.run exampleOutcomes exampleChainMem (fuel + 1) (some 0)).1 ≠ [0, 1, 2] := by
  constructor
  · rfl
  · intro h
    have h0 : (Link.run exampleOutcomes exampleChainMem (fuel + 1) (some 0)).1 = [0] := rfl
    rw [h0] at h
    exact absurd h (by decide)

/-- C2 (code on every input): `AwaitPatchJobs.validate` returns a nil error for
every step, every list of awaited jobs and every registry, whatever `addErrs`
and `nestedDepends` are.  In particular it returns nil for the step 8 awaiting
"x" on the empty registry, where `regUse` itself fails with the
missing-reference error.  The claim asks for a non-nil error there. -/
theorem AwaitPatchJobs_validate_always_nil (addErrs : dErr → Option DErr → dErr)
    (nestedDepends : StepPtr → StepPtr → Bool) (a : List AwaitPatchJob) (s : Nat)
    (r : patchJobRegistry) :
    (AwaitPatchJobs.validate addErrs nestedDepends a s r).1 = none ∧
    ((newPatchJobRegistry freshPatchJobs).regUse nestedDepends "x" (some 8)).isFail = true ∧
    (AwaitPatchJobs.validate addErrs nestedDepends [{ Name := "x", Interval := "" }] 8
      (newPatchJobRegistry freshPatchJobs)).1 = none := by
  have key : ∀ (l : List AwaitPatchJob) (acc : dErr × patchJobRegistry), acc.1 = none →
      (l.foldl
        (fun (acc : dErr × patchJobRegistry) aj =>
          let errs := acc.1
          match acc.2.regUse nestedDepends aj.Name (some s) with
          | .ok r1 => let _unused := addErrs errs none; (errs, r1)
          | .fail e r1 => let _unused := addErrs errs (some e); (errs, r1)
          | .panic => (errs, acc.2)) acc).1 = none := by
    intro l
    induction l with
    | nil => intro acc h; simpa using h
    | cons aj rest ih =>
      intro acc h
      rw [List.foldl_cons]
      apply ih
      cases acc.2.regUse nestedDepends aj.Name (some s) <;> simpa using h
  refine ⟨key a (none, r) rfl, rfl, rfl⟩

/-! ### Equations of the registry operations -/

theorem regCreate_unregistered (r : patchJobRegistry) (name : String) (pj : Nat) (s : StepPtr)
    (hm : r.m name = none) :
    r.regCreate name pj s =
      .ok { m := fun k => if k = name then some pj else r.m k,
            mem := fun a => if a = pj then { r.mem pj with creator := s } else r.mem a } := by
  simp [patchJobRegistry.regCreate, hm]

theorem regCreate_registered (r : patchJobRegistry) (name : String) (pj : Nat) (s : StepPtr)
    (old c : Nat) (hm : r.m name = some old) (hc : (r.mem old).creator = some c) :
    r.regCreate name pj s = .fail (.alreadyCreated name c) r := by
  simp [patchJobRegistry.regCreate, hm, hc]

theorem regUse_unregistered (nestedDepends : StepPtr → StepPtr → Bool) (r : patchJobRegistry)
    (name : String) (s : StepPtr) (hm : r.m name = none) :
    r.regUse nestedDepends name s = .fail (.missingReference name) r := by
  simp [patchJobRegistry.regUse, hm]

theorem regUse_violation (nestedDepends : StepPtr → StepPtr → Bool) (r : patchJobRegistry)
    (name : String) (s : StepPtr) (pj c : Nat) (hm : r.m name = some pj)
    (hc : (r.mem pj).creator = some c) (hd : nestedDepends s (some c) = false) :
    r.regUse nestedDepends name s = .fail (.mustDepend name c) r := by
  simp [patchJobRegistry.regUse, hm, hc, hd]

theorem regUse_appends (nestedDepends : StepPtr → StepPtr → Bool) (r : patchJobRegistry)
    (name : String) (s : StepPtr) (pj : Nat) (hm : r.m name = some pj)
    (hd : ∀ c, (r.mem pj).creator = some c → nestedDepends s (some c) = true) :
    r.regUse nestedDepends name s =
      .ok { r with mem := fun a =>
        if a = pj then { r.mem pj with users := (r.mem pj).users ++ [s] } else r.mem a } := by
  cases hc : (r.mem pj).creator with
  | none => simp [patchJobRegistry.regUse, hm, hc]
  | some c => simp [patchJobRegistry.regUse, hm, hc, hd c hc]

theorem setJob_unregistered (r : patchJobRegistry) (name : String) (j : Option OsPatchJob)
    (hm : r.m name = none) : r.setJob name j = .fail (.missingReference name) r := by
  simp [patchJobRegistry.setJob, hm]

theorem setJob_registered (r : patchJobRegistry) (name : String) (j : Option OsPatchJob)
    (pj : Nat) (hm : r.m name = some pj) :
    r.setJob name j =
      .ok { r with mem := fun a => if a = pj then { r.mem pj with patchJob := j } else r.mem a } := by
  simp [patchJobRegistry.setJob, hm]

/-- C3: `regCreate(name, pj, s)`, on a registry in which the entry registered under
`name` (if any) was created by a step, returns an error exactly when `name` is
already registered and returns nil exactly when it is not; on error the
registry (map and descriptors) is unchanged; on success `name` maps to `pj`,
`pj.creator` is `s`, every other map entry is unchanged, and no descriptor field
other than `pj.creator` is written. -/
theorem regCreate_spec (r : patchJobRegistry) (name : String) (pj : Nat) (s : StepPtr)
    (h : ∀ old, r.m name = some old → (r.mem old).creator ≠ none) :
    ((r.regCreate name pj s).isFail = true ↔ r.m name ≠ none) ∧
    ((r.regCreate name pj s).isOk = true ↔ r.m name = none) ∧
    (∀ e r1, r.regCreate name pj s = .fail e r1 → r1 = r) ∧
    (∀ r1, r.regCreate name pj s = .ok r1 →
      r1.m name = some pj ∧ (r1.mem pj).creator = s ∧
      (∀ k, k ≠ name → r1.m k = r.m k) ∧
      r1.mem pj = { r.mem pj with creator := s } ∧
      (∀ a, a ≠ pj → r1.mem a = r.mem a)) := by
  cases hm : r.m name with
  | none =>
    rw [regCreate_unregistered r name pj s hm]
    refine ⟨by simp [Res.isFail], by simp [Res.isOk], (by intro e r1 h1; cases h1), ?_⟩
    intro r1 h1
    cases h1
    refine ⟨by simp, by simp, ?_, by simp, ?_⟩
    · intro k hk; simp [hk]
    · intro a ha; simp [ha]
  | some old =>
    cases hc : (r.mem old).creator with
    | none => exact absurd hc (h old hm)
    | some c =>
      rw [regCreate_registered r name pj s old c hm hc]
      refine ⟨by simp [Res.isFail], by simp [Res.isOk], ?_, (by intro r1 h1; cases h1)⟩
      intro e r1 h1
      cases h1
      rfl

/-- Witness for C3: registering "a" again, by step 8 with descriptor 1, on the
registry where step 7 created "a". -/
theorem regCreate_spec_witness :
    (∀ old, exampleRegistry.m "a" = some old → (exampleRegistry.mem old).creator ≠ none) ∧
    ((exampleRegistry.regCreate "a" 1 (some 8)).isFail = true ↔ exampleRegistry.m "a" ≠ none) :=
  have h : ∀ old, exampleRegistry.m "a" = some old →
      (exampleRegistry.mem old).creator ≠ none := by
    intro old hold
    have h0 : old = 0 := by
      simp [exampleRegistry] at hold
      exact hold.symm
    subst h0
    simp [exampleRegistry]
  ⟨h, (regCreate_spec exampleRegistry "a" 1 (some 8) h).1⟩

/-- C4: `regUse(name, s)` returns an error exactly when `name` is unregistered, or
the entry's creator is set and `s.nestedDepends(creator)` is false; it never
panics; on error the registry (so the users list) is unchanged; on success the
map is unchanged, `s` is appended as the last element of the users list of the
descriptor registered under `name`, and nothing else is written. -/
theorem regUse_spec (nestedDepends : StepPtr → StepPtr → Bool) (r : patchJobRegistry)
    (name : String) (s : StepPtr) :
    ((r.regUse nestedDepends name s).isFail = true ↔
      (r.m name = none ∨
        ∃ pj c, r.m name = some pj ∧ (r.mem pj).creator = some c ∧
          nestedDepends s (some c) = false)) ∧
    ((r.regUse nestedDepends name s).isFail = false →
      (r.regUse nestedDepends name s).isOk = true) ∧
    (∀ e r1, r.regUse nestedDepends name s = .fail e r1 → r1 = r) ∧
    (∀ r1, r.regUse nestedDepends name s = .ok r1 →
      r1.m = r.m ∧
      ∃ pj, r.m name = some pj ∧
        r1.mem pj = { r.mem pj with users := (r.mem pj).users ++ [s] } ∧
        (∀ a, a ≠ pj → r1.mem a = r.mem a)) := by
  cases hm : r.m name with
  | none =>
    rw [regUse_unregistered nestedDepends r name s hm]
    refine ⟨by simp [Res.isFail], by simp [Res.isFail], ?_, (by intro r1 h1; cases h1)⟩
    intro e r1 h1
    cases h1
    rfl
  | some pj =>
    by_cases hv : ∃ c, (r.mem pj).creator = some c ∧ nestedDepends s (some c) = false
    · obtain ⟨c, hc, hd⟩ := hv
      rw [regUse_violation nestedDepends r name s pj c hm hc hd]
      refine ⟨?_, by simp [Res.isFail], ?_, (by intro r1 h1; cases h1)⟩
      · simp only [Res.isFail, true_iff]
        exact Or.inr ⟨pj, c, rfl, hc, hd⟩
      · intro e r1 h1
        cases h1
        rfl
    · have hd : ∀ c, (r.mem pj).creator = some c → nestedDepends s (some c) = true := by
        intro c hc
        cases hb : nestedDepends s (some c) with
        | true => rfl
        | false => exact absurd ⟨c, hc, hb⟩ hv
      rw [regUse_appends nestedDepends r name s pj hm hd]
      refine ⟨?_, by simp [Res.isOk], (by intro e r1 h1; cases h1), ?_⟩
      · constructor
        · intro h0
          simp [Res.isFail] at h0
        · rintro (h0 | ⟨pj1, c, h1, h2, h3⟩)
          · cases h0
          · cases h1
            exact absurd ⟨c, h2, h3⟩ hv
      · intro r1 h1
        cases h1
        refine ⟨rfl, pj, rfl, by simp, ?_⟩
        intro a ha; simp [ha]

/-! ### The registry invariant -/

theorem Keeps_refl (r : patchJobRegistry) : r.Keeps r := by
  intro name pj h
  exact ⟨h, rfl⟩

theorem Keeps_trans {r r1 r2 : patchJobRegistry} (h1 : r.Keeps r1) (h2 : r1.Keeps r2) :
    r.Keeps r2 := by
  intro name pj h
  obtain ⟨ha, hb⟩ := h1 name pj h
  obtain ⟨hc, hd⟩ := h2 name pj ha
  exact ⟨hc, hd.trans hb⟩

theorem Consistent_mono (nestedDepends : StepPtr → StepPtr → Bool) (r : patchJobRegistry)
    (U V : Nat → Prop) (hUV : ∀ p, U p → V p) (h : r.Consistent nestedDepends U)
    (hV : ∀ pj, ¬ V pj → (r.mem pj).users = []) : r.Consistent nestedDepends V :=
  ⟨fun name pj hm => hUV pj (h.1 name pj hm), h.2.1, hV⟩

theorem regCreate_step (nestedDepends : StepPtr → StepPtr → Bool) (r : patchJobRegistry)
    (U : Nat → Prop) (name : String) (pj s : Nat) (hinv : r.Consistent nestedDepends U)
    (hnew : ¬ U pj) :
    ∃ r1, (r.regCreate name pj (some s) = .ok r1 ∨ ∃ e, r.regCreate name pj (some s) = .fail e r1) ∧
      r1.Consistent nestedDepends (fun p => p = pj ∨ U p) ∧ r.Keeps r1 := by
  obtain ⟨h1, h2, h3⟩ := hinv
  cases hm : r.m name with
  | some old =>
    obtain ⟨c, hc, _⟩ := h2 name old hm
    refine ⟨r, Or.inr ⟨_, regCreate_registered r name pj (some s) old c hm hc⟩, ?_, Keeps_refl r⟩
    refine ⟨fun k q hk => Or.inr (h1 k q hk), h2, ?_⟩
    intro q hq
    exact h3 q (fun hU => hq (Or.inr hU))
  | none =>
    refine ⟨_, Or.inl (regCreate_unregistered r name pj (some s) hm), ?_, ?_⟩
    · refine ⟨?_, ?_, ?_⟩
      · intro k q hk
        by_cases hkn : k = name
        · simp [hkn] at hk
          exact Or.inl hk.symm
        · simp [hkn] at hk
          exact Or.inr (h1 k q hk)
      · intro k q hk
        by_cases hkn : k = name
        · simp [hkn] at hk
          subst hk
          refine ⟨s, by simp, ?_⟩
          intro u hu
          simp [h3 pj hnew] at hu
        · simp [hkn] at hk
          have hq : q ≠ pj := fun hqp => hnew (hqp ▸ h1 k q hk)
          simpa [hq] using h2 k q hk
      · intro q hq
        have hq1 : q ≠ pj := fun hqp => hq (Or.inl hqp)
        have hq2 : ¬ U q := fun hU => hq (Or.inr hU)
        simpa [hq1] using h3 q hq2
    · intro k q hk
      have hkn : k ≠ name := by
        intro hkn
        rw [hkn, hm] at hk
        cases hk
      have hq : q ≠ pj := fun hqp => hnew (hqp ▸ h1 k q hk)
      simp [hkn, hq, hk]

theorem regUse_step (nestedDepends : StepPtr → StepPtr → Bool) (r : patchJobRegistry)
    (U : Nat → Prop) (name : String) (s : Nat) (hinv : r.Consistent nestedDepends U) :
    ∃ r1, (r.regUse nestedDepends name (some s) = .ok r1 ∨
        ∃ e, r.regUse nestedDepends name (some s) = .fail e r1) ∧
      r1.Consistent nestedDepends U ∧ r.Keeps r1 := by
  obtain ⟨h1, h2, h3⟩ := hinv
  cases hm : r.m name with
  | none =>
    exact ⟨r, Or.inr ⟨_, regUse_unregistered nestedDepends r name (some s) hm⟩, ⟨h1, h2, h3⟩,
      Keeps_refl r⟩
  | some pj =>
    obtain ⟨c, hc, hu⟩ := h2 name pj hm
    cases hd : nestedDepends (some s) (some c) with
    | false =>
      exact ⟨r, Or.inr ⟨_, regUse_violation nestedDepends r name (some s) pj c hm hc hd⟩,
        ⟨h1, h2, h3⟩, Keeps_refl r⟩
    | true =>
      have hall : ∀ c1, (r.mem pj).creator = some c1 → nestedDepends (some s) (some c1) = true := by
        intro c1 hc1
        rw [hc] at hc1
        cases hc1
        exact hd
      refine ⟨_, Or.inl (regUse_appends nestedDepends r name (some s) pj hm hall), ?_, ?_⟩
      · refine ⟨h1, ?_, ?_⟩
        · intro k q hk
          by_cases hq : q = pj
          · subst hq
            refine ⟨c, by simp [hc], ?_⟩
            intro u hu1
            simp at hu1
            rcases hu1 with hu1 | hu1
            · exact hu u hu1
            · rw [hu1]; exact hd
          · simpa [hq] using h2 k q hk
        · intro q hq
          have hq1 : q ≠ pj := fun hqp => hq (hqp ▸ h1 name pj hm)
          simpa [hq1] using h3 q hq
      · intro k q hk
        refine ⟨hk, ?_⟩
        by_cases hq : q = pj
        · subst hq; simp
        · simp [hq]

theorem setJob_step (nestedDepends : StepPtr → StepPtr → Bool) (r : patchJobRegistry)
    (U : Nat → Prop) (name : String) (j : Option OsPatchJob)
    (hinv : r.Consistent nestedDepends U) :
    ∃ r1, (r.setJob name j = .ok r1 ∨ ∃ e, r.setJob name j = .fail e r1) ∧
      r1.Consistent nestedDepends U ∧ r.Keeps r1 := by
  obtain ⟨h1, h2, h3⟩ := hinv
  cases hm : r.m name with
  | none =>
    exact ⟨r, Or.inr ⟨_, setJob_unregistered r name j hm⟩, ⟨h1, h2, h3⟩, Keeps_refl r⟩
  | some pj =>
    refine ⟨_, Or.inl (setJob_registered r name j pj hm), ⟨h1, ?_, ?_⟩, ?_⟩
    · intro k q hk
      by_cases hq : q = pj
      · subst hq
        simpa using h2 k q hk
      · simpa [hq] using h2 k q hk
    · intro q hq
      by_cases hq1 : q = pj
      · subst hq1
        simpa using h3 q hq
      · simpa [hq1] using h3 q hq
    · intro k q hk
      refine ⟨hk, ?_⟩
      by_cases hq : q = pj
      · subst hq; simp
      · simp [hq]

theorem runOps_consistent (nestedDepends : StepPtr → StepPtr → Bool) :
    ∀ (ops : List RegOp) (r : patchJobRegistry) (U : Nat → Prop),
      r.Consistent nestedDepends U →
      (ops.filterMap RegOp.descriptor).Nodup →
      (∀ p ∈ ops.filterMap RegOp.descriptor, ¬ U p) →
      ∃ r1, runOps nestedDepends ops r = some r1 ∧
        r1.Consistent nestedDepends (fun p => p ∈ ops.filterMap RegOp.descriptor ∨ U p) ∧
        r.Keeps r1 := by
  intro ops
  induction ops with
  | nil =>
    intro r U hinv _ _
    refine ⟨r, rfl, ?_, Keeps_refl r⟩
    simpa using hinv
  | cons op rest ih =>
    intro r U hinv hnd hU
    cases op with
    | regCreate name pj s =>
      have hnd1 : pj ∉ rest.filterMap RegOp.descriptor ∧ (rest.filterMap RegOp.descriptor).Nodup := by
        simpa [List.filterMap_cons, RegOp.descriptor] using hnd
      have hnew : ¬ U pj := hU pj (by simp [List.filterMap_cons, RegOp.descriptor])
      obtain ⟨r1, hr1, hc1, hk1⟩ := regCreate_step nestedDepends r U name pj s hinv hnew
      have hU1 : ∀ p ∈ rest.filterMap RegOp.descriptor, ¬ (p = pj ∨ U p) := by
        intro p hp hor
        rcases hor with hor | hor
        · exact hnd1.1 (hor ▸ hp)
        · exact hU p (by simp [List.filterMap_cons, RegOp.descriptor, hp]) hor
      obtain ⟨r2, hr2, hc2, hk2⟩ := ih r1 _ hc1 hnd1.2 hU1
      refine ⟨r2, ?_, ?_, Keeps_trans hk1 hk2⟩
      · rcases hr1 with hr1 | ⟨e, hr1⟩ <;> simp [runOps, RegOp.apply, hr1, hr2]
      · refine Consistent_mono nestedDepends r2 _ _ ?_ hc2 ?_
        · intro p hp
          simp only [List.filterMap_cons, RegOp.descriptor, List.mem_cons]
          tauto
        · intro p hp
          apply hc2.2.2
          simp only [List.filterMap_cons, RegOp.descriptor, List.mem_cons] at hp
          tauto
    | regUse name s =>
      have hnd1 : (rest.filterMap RegOp.descriptor).Nodup := by
        simpa [List.filterMap_cons, RegOp.descriptor] using hnd
      obtain ⟨r1, hr1, hc1, hk1⟩ := regUse_step nestedDepends r U name s hinv
      have hU1 : ∀ p ∈ rest.filterMap RegOp.descriptor, ¬ U p := by
        intro p hp
        exact hU p (by simpa [List.filterMap_cons, RegOp.descriptor] using hp)
      obtain ⟨r2, hr2, hc2, hk2⟩ := ih r1 _ hc1 hnd1 hU1
      refine ⟨r2, ?_, ?_, Keeps_trans hk1 hk2⟩
      · rcases hr1 with hr1 | ⟨e, hr1⟩ <;> simp [runOps, RegOp.apply, hr1, hr2]
      · simpa [List.filterMap_cons, RegOp.descriptor] using hc2
    | setJob name j =>
      have hnd1 : (rest.filterMap RegOp.descriptor).Nodup := by
        simpa [List.filterMap_cons, RegOp.descriptor] using hnd
      obtain ⟨r1, hr1, hc1, hk1⟩ := setJob_step nestedDepends r U name j hinv
      have hU1 : ∀ p ∈ rest.filterMap RegOp.descriptor, ¬ U p := by
        intro p hp
        exact hU p (by simpa [List.filterMap_cons, RegOp.descriptor] using hp)
      obtain ⟨r2, hr2, hc2, hk2⟩ := ih r1 _ hc1 hnd1 hU1
      refine ⟨r2, ?_, ?_, Keeps_trans hk1 hk2⟩
      · rcases hr1 with hr1 | ⟨e, hr1⟩ <;> simp [runOps, RegOp.apply, hr1, hr2]
      · simpa [List.filterMap_cons, RegOp.descriptor] using hc2

theorem runOps_append (nestedDepends : StepPtr → StepPtr → Bool) :
    ∀ (ops1 ops2 : List RegOp) (r : patchJobRegistry),
      runOps nestedDepends (ops1 ++ ops2) r =
        (runOps nestedDepends ops1 r).bind (runOps nestedDepends ops2) := by
  intro ops1
  induction ops1 with
  | nil => intro ops2 r; simp [runOps]
  | cons op rest ih =>
    intro ops2 r
    simp only [List.cons_append, runOps]
    cases op.apply nestedDepends r with
    | ok r1 => exact ih ops2 r1
    | fail e r1 => exact ih ops2 r1
    | panic => rfl

/-- C5: start from the empty registry (no name registered, no descriptor carrying
users yet), and make any sequence of `regCreate`, `regUse` and `setJob` calls by non-nil steps
in which the `regCreate` calls pass pairwise distinct descriptors, under a fixed
`nestedDepends`.  No call panics; in the state reached (`r2`) every registered
name has a creator and every step in its users list passes `nestedDepends`
against that creator; and a name registered at any earlier point of the
sequence (`r1`) is still registered to the same descriptor with the same
creator. -/
theorem registry_invariant (nestedDepends : StepPtr → StepPtr → Bool) (mem : PatchJobHeap)
    (ops1 ops2 : List RegOp)
    (hfresh : ∀ a, (mem a).users = [])
    (hdistinct : ((ops1 ++ ops2).filterMap RegOp.descriptor).Nodup) :
    ∃ r1 r2,
      runOps nestedDepends ops1 (newPatchJobRegistry mem) = some r1 ∧
      runOps nestedDepends (ops1 ++ ops2) (newPatchJobRegistry mem) = some r2 ∧
      (∀ name pj, r2.m name = some pj →
        ∃ c, (r2.mem pj).creator = some c ∧
          ∀ u ∈ (r2.mem pj).users, nestedDepends u (some c) = true) ∧
      (∀ name pj, r1.m name = some pj →
        r2.m name = some pj ∧ (r2.mem pj).creator = (r1.mem pj).creator) := by
  rw [List.filterMap_append, List.nodup_append] at hdistinct
  obtain ⟨hn1, hn2, hdisj⟩ := hdistinct
  have h0 : (newPatchJobRegistry mem).Consistent nestedDepends (fun _ => False) := by
    refine ⟨?_, ?_, ?_⟩
    · intro name pj h; simp [newPatchJobRegistry] at h
    · intro name pj h; simp [newPatchJobRegistry] at h
    · intro pj _; exact hfresh pj
  obtain ⟨r1, hr1, hc1, _⟩ :=
    runOps_consistent nestedDepends ops1 (newPatchJobRegistry mem) _ h0 hn1 (by simp)
  have hU : ∀ p ∈ ops2.filterMap RegOp.descriptor,
      ¬ (p ∈ ops1.filterMap RegOp.descriptor ∨ False) := by
    intro p hp hor
    rcases hor with hor | hor
    · exact hdisj hor hp
    · exact hor
  obtain ⟨r2, hr2, hc2, hk2⟩ := runOps_consistent nestedDepends ops2 r1 _ hc1 hn2 hU
  refine ⟨r1, r2, hr1, ?_, hc2.2.1, hk2⟩
  rw [runOps_append, hr1]
  exact hr2

/-- Witness for C5: the calls `exampleOps1` followed by `exampleOps2` on fresh
descriptors. -/
theorem registry_invariant_witness :
    (∀ a, (freshPatchJobs a).users = []) ∧
    ((exampleOps1 ++ exampleOps2).filterMap RegOp.descriptor).Nodup ∧
    ∃ r1 r2,
      runOps exampleDepends exampleOps1 (newPatchJobRegistry freshPatchJobs) = some r1 ∧
      runOps exampleDepends (exampleOps1 ++ exampleOps2) (newPatchJobRegistry freshPatchJobs) =
        some r2 ∧
      (∀ name pj, r2.m name = some pj →
        ∃ c, (r2.mem pj).creator = some c ∧
          ∀ u ∈ (r2.mem pj).users, exampleDepends u (some c) = true) ∧
      (∀ name pj, r1.m name = some pj →
        r2.m name = some pj ∧ (r2.mem pj).creator = (r1.mem pj).creator) :=
  have h1 : ∀ a, (freshPatchJobs a).users = [] := fun _ => rfl
  have h2 : ((exampleOps1 ++ exampleOps2).filterMap RegOp.descriptor).Nodup := by decide
  ⟨h1, h2, registry_invariant exampleDepends freshPatchJobs exampleOps1 exampleOps2 h1 h2⟩

/-- C6 (code at a failing input): for the chain of one link A whose OnSuccess is
"A", `ChainedWorkflow.populate` returns nil (the error of `SetOnSuccess` is not
looked at) and leaves A without a success continuation, and
`ChainedWorkflow.Run` then runs the workflow of A and returns nil.  The claim
asks for an error from the build pass and no workflow run. -/
theorem ChainedWorkflow_Run_self_link_runs (fuel : Nat) :
    (ChainedWorkflow.populate quietOps { selfChain with externalLogging := true }
      selfChainMem).isOk = true ∧
    Link.SetOnSuccess selfChainMem (some 0) (some 0) = .fail .selfOnSuccess selfChainMem ∧
    ChainedWorkflow.Run quietOps (fuel + 1) selfChain selfChainMem = ([0], .returned none) := by
  refine ⟨by decide, rfl, ?_⟩
  rfl

/-- C7 (code at a failing input): "inst" is registered in the instance registry
with link `projects/p/zones/z/instances/inst` and not in the disk registry; the
worker of `CreateMachineImages.run` looks the source up in the disk registry,
so it issues the creation call with SourceInstance still "inst".  The claim asks
for the instance's resolved link. -/
theorem CreateMachineImages_worker_keeps_instance_name :
    exampleRegistries.instances exampleMachineImage.SourceInstance =
      some { Project := "p", daisyName := "inst", link := "projects/p/zones/z/instances/inst" } ∧
    (CreateMachineImages.worker okClient exampleRegistries exampleMachineImage).1 =
      [.CreateMachineImage "p" "img" "d" "inst"] ∧
    (CreateMachineImages.worker okClient exampleRegistries exampleMachineImage).1 ≠
      [.CreateMachineImage "p" "img" "d" "projects/p/zones/z/instances/inst"] := by
  refine ⟨by decide, by decide, by decide⟩

theorem is404_of_not_404 (err : GoErr) (hne : ¬ ∃ msg, err = .api 404 msg) :
    err.is404 = false := by
  cases err with
  | api code msg =>
    simp only [GoErr.is404, beq_eq_false_iff_ne, ne_eq]
    intro hcode
    exact hne ⟨msg, by rw [hcode]⟩
  | other msg => rfl

/-- C8: for a worker of `CreateMachineImages.run` and of `CreateSnapshots.run`,
with `del` and `create` the delete and creation calls for the descriptor once its
source is resolved: with OverWrite false the only call is `create`; with
OverWrite true and a delete that returns nil or a provider error with code 404,
the calls are `del` then `create`; in both cases the error reported is that of
the creation call alone (none if it succeeds); with OverWrite true and any other
delete error the only call is `del` and the worker reports the delete error. -/
theorem create_workers_overwrite (client : ComputeClient) (w : Registries)
    (namedSubexp : String → String → String) (ci : MachineImage) (cs : Snapshot) :
    (let out := CreateMachineImages.worker client w ci
     let ci1 := CreateMachineImages.resolveSource w ci
     let del := ProviderCall.DeleteMachineImage ci1.Resource.Project ci1.Name
     let create := ProviderCall.CreateMachineImage ci1.Resource.Project ci1.Name
       ci1.Description ci1.SourceInstance
     (ci.OverWrite = false →
        out.1 = [create] ∧ out.2.1 = (client.call create).map DErr.wrapped) ∧
     (ci.OverWrite = true →
        (client.call del = none ∨ ∃ msg, client.call del = some (.api 404 msg)) →
        out.1 = [del, create] ∧ out.2.1 = (client.call create).map DErr.wrapped) ∧
     (ci.OverWrite = true → ∀ err, client.call del = some err →
        (¬ ∃ msg, err = .api 404 msg) →
        out.1 = [del] ∧ out.2.1 = some (.deletingMachineImage err))) ∧
    (let out := CreateSnapshots.worker client w namedSubexp cs
     let cs1 := CreateSnapshots.resolveSource w cs
     let del := ProviderCall.DeleteSnapshot cs1.Resource.Project cs1.Name
     let create := ProviderCall.CreateSnapshot cs1.Resource.Project
       (namedSubexp cs1.SourceDisk "zone") (namedSubexp cs1.SourceDisk "disk")
       cs1.Name cs1.Description cs1.SourceDisk
     (cs.OverWrite = false →
        out.1 = [create] ∧ out.2.1 = (client.call create).map DErr.wrapped) ∧
     (cs.OverWrite = true →
        (client.call del = none ∨ ∃ msg, client.call del = some (.api 404 msg)) →
        out.1 = [del, create] ∧ out.2.1 = (client.call create).map DErr.wrapped) ∧
     (cs.OverWrite = true → ∀ err, client.call del = some err →
        (¬ ∃ msg, err = .api 404 msg) →
        out.1 = [del] ∧ out.2.1 = some (.deletingSnapshot err))) := by
  constructor
  · have hov1 : (CreateMachineImages.resolveSource w ci).OverWrite = ci.OverWrite := by
      unfold CreateMachineImages.resolveSource
      split <;> rfl
    simp only [CreateMachineImages.worker]
    rw [← hov1]
    generalize CreateMachineImages.resolveSource w ci = ci1
    refine ⟨?_, ?_, ?_⟩
    · intro hov
      cases hc : client.call (ProviderCall.CreateMachineImage ci1.Resource.Project ci1.Name
        ci1.Description ci1.SourceInstance) <;> simp [hov, hc]
    · intro hov hdel
      cases hc : client.call (ProviderCall.CreateMachineImage ci1.Resource.Project ci1.Name
        ci1.Description ci1.SourceInstance) <;>
        rcases hdel with hdel | ⟨msg, hdel⟩ <;> simp [hov, hc, hdel, GoErr.is404]
    · intro hov err hdel hne
      simp [hov, hdel, is404_of_not_404 err hne]
  · have hov1 : (CreateSnapshots.resolveSource w cs).OverWrite = cs.OverWrite := by
      unfold CreateSnapshots.resolveSource
      split <;> rfl
    simp only [CreateSnapshots.worker]
    rw [← hov1]
    generalize CreateSnapshots.resolveSource w cs = cs1
    refine ⟨?_, ?_, ?_⟩
    · intro hov
      cases hc : client.call (ProviderCall.CreateSnapshot cs1.Resource.Project
        (namedSubexp cs1.SourceDisk "zone") (namedSubexp cs1.SourceDisk "disk") cs1.Name
        cs1.Description cs1.SourceDisk) <;> simp [hov, hc]
    · intro hov hdel
      cases hc : client.call (ProviderCall.CreateSnapshot cs1.Resource.Project
        (namedSubexp cs1.SourceDisk "zone") (namedSubexp cs1.SourceDisk "disk") cs1.Name
        cs1.Description cs1.SourceDisk) <;>
        rcases hdel with hdel | ⟨msg, hdel⟩ <;> simp [hov, hc, hdel, GoErr.is404]
    · intro hov err hdel hne
      simp [hov, hdel, is404_of_not_404 err hne]

/-- Witness for C8: an overwriting snapshot and an overwriting machine image whose
delete calls answer 404; both workers go on to the creation call, which
succeeds, and report no error. -/
theorem create_workers_overwrite_witness :
    (CreateMachineImages.worker notFoundClient exampleRegistries
        { exampleMachineImage with OverWrite := true }).1 =
      [.DeleteMachineImage "p" "img", .CreateMachineImage "p" "img" "d" "inst"] ∧
    (CreateMachineImages.worker notFoundClient exampleRegistries
        { exampleMachineImage with OverWrite := true }).2.1 = none ∧
    (CreateSnapshots.worker notFoundClient exampleRegistries exampleSubexp exampleSnapshot).1 =
      [.DeleteSnapshot "p" "snap",
       .CreateSnapshot "p" "z" "d0" "snap" "d" "projects/p/zones/z/disks/d0"] ∧
    (CreateSnapshots.worker notFoundClient exampleRegistries exampleSubexp exampleSnapshot).2.1 =
      none :=
  have h := create_workers_overwrite notFoundClient exampleRegistries exampleSubexp
    { exampleMachineImage with OverWrite := true } exampleSnapshot
  have hm := h.1.2.1 rfl (Or.inr ⟨"not found", rfl⟩)
  have hs := h.2.2.1 rfl (Or.inr ⟨"not found", rfl⟩)
  ⟨hm.1, hm.2, hs.1, hs.2⟩

/-! ### The polling loop -/

theorem poll_skip (name ajName : String) :
    ∀ (pre : List OsPatchJob) (tail : List (Except GoErr OsPatchJob)) (r : patchJobRegistry),
      (∀ j ∈ pre, isPatchJobFailureState j.State = false ∧ j.State ≠ .SUCCEEDED) →
      ∃ r1, AwaitPatchJobs.poll name ajName (pre.map Except.ok ++ tail) r =
        (pre.length + (AwaitPatchJobs.poll name ajName tail r1).1,
          (AwaitPatchJobs.poll name ajName tail r1).2.1,
          (AwaitPatchJobs.poll name ajName tail r1).2.2) := by
  intro pre
  induction pre with
  | nil =>
    intro tail r _
    exact ⟨r, by simp⟩
  | cons j rest ih =>
    intro tail r h
    have hj := h j (by simp)
    obtain ⟨r1, hr1⟩ := ih tail
      (match r.setJob ajName (some j) with
        | .ok r2 => r2
        | .fail _ r2 => r2
        | .panic => r)
      (fun k hk => h k (by simp [hk]))
    refine ⟨r1, ?_⟩
    simp only [List.map_cons, List.cons_append, AwaitPatchJobs.poll, hj.1, hj.2,
      List.length_cons, Bool.false_eq_true, if_false, List.append_eq]
    rw [hr1]
    simp only [Prod.mk.injEq, and_true]
    omega

theorem failureStatus_text_contains (state : PatchJobState) (msg : String) :
    containsText (DErr.failureStatus state msg).text state.toString ∧
    containsText (DErr.failureStatus state msg).text msg := by
  constructor
  · refine ⟨"failure status ".data, " with message '".data ++ msg.data ++ "'".data, ?_⟩
    simp [DErr.text, String.data_append, List.append_assoc]
  · refine ⟨"failure status ".data ++ state.toString.data ++ " with message '".data, "'".data, ?_⟩
    simp [DErr.text, String.data_append, List.append_assoc]

/-- C9: `isPatchJobFailureState` is true exactly for COMPLETED_WITH_ERRORS,
TIMED_OUT and CANCELED, and false for SUCCEEDED.  In the polling loop of a worker
of `AwaitPatchJobs.run`, let the fetched jobs `pre` all be in states other than
those four, followed by the fetched job `res`: if `res` is SUCCEEDED the worker
returns after that fetch without an error; if `res` is in a failure state it
stops after that fetch with the error "failure status", whose text contains the
state and the job's error message; and after `pre` alone the worker has made one
fetch per job and is still polling. -/
theorem AwaitPatchJobs_poll_spec (name ajName : String) (pre : List OsPatchJob)
    (res : OsPatchJob) (rest : List (Except GoErr OsPatchJob)) (r : patchJobRegistry)
    (hpre : ∀ j ∈ pre, j.State ≠ .SUCCEEDED ∧ j.State ≠ .COMPLETED_WITH_ERRORS ∧
      j.State ≠ .TIMED_OUT ∧ j.State ≠ .CANCELED) :
    (∀ st, isPatchJobFailureState st = true ↔
      (st = .COMPLETED_WITH_ERRORS ∨ st = .TIMED_OUT ∨ st = .CANCELED)) ∧
    isPatchJobFailureState .SUCCEEDED = false ∧
    (res.State = .SUCCEEDED →
      (AwaitPatchJobs.poll name ajName (pre.map Except.ok ++ Except.ok res :: rest) r).1 =
        pre.length + 1 ∧
      (AwaitPatchJobs.poll name ajName (pre.map Except.ok ++ Except.ok res :: rest) r).2.1 =
        .done) ∧
    ((res.State = .COMPLETED_WITH_ERRORS ∨ res.State = .TIMED_OUT ∨ res.State = .CANCELED) →
      (AwaitPatchJobs.poll name ajName (pre.map Except.ok ++ Except.ok res :: rest) r).1 =
        pre.length + 1 ∧
      (AwaitPatchJobs.poll name ajName (pre.map Except.ok ++ Except.ok res :: rest) r).2.1 =
        .sent (.failureStatus res.State res.ErrorMessage) ∧
      containsText (DErr.failureStatus res.State res.ErrorMessage).text res.State.toString ∧
      containsText (DErr.failureStatus res.State res.ErrorMessage).text res.ErrorMessage) ∧
    ((AwaitPatchJobs.poll name ajName (pre.map Except.ok) r).1 = pre.length ∧
      (AwaitPatchJobs.poll name ajName (pre.map Except.ok) r).2.1 = .polling) := by
  have hfail : ∀ st, isPatchJobFailureState st = true ↔
      (st = .COMPLETED_WITH_ERRORS ∨ st = .TIMED_OUT ∨ st = .CANCELED) := by
    intro st
    simp [isPatchJobFailureState, or_assoc]
  have hpre1 : ∀ j ∈ pre, isPatchJobFailureState j.State = false ∧ j.State ≠ .SUCCEEDED := by
    intro j hj
    obtain ⟨h1, h2, h3, h4⟩ := hpre j hj
    refine ⟨?_, h1⟩
    cases hb : isPatchJobFailureState j.State with
    | false => rfl
    | true =>
      rcases (hfail j.State).1 hb with h | h | h
      · exact absurd h h2
      · exact absurd h h3
      · exact absurd h h4
  refine ⟨hfail, by decide, ?_, ?_, ?_⟩
  · intro hs
    obtain ⟨r1, hr1⟩ := poll_skip name ajName pre (Except.ok res :: rest) r hpre1
    rw [hr1]
    simp [AwaitPatchJobs.poll, hs, isPatchJobFailureState]
  · intro hs
    obtain ⟨r1, hr1⟩ := poll_skip name ajName pre (Except.ok res :: rest) r hpre1
    rw [hr1]
    have hf : isPatchJobFailureState res.State = true := (hfail res.State).2 hs
    refine ⟨by simp [AwaitPatchJobs.poll, hf], by simp [AwaitPatchJobs.poll, hf], ?_⟩
    exact failureStatus_text_contains res.State res.ErrorMessage
  · obtain ⟨r1, hr1⟩ := poll_skip name ajName pre [] r hpre1
    rw [List.append_nil] at hr1
    rw [hr1]
    simp [AwaitPatchJobs.poll]

/-- Witness for C9: fetching RUNNING then COMPLETED_WITH_ERRORS ends after two
fetches with the failure error, fetching RUNNING then SUCCEEDED ends after two
fetches without an error. -/
theorem AwaitPatchJobs_poll_spec_witness :
    (AwaitPatchJobs.poll "projects/p/patchJobs/j" "a" [.ok runningJob, .ok failedJob]
        exampleRegistry).1 = 2 ∧
    (AwaitPatchJobs.poll "projects/p/patchJobs/j" "a" [.ok runningJob, .ok failedJob]
        exampleRegistry).2.1 = .sent (.failureStatus .COMPLETED_WITH_ERRORS "2 instances failed") ∧
    (AwaitPatchJobs.poll "projects/p/patchJobs/j" "a" [.ok runningJob, .ok succeededJob]
        exampleRegistry).1 = 2 ∧
    (AwaitPatchJobs.poll "projects/p/patchJobs/j" "a" [.ok runningJob, .ok succeededJob]
        exampleRegistry).2.1 = .done :=
  have hpre : ∀ j ∈ [runningJob], j.State ≠ .SUCCEEDED ∧ j.State ≠ .COMPLETED_WITH_ERRORS ∧
      j.State ≠ .TIMED_OUT ∧ j.State ≠ .CANCELED := by
    intro j hj
    rw [List.mem_singleton] at hj
    subst hj
    decide
  have hf := (AwaitPatchJobs_poll_spec "projects/p/patchJobs/j" "a" [runningJob] failedJob []
    exampleRegistry hpre).2.2.2.1 (Or.inl rfl)
  have hs := (AwaitPatchJobs_poll_spec "projects/p/patchJobs/j" "a" [runningJob] succeededJob []
    exampleRegistry hpre).2.2.1 rfl
  ⟨hf.1, hf.2.1, hs.1, hs.2⟩

/-! ### `ExecutePatchJobs.run` -/

theorem ExecutePatchJobs_run_cons_ok
    (exec : Nat → Option ExecutePatchJobRequest → Except GoErr OsPatchJob) (i : Nat) (j : Nat)
    (rest : List Nat) (mem : PatchJobHeap) (job : OsPatchJob)
    (h : exec i (mem j).ExecutePatchJobRequest = .ok job) :
    ExecutePatchJobs.run exec i (j :: rest) mem =
      ((ExecutePatchJobs.run exec (i + 1) rest
          (fun a => if a = j then { mem j with patchJob := some job } else mem a)).1,
        (mem j).ExecutePatchJobRequest ::
          (ExecutePatchJobs.run exec (i + 1) rest
            (fun a => if a = j then { mem j with patchJob := some job } else mem a)).2.1,
        (ExecutePatchJobs.run exec (i + 1) rest
          (fun a => if a = j then { mem j with patchJob := some job } else mem a)).2.2) := by
  simp [ExecutePatchJobs.run, h]

theorem ExecutePatchJobs_run_cons_error
    (exec : Nat → Option ExecutePatchJobRequest → Except GoErr OsPatchJob) (i : Nat) (j : Nat)
    (rest : List Nat) (mem : PatchJobHeap) (err : GoErr)
    (h : exec i (mem j).ExecutePatchJobRequest = .error err) :
    ExecutePatchJobs.run exec i (j :: rest) mem =
      (some (.wrapped err), [(mem j).ExecutePatchJobRequest], mem) := by
  simp [ExecutePatchJobs.run, h]

theorem ExecutePatchJobs_run_frame
    (exec : Nat → Option ExecutePatchJobRequest → Except GoErr OsPatchJob) :
    ∀ (e : List Nat) (i : Nat) (mem : PatchJobHeap),
      (∀ a, a ∉ e → (ExecutePatchJobs.run exec i e mem).2.2 a = mem a) ∧
      (∀ a, ((ExecutePatchJobs.run exec i e mem).2.2 a).ExecutePatchJobRequest =
        (mem a).ExecutePatchJobRequest) := by
  intro e
  induction e with
  | nil => intro i mem; simp [ExecutePatchJobs.run]
  | cons j rest ih =>
    intro i mem
    cases h : exec i (mem j).ExecutePatchJobRequest with
    | error err =>
      rw [ExecutePatchJobs_run_cons_error exec i j rest mem err h]
      simp
    | ok job =>
      rw [ExecutePatchJobs_run_cons_ok exec i j rest mem job h]
      obtain ⟨h1, h2⟩ := ih (i + 1)
        (fun a => if a = j then { mem j with patchJob := some job } else mem a)
      constructor
      · intro a ha
        simp only [List.mem_cons, not_or] at ha
        rw [h1 a ha.2]
        simp [ha.1]
      · intro a
        rw [h2 a]
        by_cases haj : a = j
        · subst haj; simp
        · simp [haj]

theorem ExecutePatchJobs_run_first_failure
    (exec : Nat → Option ExecutePatchJobRequest → Except GoErr OsPatchJob) :
    ∀ (e : List Nat) (i0 : Nat) (mem : PatchJobHeap), e.Nodup →
      ∀ (k pk : Nat) (err : GoErr), e[k]? = some pk →
        exec (i0 + k) (mem pk).ExecutePatchJobRequest = .error err →
        (∀ i pi, i < k → e[i]? = some pi →
          ∃ job, exec (i0 + i) (mem pi).ExecutePatchJobRequest = .ok job) →
        (ExecutePatchJobs.run exec i0 e mem).1 = some (.wrapped err) ∧
        (ExecutePatchJobs.run exec i0 e mem).2.1 =
          (e.take (k + 1)).map (fun j => (mem j).ExecutePatchJobRequest) ∧
        (∀ i pi job, i < k → e[i]? = some pi →
          exec (i0 + i) (mem pi).ExecutePatchJobRequest = .ok job →
          ((ExecutePatchJobs.run exec i0 e mem).2.2 pi).patchJob = some job) ∧
        (∀ i pi, k ≤ i → e[i]? = some pi →
          ((ExecutePatchJobs.run exec i0 e mem).2.2 pi).patchJob = (mem pi).patchJob) := by
  intro e
  induction e with
  | nil => intro i0 mem _ k pk err hk; simp at hk
  | cons j rest ih =>
    intro i0 mem hnd k pk err hk herr hpre
    have hnd1 : j ∉ rest ∧ rest.Nodup := by simpa using hnd
    cases k with
    | zero =>
      have hj : pk = j := by simpa using hk.symm
      subst hj
      rw [Nat.add_zero] at herr
      rw [ExecutePatchJobs_run_cons_error exec i0 pk rest mem err herr]
      refine ⟨rfl, by simp, ?_, ?_⟩
      · intro i pi job hi; omega
      · intro i pi _ _; rfl
    | succ k1 =>
      obtain ⟨job0, hjob0⟩ := hpre 0 j (by omega) (by simp)
      rw [Nat.add_zero] at hjob0
      rw [ExecutePatchJobs_run_cons_ok exec i0 j rest mem job0 hjob0]
      have hreq : ∀ a, ((fun a => if a = j then { mem j with patchJob := some job0 } else mem a :
          PatchJobHeap) a).ExecutePatchJobRequest = (mem a).ExecutePatchJobRequest := by
        intro a
        by_cases haj : a = j
        · subst haj; simp
        · simp [haj]
      have hk1 : rest[k1]? = some pk := by simpa using hk
      have herr1 : exec (i0 + 1 + k1)
          ((fun a => if a = j then { mem j with patchJob := some job0 } else mem a :
            PatchJobHeap) pk).ExecutePatchJobRequest = .error err := by
        rw [hreq pk]
        have harith : i0 + 1 + k1 = i0 + (k1 + 1) := by omega
        rw [harith]
        exact herr
      have hpre1 : ∀ i pi, i < k1 → rest[i]? = some pi →
          ∃ job, exec (i0 + 1 + i)
            ((fun a => if a = j then { mem j with patchJob := some job0 } else mem a :
              PatchJobHeap) pi).ExecutePatchJobRequest = .ok job := by
        intro i pi hi hpi
        rw [hreq pi]
        have harith : i0 + 1 + i = i0 + (i + 1) := by omega
        rw [harith]
        exact hpre (i + 1) pi (by omega) (by simpa using hpi)
      obtain ⟨c1, c2, c3, c4⟩ := ih (i0 + 1) _ hnd1.2 k1 pk err hk1 herr1 hpre1
      obtain ⟨f1, _⟩ := ExecutePatchJobs_run_frame exec rest (i0 + 1)
        (fun a => if a = j then { mem j with patchJob := some job0 } else mem a)
      refine ⟨c1, ?_, ?_, ?_⟩
      · simp only [c2, List.take_succ_cons, List.map_cons]
        congr 1
        apply List.map_congr_left
        intro a _
        exact hreq a
      · intro i pi job hi hpi hjob
        cases i with
        | zero =>
          have hpj : pi = j := by simpa using hpi.symm
          subst hpj
          rw [Nat.add_zero] at hjob
          rw [hjob0] at hjob
          cases hjob
          show ((ExecutePatchJobs.run exec (i0 + 1) rest _).2.2 pi).patchJob = some job0
          rw [f1 pi hnd1.1]
          simp
        | succ i1 =>
          have hpi1 : rest[i1]? = some pi := by simpa using hpi
          have harith : i0 + 1 + i1 = i0 + (i1 + 1) := by omega
          apply c3 i1 pi job (by omega) hpi1
          rw [hreq pi, harith]
          exact hjob
      · intro i pi hi hpi
        cases i with
        | zero => omega
        | succ i1 =>
          have hpi1 : rest[i1]? = some pi := by simpa using hpi
          have hmem : pi ∈ rest := List.getElem?_mem hpi1
          have hne : pi ≠ j := fun hpj => hnd1.1 (hpj ▸ hmem)
          show ((ExecutePatchJobs.run exec (i0 + 1) rest _).2.2 pi).patchJob = _
          rw [c4 i1 pi (by omega) hpi1]
          simp [hne]

theorem ExecutePatchJobs_run_no_failure
    (exec : Nat → Option ExecutePatchJobRequest → Except GoErr OsPatchJob) :
    ∀ (e : List Nat) (i0 : Nat) (mem : PatchJobHeap), e.Nodup →
      (∀ i pi, e[i]? = some pi →
        ∃ job, exec (i0 + i) (mem pi).ExecutePatchJobRequest = .ok job) →
      (ExecutePatchJobs.run exec i0 e mem).1 = none ∧
      (ExecutePatchJobs.run exec i0 e mem).2.1 =
        e.map (fun j => (mem j).ExecutePatchJobRequest) ∧
      (∀ i pi job, e[i]? = some pi →
        exec (i0 + i) (mem pi).ExecutePatchJobRequest = .ok job →
        ((ExecutePatchJobs.run exec i0 e mem).2.2 pi).patchJob = some job) := by
  intro e
  induction e with
  | nil =>
    intro i0 mem _ _
    refine ⟨rfl, rfl, ?_⟩
    intro i pi job hpi
    simp at hpi
  | cons j rest ih =>
    intro i0 mem hnd hall
    have hnd1 : j ∉ rest ∧ rest.Nodup := by simpa using hnd
    obtain ⟨job0, hjob0⟩ := hall 0 j (by simp)
    rw [Nat.add_zero] at hjob0
    rw [ExecutePatchJobs_run_cons_ok exec i0 j rest mem job0 hjob0]
    have hreq : ∀ a, ((fun a => if a = j then { mem j with patchJob := some job0 } else mem a :
        PatchJobHeap) a).ExecutePatchJobRequest = (mem a).ExecutePatchJobRequest := by
      intro a
      by_cases haj : a = j
      · subst haj; simp
      · simp [haj]
    have hall1 : ∀ i pi, rest[i]? = some pi →
        ∃ job, exec (i0 + 1 + i)
          ((fun a => if a = j then { mem j with patchJob := some job0 } else mem a :
            PatchJobHeap) pi).ExecutePatchJobRequest = .ok job := by
      intro i pi hpi
      rw [hreq pi]
      have harith : i0 + 1 + i = i0 + (i + 1) := by omega
      rw [harith]
      exact hall (i + 1) pi (by simpa using hpi)
    obtain ⟨c1, c2, c3⟩ := ih (i0 + 1) _ hnd1.2 hall1
    obtain ⟨f1, _⟩ := ExecutePatchJobs_run_frame exec rest (i0 + 1)
      (fun a => if a = j then { mem j with patchJob := some job0 } else mem a)
    refine ⟨c1, ?_, ?_⟩
    · simp only [c2, List.map_cons]
      congr 1
      apply List.map_congr_left
      intro a _
      exact hreq a
    · intro i pi job hpi hjob
      cases i with
      | zero =>
        have hpj : pi = j := by simpa using hpi.symm
        subst hpj
        rw [Nat.add_zero] at hjob
        rw [hjob0] at hjob
        cases hjob
        show ((ExecutePatchJobs.run exec (i0 + 1) rest _).2.2 pi).patchJob = some job0
        rw [f1 pi hnd1.1]
        simp
      | succ i1 =>
        have hpi1 : rest[i1]? = some pi := by simpa using hpi
        have harith : i0 + 1 + i1 = i0 + (i1 + 1) := by omega
        apply c3 i1 pi job hpi1
        rw [hreq pi, harith]
        exact hjob

/-- C10: `ExecutePatchJobs.run` on a list `e` of distinct descriptors, where
`exec i req` is the provider's answer to the `i`-th execute call.  If the call
for the `k`-th descriptor is the first to fail, `run` returns that error
(wrapped), the calls issued are exactly those for the first `k + 1` descriptors
in list order, each descriptor before `k` holds the handle returned for it, and
descriptor `k` and the later ones keep their previous `patchJob`.  If no call
fails, `run` returns nil, the calls issued are those for all descriptors in list
order, and every descriptor holds the handle returned for it. -/
theorem ExecutePatchJobs_run_spec
    (exec : Nat → Option ExecutePatchJobRequest → Except GoErr OsPatchJob)
    (e : List Nat) (mem : PatchJobHeap) (hnd : e.Nodup) :
    (∀ (k pk : Nat) (err : GoErr), e[k]? = some pk →
      exec k (mem pk).ExecutePatchJobRequest = .error err →
      (∀ i pi, i < k → e[i]? = some pi →
        ∃ job, exec i (mem pi).ExecutePatchJobRequest = .ok job) →
      (ExecutePatchJobs.run exec 0 e mem).1 = some (.wrapped err) ∧
      (ExecutePatchJobs.run exec 0 e mem).2.1 =
        (e.take (k + 1)).map (fun j => (mem j).ExecutePatchJobRequest) ∧
      (∀ i pi job, i < k → e[i]? = some pi →
        exec i (mem pi).ExecutePatchJobRequest = .ok job →
        ((ExecutePatchJobs.run exec 0 e mem).2.2 pi).patchJob = some job) ∧
      (∀ i pi, k ≤ i → e[i]? = some pi →
        ((ExecutePatchJobs.run exec 0 e mem).2.2 pi).patchJob = (mem pi).patchJob)) ∧
    ((∀ i pi, e[i]? = some pi → ∃ job, exec i (mem pi).ExecutePatchJobRequest = .ok job) →
      (ExecutePatchJobs.run exec 0 e mem).1 = none ∧
      (ExecutePatchJobs.run exec 0 e mem).2.1 =
        e.map (fun j => (mem j).ExecutePatchJobRequest) ∧
      (∀ i pi job, e[i]? = some pi →
        exec i (mem pi).ExecutePatchJobRequest = .ok job →
        ((ExecutePatchJobs.run exec 0 e mem).2.2 pi).patchJob = some job)) := by
  constructor
  · intro k pk err hk herr hpre
    have h := ExecutePatchJobs_run_first_failure exec e 0 mem hnd k pk err hk
      (by simpa using herr) (by simpa using hpre)
    simpa using h
  · intro hall
    have h := ExecutePatchJobs_run_no_failure exec e 0 mem hnd (by simpa using hall)
    simpa using h

/-- Witness for C10: descriptors 0, 1, 2 with a provider whose second call fails:
`run` returns the wrapped error, descriptor 0 holds the handle returned for it,
and descriptor 2 keeps the handle it had. -/
theorem ExecutePatchJobs_run_spec_witness :
    [0, 1, 2].Nodup ∧
    (ExecutePatchJobs.run exampleExec 0 [0, 1, 2] exampleJobs).1 =
      some (.wrapped (.other "quota")) ∧
    (ExecutePatchJobs.run exampleExec 0 [0, 1, 2] exampleJobs).2.1 =
      ([0, 1, 2].take 2).map (fun j => (exampleJobs j).ExecutePatchJobRequest) ∧
    ((ExecutePatchJobs.run exampleExec 0 [0, 1, 2] exampleJobs).2.2 0).patchJob =
      some runningJob ∧
    ((ExecutePatchJobs.run exampleExec 0 [0, 1, 2] exampleJobs).2.2 2).patchJob =
      (exampleJobs 2).patchJob :=
  have hnd : [0, 1, 2].Nodup := by decide
  have hpre : ∀ i pi, i < 1 → [0, 1, 2][i]? = some pi →
      ∃ job, exampleExec i (exampleJobs pi).ExecutePatchJobRequest = .ok job := by
    intro i pi hi _
    have h0 : i = 0 := by omega
    subst h0
    exact ⟨runningJob, rfl⟩
  have h := (ExecutePatchJobs_run_spec exampleExec [0, 1, 2] exampleJobs hnd).1 1 1
    (.other "quota") rfl rfl hpre
  ⟨hnd, h.1, h.2.1, h.2.2.1 0 0 runningJob (by decide) rfl rfl, h.2.2.2 2 2 (by decide) rfl⟩

/-! ### Existence caches -/

theorem cacheExists_cached (noName : DErr) (list : String → Except GoErr (List Listed))
    (cache : ExistsCache) (project name : String) (il : List Listed) (hname : name ≠ "")
    (hc : cache.listing project = some il) :
    (cacheExists noName list cache project name).1 = (il.any (fun i => name == i.Name), none) ∧
    (cacheExists noName list cache project name).2.1 = 0 ∧
    ∀ p, (cacheExists noName list cache project name).2.2.listing p = cache.listing p := by
  cases cache with
  | none => simp [ExistsCache.listing] at hc
  | some m =>
    simp only [ExistsCache.listing] at hc
    simp [cacheExists, hname, hc, ExistsCache.listing]

theorem cacheExists_listed (noName : DErr) (list : String → Except GoErr (List Listed))
    (cache : ExistsCache) (project name : String) (il : List Listed) (hname : name ≠ "")
    (hc : cache.listing project = none) (hl : list project = .ok il) :
    (cacheExists noName list cache project name).1 = (il.any (fun i => name == i.Name), none) ∧
    (cacheExists noName list cache project name).2.1 = 1 ∧
    (cacheExists noName list cache project name).2.2.listing project = some il ∧
    ∀ p, p ≠ project →
      (cacheExists noName list cache project name).2.2.listing p = cache.listing p := by
  cases cache with
  | none =>
    refine ⟨by simp [cacheExists, hname, hl], by simp [cacheExists, hname, hl],
      by simp [cacheExists, hname, hl, ExistsCache.listing], ?_⟩
    intro p hp
    simp [cacheExists, hname, hl, ExistsCache.listing, hp]
  | some m =>
    simp only [ExistsCache.listing] at hc
    refine ⟨by simp [cacheExists, hname, hl, hc], by simp [cacheExists, hname, hl, hc],
      by simp [cacheExists, hname, hl, hc, ExistsCache.listing], ?_⟩
    intro p hp
    simp [cacheExists, hname, hl, hc, ExistsCache.listing, hp]

theorem cacheExists_list_error (noName : DErr) (list : String → Except GoErr (List Listed))
    (cache : ExistsCache) (project name : String) (err : GoErr) (hname : name ≠ "")
    (hc : cache.listing project = none) (hl : list project = .error err) :
    (cacheExists noName list cache project name).1 = (false, some (.listing project err)) ∧
    (cacheExists noName list cache project name).2.1 = 1 ∧
    ∀ p, (cacheExists noName list cache project name).2.2.listing p = cache.listing p := by
  cases cache with
  | none =>
    refine ⟨by simp [cacheExists, hname, hl], by simp [cacheExists, hname, hl], ?_⟩
    intro p
    simp [cacheExists, hname, hl, ExistsCache.listing]
  | some m =>
    simp only [ExistsCache.listing] at hc
    refine ⟨by simp [cacheExists, hname, hl, hc], by simp [cacheExists, hname, hl, hc], ?_⟩
    intro p
    simp [cacheExists, hname, hl, hc, ExistsCache.listing]

theorem cacheExists_empty_name (noName : DErr) (list : String → Except GoErr (List Listed))
    (cache : ExistsCache) (project : String) :
    cacheExists noName list cache project "" = ((false, some noName), 0, cache) := by
  simp [cacheExists]

theorem cacheExists_keeps (noName : DErr) (list : String → Except GoErr (List Listed))
    (cache : ExistsCache) (project name : String) (p : String) (il : List Listed)
    (hc : cache.listing p = some il) :
    (cacheExists noName list cache project name).2.2.listing p = some il := by
  by_cases hname : name = ""
  · subst hname
    rw [cacheExists_empty_name]
    exact hc
  · cases hq : cache.listing project with
    | some il1 =>
      rw [(cacheExists_cached noName list cache project name il1 hname hq).2.2 p]
      exact hc
    | none =>
      have hp : p ≠ project := by
        intro hpp
        rw [hpp, hq] at hc
        cases hc
      cases hl : list project with
      | error err =>
        rw [(cacheExists_list_error noName list cache project name err hname hq hl).2.2 p]
        exact hc
      | ok il1 =>
        rw [(cacheExists_listed noName list cache project name il1 hname hq hl).2.2.2 p hp]
        exact hc

theorem any_name_iff (il : List Listed) (name : String) :
    il.any (fun i => name == i.Name) = true ↔ ∃ x ∈ il, x.Name = name := by
  simp only [List.any_eq_true, beq_iff_eq]
  constructor
  · rintro ⟨x, hx, h⟩
    exact ⟨x, hx, h.symm⟩
  · rintro ⟨x, hx, h⟩
    exact ⟨x, hx, h.symm⟩

theorem cacheExists_spec (noName : DErr) (list : String → Except GoErr (List Listed))
    (cache : ExistsCache) (project name : String) (hname : name ≠ "") :
    (cache.listing project = none → (cacheExists noName list cache project name).2.1 = 1) ∧
    (cache.listing project ≠ none → (cacheExists noName list cache project name).2.1 = 0) ∧
    (∀ il, cache.listing project = none → list project = .ok il →
      (cacheExists noName list cache project name).2.2.listing project = some il) ∧
    (∀ p il, cache.listing p = some il →
      (cacheExists noName list cache project name).2.2.listing p = some il) ∧
    ((cacheExists noName list cache project name).1.1 = true ↔
      ∃ il, (cacheExists noName list cache project name).2.2.listing project = some il ∧
        ∃ x ∈ il, x.Name = name) := by
  refine ⟨?_, ?_, ?_, ?_, ?_⟩
  · intro hc
    cases hl : list project with
    | error err => exact (cacheExists_list_error noName list cache project name err hname hc hl).2.1
    | ok il => exact (cacheExists_listed noName list cache project name il hname hc hl).2.1
  · intro hc
    cases hq : cache.listing project with
    | none => exact absurd hq hc
    | some il => exact (cacheExists_cached noName list cache project name il hname hq).2.1
  · intro il hc hl
    exact (cacheExists_listed noName list cache project name il hname hc hl).2.2.1
  · intro p il hc
    exact cacheExists_keeps noName list cache project name p il hc
  · cases hq : cache.listing project with
    | some il =>
      obtain ⟨h1, _, h3⟩ := cacheExists_cached noName list cache project name il hname hq
      rw [h1, h3 project, hq]
      simp only [any_name_iff, Option.some.injEq, exists_eq_left']
    | none =>
      cases hl : list project with
      | error err =>
        obtain ⟨h1, _, h3⟩ := cacheExists_list_error noName list cache project name err hname hq hl
        rw [h1, h3 project, hq]
        simp
      | ok il =>
        obtain ⟨h1, _, h3, _⟩ := cacheExists_listed noName list cache project name il hname hq hl
        rw [h1, h3]
        simp only [any_name_iff, Option.some.injEq, exists_eq_left']

theorem cacheQueries_cached (noName : DErr) (project : String) (il : List Listed) :
    ∀ (qs : List ExistsQuery) (cache : ExistsCache), cache.listing project = some il →
      (cacheQueries noName qs cache).2.listing project = some il ∧
      ∀ (i : Nat) (q : ExistsQuery) (out : (Bool × Option DErr) × Nat), qs[i]? = some q →
        (cacheQueries noName qs cache).1[i]? = some out →
        q.project = project → q.name ≠ "" →
        out = ((il.any (fun x => q.name == x.Name), none), 0) := by
  intro qs
  induction qs with
  | nil =>
    intro cache hc
    refine ⟨hc, ?_⟩
    intro i q out hq
    simp at hq
  | cons q0 rest ih =>
    intro cache hc
    have hnext := cacheExists_keeps noName q0.list cache q0.project q0.name project il hc
    obtain ⟨ih1, ih2⟩ := ih _ hnext
    refine ⟨ih1, ?_⟩
    intro i q out hq hout hproj hname
    cases i with
    | zero =>
      simp only [List.getElem?_cons_zero, Option.some.injEq] at hq
      subst hq
      simp only [cacheQueries, List.getElem?_cons_zero, Option.some.injEq] at hout
      subst hout
      subst hproj
      obtain ⟨h1, h2, _⟩ := cacheExists_cached noName q0.list cache q0.project q0.name il hname hc
      rw [h1, h2]
    | succ i1 =>
      simp only [List.getElem?_cons_succ] at hq
      simp only [cacheQueries, List.getElem?_cons_succ] at hout
      exact ih2 i1 q out hq hout hproj hname

/-- C11: for `machineImageExists` and `snapshotExists` queried with a non-empty
name on any cache state: a query for a project without a cached listing makes
exactly one listing call, and a successful listing is then the cached one; a
query for a project with a cached listing makes no listing call; a cached
listing is never replaced; the query returns true exactly when the listing
cached for the project after the query has an entry with that name.  And once a
project has a cached listing `il`, every later query for it, whatever the
provider would list by then, makes no listing call and answers from `il`. -/
theorem existence_cache_spec (list : String → Except GoErr (List Listed))
    (cache : ExistsCache) (project name : String) (il0 : List Listed) (qs : List ExistsQuery)
    (hname : name ≠ "") (hcached : cache.listing project = some il0) :
    ((∀ cache0 : ExistsCache, cache0.listing project = none →
        (machineImageExists list cache0 project name).2.1 = 1 ∧
        (∀ il, list project = .ok il →
          (machineImageExists list cache0 project name).2.2.listing project = some il)) ∧
      (machineImageExists list cache project name).2.1 = 0 ∧
      (∀ cache0 : ExistsCache,
        ((machineImageExists list cache0 project name).1.1 = true ↔
          ∃ il, (machineImageExists list cache0 project name).2.2.listing project = some il ∧
            ∃ x ∈ il, x.Name = name)) ∧
      (machineImageQueries qs cache).2.listing project = some il0 ∧
      (∀ (i : Nat) (q : ExistsQuery) (out : (Bool × Option DErr) × Nat), qs[i]? = some q →
        (machineImageQueries qs cache).1[i]? = some out →
        q.project = project → q.name ≠ "" →
        out.2 = 0 ∧ out.1.2 = none ∧ (out.1.1 = true ↔ ∃ x ∈ il0, x.Name = q.name))) ∧
    ((∀ cache0 : ExistsCache, cache0.listing project = none →
        (snapshotExists list cache0 project name).2.1 = 1 ∧
        (∀ il, list project = .ok il →
          (snapshotExists list cache0 project name).2.2.listing project = some il)) ∧
      (snapshotExists list cache project name).2.1 = 0 ∧
      (∀ cache0 : ExistsCache,
        ((snapshotExists list cache0 project name).1.1 = true ↔
          ∃ il, (snapshotExists list cache0 project name).2.2.listing project = some il ∧
            ∃ x ∈ il, x.Name = name)) ∧
      (snapshotQueries qs cache).2.listing project = some il0 ∧
      (∀ (i : Nat) (q : ExistsQuery) (out : (Bool × Option DErr) × Nat), qs[i]? = some q →
        (snapshotQueries qs cache).1[i]? = some out →
        q.project = project → q.name ≠ "" →
        out.2 = 0 ∧ out.1.2 = none ∧ (out.1.1 = true ↔ ∃ x ∈ il0, x.Name = q.name))) := by
  have hne : cache.listing project ≠ none := by rw [hcached]; simp
  constructor
  · refine ⟨?_, ?_, ?_, ?_, ?_⟩
    · intro cache0 h0
      obtain ⟨h1, _, h3, _⟩ := cacheExists_spec .mustProvideName list cache0 project name hname
      exact ⟨h1 h0, fun il hl => h3 il h0 hl⟩
    · exact (cacheExists_spec .mustProvideName list cache project name hname).2.1 hne
    · intro cache0
      exact (cacheExists_spec .mustProvideName list cache0 project name hname).2.2.2.2
    · exact (cacheQueries_cached .mustProvideName project il0 qs cache hcached).1
    · intro i q out hq hout hproj hn
      have h := (cacheQueries_cached .mustProvideName project il0 qs cache hcached).2 i q out hq
        hout hproj hn
      subst h
      exact ⟨rfl, rfl, any_name_iff il0 q.name⟩
  · refine ⟨?_, ?_, ?_, ?_, ?_⟩
    · intro cache0 h0
      obtain ⟨h1, _, h3, _⟩ :=
        cacheExists_spec .mustProvideSnapshotName list cache0 project name hname
      exact ⟨h1 h0, fun il hl => h3 il h0 hl⟩
    · exact (cacheExists_spec .mustProvideSnapshotName list cache project name hname).2.1 hne
    · intro cache0
      exact (cacheExists_spec .mustProvideSnapshotName list cache0 project name hname).2.2.2.2
    · exact (cacheQueries_cached .mustProvideSnapshotName project il0 qs cache hcached).1
    · intro i q out hq hout hproj hn
      have h := (cacheQueries_cached .mustProvideSnapshotName project il0 qs cache hcached).2 i q
        out hq hout hproj hn
      subst h
      exact ⟨rfl, rfl, any_name_iff il0 q.name⟩

/-- Witness for C11: project "p" was listed when only "old" existed; the provider
now lists "old" and "new"; the query for "new" makes no listing call and
answers false, the query for "old" answers true. -/
theorem existence_cache_spec_witness :
    ("new" : String) ≠ "" ∧ exampleCache.listing "p" = some [{ Name := "old" }] ∧
    (machineImageExists laterListing exampleCache "p" "new").2.1 = 0 ∧
    (machineImageQueries exampleQueries exampleCache).1 =
      [((false, none), 0), ((true, none), 0)] ∧
    (snapshotQueries exampleQueries exampleCache).2.listing "p" = some [{ Name := "old" }] :=
  have hname : ("new" : String) ≠ "" := by decide
  have hc : exampleCache.listing "p" = some [{ Name := "old" }] := by decide
  have h := existence_cache_spec laterListing exampleCache "p" "new" [{ Name := "old" }]
    exampleQueries hname hc
  ⟨hname, hc, h.1.2.1, by decide, h.2.2.2.2.1⟩

/-- C13 (code on every input): `AwaitPatchJobs.populate` returns a nil error for
every list of awaited jobs, whatever `addErrs`, `time.ParseDuration` and the
default interval are.  In particular it returns nil for the job with Interval
"abc", which the parser rejects; the claim asks for a non-nil error there.  The
rest of the claim holds at the example: an empty Interval becomes the default
before parsing and a non-empty one is kept. -/
theorem AwaitPatchJobs_populate_always_nil (addErrs : dErr → Option DErr → dErr)
    (ParseDuration : String → Except GoErr Int) (defaultInterval : String)
    (a : List AwaitPatchJob) :
    (AwaitPatchJobs.populate addErrs ParseDuration defaultInterval a).1 = none ∧
    exampleParseDuration "abc" = .error (.other "time: invalid duration") ∧
    AwaitPatchJobs.populate addErrs exampleParseDuration "5s"
        [{ Name := "x", Interval := "abc" }, { Name := "y", Interval := "" },
         { Name := "z", Interval := "1m" }] =
      (none, [{ Name := "x", Interval := "abc", interval := 0 },
              { Name := "y", Interval := "5s", interval := 5000000000 },
              { Name := "z", Interval := "1m", interval := 60000000000 }]) := by
  have key : ∀ (l : List AwaitPatchJob) (acc : dErr × List AwaitPatchJob), acc.1 = none →
      (l.foldl
        (fun (acc : dErr × List AwaitPatchJob) job =>
          let errs := acc.1
          let as1 : AwaitPatchJob :=
            if job.Interval = "" then { job with Interval := defaultInterval } else job
          match ParseDuration as1.Interval with
          | .ok d => (errs, acc.2 ++ [{ as1 with interval := d }])
          | .error err =>
            let _unused := addErrs errs (some (.wrapped err))
            (errs, acc.2 ++ [{ as1 with interval := 0 }])) acc).1 = none := by
    intro l
    induction l with
    | nil => intro acc h; simpa using h
    | cons job rest ih =>
      intro acc h
      rw [List.foldl_cons]
      apply ih
      simp only []
      split <;> exact h
  refine ⟨key a (none, []) rfl, by simp [exampleParseDuration], ?_⟩
  simp [AwaitPatchJobs.populate, exampleParseDuration]

/-- C14: `MachineImage.validate` and `Snapshot.validate`, over any answers of the
registries and any result of `Resource.validate`.  With an empty source the
error is non-nil and no registry call is made.  With a non-empty source whose
`regUse` (instance registry, resp. disk registry) fails, the error is non-nil,
contains that failure, and `regUse` is the only call.  With a non-empty source
whose `regUse` succeeds, the calls are `regUse` then `regCreate` under the
daisy name with the OverWrite flag, and the result is the error of `regCreate`
added to those of `Resource.validate`. -/
theorem validate_registration (resourceErrs : dErr) (w : RegistryAnswers) (i : MachineImage)
    (sn : Snapshot) (s : Nat) :
    ((i.SourceInstance = "" →
        (MachineImage.validate resourceErrs w i s).1 ≠ none ∧
        (MachineImage.validate resourceErrs w i s).2 = []) ∧
      (i.SourceInstance ≠ "" → ∀ err,
        w.call (.instancesRegUse i.SourceInstance s) = some err →
        (MachineImage.validate resourceErrs w i s).1 ≠ none ∧
        (∃ es, (MachineImage.validate resourceErrs w i s).1 = some es ∧ err ∈ es) ∧
        (MachineImage.validate resourceErrs w i s).2 = [.instancesRegUse i.SourceInstance s]) ∧
      (i.SourceInstance ≠ "" → w.call (.instancesRegUse i.SourceInstance s) = none →
        (MachineImage.validate resourceErrs w i s).2 =
          [.instancesRegUse i.SourceInstance s,
           .machineImagesRegCreate i.Resource.daisyName i.Resource s i.OverWrite] ∧
        (MachineImage.validate resourceErrs w i s).1 =
          addErrs resourceErrs
            (w.call (.machineImagesRegCreate i.Resource.daisyName i.Resource s i.OverWrite)))) ∧
    ((sn.SourceDisk = "" →
        (Snapshot.validate resourceErrs w sn s).1 ≠ none ∧
        (Snapshot.validate resourceErrs w sn s).2 = []) ∧
      (sn.SourceDisk ≠ "" → ∀ err,
        w.call (.disksRegUse sn.SourceDisk s) = some err →
        (Snapshot.validate resourceErrs w sn s).1 ≠ none ∧
        (∃ es, (Snapshot.validate resourceErrs w sn s).1 = some es ∧ err ∈ es) ∧
        (Snapshot.validate resourceErrs w sn s).2 = [.disksRegUse sn.SourceDisk s]) ∧
      (sn.SourceDisk ≠ "" → w.call (.disksRegUse sn.SourceDisk s) = none →
        (Snapshot.validate resourceErrs w sn s).2 =
          [.disksRegUse sn.SourceDisk s,
           .snapshotsRegCreate sn.Resource.daisyName sn.Resource s sn.OverWrite] ∧
        (Snapshot.validate resourceErrs w sn s).1 =
          addErrs resourceErrs
            (w.call (.snapshotsRegCreate sn.Resource.daisyName sn.Resource s sn.OverWrite)))) := by
  refine ⟨⟨?_, ?_, ?_⟩, ⟨?_, ?_, ?_⟩⟩
  · intro h
    simp [MachineImage.validate, h, addErrs]
  · intro h err herr
    simp [MachineImage.validate, h, herr, addErrs]
  · intro h hok
    simp [MachineImage.validate, h, hok]
  · intro h
    simp [Snapshot.validate, h, addErrs]
  · intro h err herr
    simp [Snapshot.validate, h, herr, addErrs]
  · intro h hok
    simp [Snapshot.validate, h, hok]

/-- Witness for C14: the machine image of "inst" and the snapshot of a disk, on
registries where using the source is a dependency violation: both `validate`
return a non-nil error and make the `regUse` call only. -/
theorem validate_registration_witness :
    (MachineImage.validate none violatingRegistries exampleMachineImage 8).1 ≠ none ∧
    (MachineImage.validate none violatingRegistries exampleMachineImage 8).2 =
      [.instancesRegUse "inst" 8] ∧
    (Snapshot.validate none violatingRegistries exampleSnapshot 8).1 ≠ none ∧
    (Snapshot.validate none violatingRegistries exampleSnapshot 8).2 =
      [.disksRegUse "projects/p/zones/z/disks/d0" 8] :=
  have h := validate_registration none violatingRegistries exampleMachineImage exampleSnapshot 8
  have hm := h.1.2.1 (by decide) (.registry "MUST transitively depend on step") rfl
  have hs := h.2.2.1 (by decide) (.registry "MUST transitively depend on step") rfl
  ⟨hm.1, hm.2.2, hs.1, hs.2.2⟩

/-- C20 (code on every input, and at a failing input): whatever the regular
expressions extract, `machineImageRegistry.deleteFn` passes to the provider what
`imageURLRgx` extracts from the link under the keys "project" and
"machineImage", not what `machineImageURLRgx` extracts.  For the link
`projects/p/global/machineImages/img`, which `imageURLRgx` does not match, the
delete call is issued for the empty project and the empty name, where the claim
asks for project "p" and machine image "img"; `snapshotRegistry.deleteFn` on
`projects/p/global/snapshots/snap` does delete snapshot "snap" of project "p". -/
theorem machineImage_deleteFn_uses_image_regex
    (namedSubexp : URLRgx → String → String → String) (client : ComputeClient)
    (res : Resource) :
    (machineImageRegistry.deleteFn namedSubexp client res).1 =
      .DeleteMachineImage (namedSubexp .imageURLRgx res.link "project")
        (namedSubexp .imageURLRgx res.link "machineImage") ∧
    exampleURLSubexp .machineImageURLRgx exampleMachineImage.Resource.link "project" = "p" ∧
    exampleURLSubexp .machineImageURLRgx exampleMachineImage.Resource.link "machineImage" =
      "img" ∧
    (machineImageRegistry.deleteFn exampleURLSubexp okClient exampleMachineImage.Resource).1 =
      .DeleteMachineImage "" "" ∧
    (machineImageRegistry.deleteFn exampleURLSubexp okClient exampleMachineImage.Resource).1 ≠
      .DeleteMachineImage "p" "img" ∧
    (snapshotRegistry.deleteFn exampleURLSubexp okClient exampleSnapshot.Resource).1 =
      .DeleteSnapshot "p" "snap" := by
  refine ⟨?_, by decide, by decide, by decide, by decide, by decide⟩
  unfold machineImageRegistry.deleteFn
  simp only []
  split <;> try split
  all_goals rfl

/-! ### Reads and writes of the chain's objects -/

@[simp] theorem setLink_links_same (mem : ChainMem) (a : Nat) (l : Link) :
    (mem.setLink a l).links a = l := by
  simp [ChainMem.setLink]

theorem setLink_links_other (mem : ChainMem) (a b : Nat) (l : Link) (h : b ≠ a) :
    (mem.setLink a l).links b = mem.links b := by
  simp [ChainMem.setLink, h]

@[simp] theorem setLink_wfs (mem : ChainMem) (a : Nat) (l : Link) :
    (mem.setLink a l).wfs = mem.wfs := rfl

@[simp] theorem setWf_links (mem : ChainMem) (a : Nat) (w : Workflow) :
    (mem.setWf a w).links = mem.links := rfl

@[simp] theorem setWf_wfs_same (mem : ChainMem) (a : Nat) (w : Workflow) :
    (mem.setWf a w).wfs a = w := by
  simp [ChainMem.setWf]

theorem setWf_wfs_other (mem : ChainMem) (a b : Nat) (w : Workflow) (h : b ≠ a) :
    (mem.setWf a w).wfs b = mem.wfs b := by
  simp [ChainMem.setWf, h]

theorem Leaves_ok {ε σ : Type} (st st1 : σ) (h : (Res.ok st : Res ε σ).Leaves st1) : st1 = st := by
  rcases h with h | ⟨e, h⟩
  · cases h; rfl
  · cases h

theorem Leaves_fail {ε σ : Type} (e : ε) (st st1 : σ) (h : (Res.fail e st : Res ε σ).Leaves st1) :
    st1 = st := by
  rcases h with h | ⟨e1, h⟩
  · cases h
  · cases h; rfl

theorem Leaves_panic {ε σ : Type} (st1 : σ) (h : (Res.panic : Res ε σ).Leaves st1) : False := by
  rcases h with h | ⟨e1, h⟩
  · cases h
  · cases h

/-! ### `Workflow.AddVar` and `Link.addVar` -/

theorem AddVar_fields (w : Workflow) (k v : String) :
    (w.AddVar k v).Name = w.Name ∧ (w.AddVar k v).Project = w.Project ∧
    (w.AddVar k v).Zone = w.Zone ∧ (w.AddVar k v).GCSPath = w.GCSPath ∧
    (w.AddVar k v).OAuthPath = w.OAuthPath ∧
    (w.AddVar k v).externalLogging = w.externalLogging := by
  unfold Workflow.AddVar
  split <;> simp

theorem AddVar_declares_of_declared (w : Workflow) (k v k1 : String)
    (hk : w.declares k = true) : (w.AddVar k v).declares k1 = w.declares k1 := by
  unfold Workflow.declares at hk
  simp only [Workflow.AddVar, hk, if_true, Workflow.declares]
  rw [List.any_map]
  congr 1
  funext kv
  by_cases h : kv.1 = k
  · simp [h]
  · simp [h]

theorem AddVar_varValue_same (w : Workflow) (k v : String) (hk : w.declares k = true) :
    (w.AddVar k v).varValue k = some v := by
  unfold Workflow.declares at hk
  simp only [Workflow.AddVar, hk, if_true, Workflow.varValue]
  have key : ∀ vars : List (String × String), vars.any (fun kv => kv.1 == k) = true →
      ((vars.map (fun kv => if kv.1 = k then (k, v) else kv)).find?
        (fun kv => kv.1 == k)).map (fun kv => kv.2) = some v := by
    intro vars
    induction vars with
    | nil => intro h; simp at h
    | cons kv rest ih =>
      intro h
      by_cases hkv : kv.1 = k
      · simp [hkv]
      · have hrest : rest.any (fun kv => kv.1 == k) = true := by
          simpa [hkv] using h
        simp only [List.map_cons, hkv, if_false]
        rw [List.find?_cons_of_neg]
        · exact ih hrest
        · simpa using hkv
  exact key w.Vars hk

theorem AddVar_varValue_other (w : Workflow) (k v k1 : String) (hk : w.declares k = true)
    (hne : k1 ≠ k) : (w.AddVar k v).varValue k1 = w.varValue k1 := by
  unfold Workflow.declares at hk
  simp only [Workflow.AddVar, hk, if_true, Workflow.varValue]
  have key : ∀ vars : List (String × String),
      ((vars.map (fun kv => if kv.1 = k then (k, v) else kv)).find?
        (fun kv => kv.1 == k1)).map (fun kv => kv.2) =
      (vars.find? (fun kv => kv.1 == k1)).map (fun kv => kv.2) := by
    intro vars
    induction vars with
    | nil => rfl
    | cons kv rest ih =>
      by_cases hkv : kv.1 = k
      · have h1 : ¬ (kv.1 = k1) := fun h => hne (h.symm.trans hkv)
        have h2 : ¬ (k = k1) := fun h => hne h.symm
        simp only [List.map_cons, hkv, if_true]
        rw [List.find?_cons_of_neg _ (by simpa using h2),
          List.find?_cons_of_neg _ (by simpa using h1)]
        exact ih
      · simp only [List.map_cons, hkv, if_false]
        by_cases h1 : kv.1 = k1
        · simp [h1]
        · rw [List.find?_cons_of_neg _ (by simpa using h1),
            List.find?_cons_of_neg _ (by simpa using h1)]
          exact ih
  exact key w.Vars

theorem addVar_declared (mem : ChainMem) (l w : Nat) (k v : String)
    (hw : (mem.links l).Workflow = some w) (hk : (mem.wfs w).declares k = true) :
    Link.addVar mem l k v = .ok (mem.setWf w ((mem.wfs w).AddVar k v)) := by
  unfold Workflow.declares at hk
  simp [Link.addVar, hw, hk]

theorem addVar_undeclared (mem : ChainMem) (l w : Nat) (k v : String)
    (hw : (mem.links l).Workflow = some w) (hk : (mem.wfs w).declares k = false) :
    Link.addVar mem l k v = .fail (.unknownVar (mem.links l).Name k) mem := by
  unfold Workflow.declares at hk
  simp [Link.addVar, hw, hk]

/-! ### The loops of `ChainedWorkflow.populate` -/

theorem populateVars_effect (h w : Nat) :
    ∀ (vars : List (String × String)) (mem : ChainMem), (mem.links h).Workflow = some w →
      ∃ mem1, (ChainedWorkflow.populateVars h vars mem).Leaves mem1 ∧
        mem1.links = mem.links ∧
        (∀ a, a ≠ w → mem1.wfs a = mem.wfs a) ∧
        (mem1.wfs w).cascaded = (mem.wfs w).cascaded ∧
        (mem1.wfs w).externalLogging = (mem.wfs w).externalLogging ∧
        (∀ k, (mem1.wfs w).declares k = (mem.wfs w).declares k) ∧
        ((∃ kv ∈ vars, (mem.wfs w).declares kv.1 = false) →
          (ChainedWorkflow.populateVars h vars mem).isFail = true) := by
  intro vars
  induction vars with
  | nil =>
    intro mem _
    refine ⟨mem, Or.inl rfl, rfl, fun _ _ => rfl, rfl, rfl, fun _ => rfl, ?_⟩
    rintro ⟨kv, hkv, _⟩
    simp at hkv
  | cons kv rest ih =>
    intro mem hw
    obtain ⟨k, v⟩ := kv
    cases hk : (mem.wfs w).declares k with
    | false =>
      refine ⟨mem, Or.inr ⟨.unknownVar (mem.links h).Name k, ?_⟩, rfl, fun _ _ => rfl, rfl, rfl,
        fun _ => rfl, ?_⟩
      · simp [ChainedWorkflow.populateVars, addVar_undeclared mem h w k v hw hk]
      · intro _
        simp [ChainedWorkflow.populateVars, addVar_undeclared mem h w k v hw hk, Res.isFail]
    | true =>
      have hstep : ChainedWorkflow.populateVars h ((k, v) :: rest) mem =
          ChainedWorkflow.populateVars h rest (mem.setWf w ((mem.wfs w).AddVar k v)) := by
        simp [ChainedWorkflow.populateVars, addVar_declared mem h w k v hw hk]
      obtain ⟨mem1, h1, h2, h3, h4, h5, h6, h7⟩ :=
        ih (mem.setWf w ((mem.wfs w).AddVar k v)) (by simpa using hw)
      obtain ⟨f1, f2, f3, f4, f5, f6⟩ := AddVar_fields (mem.wfs w) k v
      refine ⟨mem1, by rw [hstep]; exact h1, by rw [h2]; rfl, ?_, ?_, ?_, ?_, ?_⟩
      · intro a ha
        rw [h3 a ha, setWf_wfs_other mem w a _ ha]
      · rw [h4, setWf_wfs_same]
        simp [Workflow.cascaded, f1, f2, f3, f4, f5]
      · rw [h5, setWf_wfs_same, f6]
      · intro k1
        rw [h6 k1, setWf_wfs_same, AddVar_declares_of_declared _ k v k1 hk]
      · rintro ⟨kv1, hkv1, hund⟩
        rw [hstep]
        apply h7
        rcases List.mem_cons.1 hkv1 with heq | hmem
        · subst heq
          rw [hk] at hund
          cases hund
        · refine ⟨kv1, hmem, ?_⟩
          rw [setWf_wfs_same, AddVar_declares_of_declared _ k v kv1.1 hk]
          exact hund

theorem SetOnSuccess_live (mem : ChainMem) (l : Nat) (onSuccess : Option Nat) :
    (onSuccess = some l → Link.SetOnSuccess mem (some l) onSuccess = .fail .selfOnSuccess mem) ∧
    (onSuccess ≠ some l → Link.SetOnSuccess mem (some l) onSuccess =
      .ok (mem.setLink l { mem.links l with onSuccess := onSuccess })) := by
  constructor
  · intro h
    simp [Link.SetOnSuccess, h]
  · intro h
    have h1 : ¬ (some l = onSuccess) := fun e => h e.symm
    simp [Link.SetOnSuccess, h1]

theorem SetOnFailure_live (mem : ChainMem) (l : Nat) (onFailure : Option Nat) :
    (onFailure = some l → Link.SetOnFailure mem (some l) onFailure = .fail .selfOnFailure mem) ∧
    (onFailure ≠ some l → Link.SetOnFailure mem (some l) onFailure =
      .ok (mem.setLink l { mem.links l with onFailure := onFailure })) := by
  constructor
  · intro h
    simp [Link.SetOnFailure, h]
  · intro h
    have h1 : ¬ (some l = onFailure) := fun e => h e.symm
    simp [Link.SetOnFailure, h1]

theorem populateContinuations_halves (m : String → Option Nat) (h : Nat) (mem : ChainMem) :
    ChainedWorkflow.populateContinuations m h mem =
      match ChainedWorkflow.resolveOnSuccess m h mem with
      | .fail e mem1 => .fail e mem1
      | .panic => .panic
      | .ok mem1 => ChainedWorkflow.resolveOnFailure m h mem1 := rfl

theorem resolveOnSuccess_effect (m : String → Option Nat) (h : Nat) (mem : ChainMem) :
    ∃ mem1 s1, (ChainedWorkflow.resolveOnSuccess m h mem).Leaves mem1 ∧
      mem1.wfs = mem.wfs ∧
      (∀ b, b ≠ h → mem1.links b = mem.links b) ∧
      mem1.links h = { mem.links h with onSuccess := s1 } ∧
      (s1 = (mem.links h).onSuccess ∨
        ∃ t, t ≠ h ∧ m (mem.links h).OnSuccess = some t ∧ s1 = some t) ∧
      ((ChainedWorkflow.resolveOnSuccess m h mem).isOk = true →
        ((mem.links h).OnSuccess = "" → s1 = (mem.links h).onSuccess) ∧
        ((mem.links h).OnSuccess ≠ "" → ∃ t, m (mem.links h).OnSuccess = some t ∧
          (t ≠ h → s1 = some t) ∧ (t = h → s1 = (mem.links h).onSuccess))) ∧
      (((mem.links h).OnSuccess ≠ "" ∧ m (mem.links h).OnSuccess = none) →
        (ChainedWorkflow.resolveOnSuccess m h mem).isFail = true) := by
  by_cases hS1 : (mem.links h).OnSuccess = ""
  · have hr : ChainedWorkflow.resolveOnSuccess m h mem = .ok mem := by
      simp [ChainedWorkflow.resolveOnSuccess, hS1]
    refine ⟨mem, (mem.links h).onSuccess, Or.inl hr, rfl, fun _ _ => rfl, rfl, Or.inl rfl, ?_, ?_⟩
    · intro _
      exact ⟨fun _ => rfl, fun hne => absurd hS1 hne⟩
    · rintro ⟨hne, _⟩
      exact absurd hS1 hne
  · cases hmS : m (mem.links h).OnSuccess with
    | none =>
      have hr : ChainedWorkflow.resolveOnSuccess m h mem =
          .fail (.onSuccessMissing (mem.links h).OnSuccess) mem := by
        simp [ChainedWorkflow.resolveOnSuccess, hS1, hmS]
      refine ⟨mem, (mem.links h).onSuccess, Or.inr ⟨_, hr⟩, rfl, fun _ _ => rfl, rfl, Or.inl rfl,
        ?_, ?_⟩
      · intro hok
        rw [hr] at hok
        simp [Res.isOk] at hok
      · intro _
        rw [hr]
        rfl
    | some t =>
      by_cases ht : t = h
      · subst ht
        have hr : ChainedWorkflow.resolveOnSuccess m t mem = .ok mem := by
          simp [ChainedWorkflow.resolveOnSuccess, hS1, hmS,
            (SetOnSuccess_live mem t (some t)).1 rfl]
        refine ⟨mem, (mem.links t).onSuccess, Or.inl hr, rfl, fun _ _ => rfl, rfl, Or.inl rfl,
          ?_, ?_⟩
        · intro _
          exact ⟨fun he => absurd he hS1, fun _ => ⟨t, rfl, fun hne => absurd rfl hne, fun _ => rfl⟩⟩
        · rintro ⟨_, hnone⟩
          cases hnone
      · have ht1 : some t ≠ some h := by simpa using ht
        have hr : ChainedWorkflow.resolveOnSuccess m h mem =
            .ok (mem.setLink h { mem.links h with onSuccess := some t }) := by
          simp [ChainedWorkflow.resolveOnSuccess, hS1, hmS,
            (SetOnSuccess_live mem h (some t)).2 ht1]
        refine ⟨_, some t, Or.inl hr, rfl, ?_, by simp, Or.inr ⟨t, ht, rfl, rfl⟩, ?_, ?_⟩
        · intro b hb
          exact setLink_links_other mem h b _ hb
        · intro _
          exact ⟨fun he => absurd he hS1, fun _ => ⟨t, rfl, fun _ => rfl, fun he => absurd he ht⟩⟩
        · rintro ⟨_, hnone⟩
          cases hnone

theorem resolveOnFailure_effect (m : String → Option Nat) (h : Nat) (mem : ChainMem) :
    ∃ mem1 f1, (ChainedWorkflow.resolveOnFailure m h mem).Leaves mem1 ∧
      mem1.wfs = mem.wfs ∧
      (∀ b, b ≠ h → mem1.links b = mem.links b) ∧
      mem1.links h = { mem.links h with onFailure := f1 } ∧
      (f1 = (mem.links h).onFailure ∨
        ∃ t, t ≠ h ∧ m (mem.links h).OnFailure = some t ∧ f1 = some t) ∧
      ((ChainedWorkflow.resolveOnFailure m h mem).isOk = true →
        ((mem.links h).OnFailure = "" → f1 = (mem.links h).onFailure) ∧
        ((mem.links h).OnFailure ≠ "" → ∃ t, m (mem.links h).OnFailure = some t ∧
          (t ≠ h → f1 = some t) ∧ (t = h → f1 = (mem.links h).onFailure))) ∧
      (((mem.links h).OnFailure ≠ "" ∧ m (mem.links h).OnFailure = none) →
        (ChainedWorkflow.resolveOnFailure m h mem).isFail = true) := by
  by_cases hS1 : (mem.links h).OnFailure = ""
  · have hr : ChainedWorkflow.resolveOnFailure m h mem = .ok mem := by
      simp [ChainedWorkflow.resolveOnFailure, hS1]
    refine ⟨mem, (mem.links h).onFailure, Or.inl hr, rfl, fun _ _ => rfl, rfl, Or.inl rfl, ?_, ?_⟩
    · intro _
      exact ⟨fun _ => rfl, fun hne => absurd hS1 hne⟩
    · rintro ⟨hne, _⟩
      exact absurd hS1 hne
  · cases hmS : m (mem.links h).OnFailure with
    | none =>
      have hr : ChainedWorkflow.resolveOnFailure m h mem =
          .fail (.onFailureMissing (mem.links h).OnFailure) mem := by
        simp [ChainedWorkflow.resolveOnFailure, hS1, hmS]
      refine ⟨mem, (mem.links h).onFailure, Or.inr ⟨_, hr⟩, rfl, fun _ _ => rfl, rfl, Or.inl rfl,
        ?_, ?_⟩
      · intro hok
        rw [hr] at hok
        simp [Res.isOk] at hok
      · intro _
        rw [hr]
        rfl
    | some t =>
      by_cases ht : t = h
      · subst ht
        have hr : ChainedWorkflow.resolveOnFailure m t mem = .ok mem := by
          simp [ChainedWorkflow.resolveOnFailure, hS1, hmS,
            (SetOnFailure_live mem t (some t)).1 rfl]
        refine ⟨mem, (mem.links t).onFailure, Or.inl hr, rfl, fun _ _ => rfl, rfl, Or.inl rfl,
          ?_, ?_⟩
        · intro _
          exact ⟨fun he => absurd he hS1, fun _ => ⟨t, rfl, fun hne => absurd rfl hne, fun _ => rfl⟩⟩
        · rintro ⟨_, hnone⟩
          cases hnone
      · have ht1 : some t ≠ some h := by simpa using ht
        have hr : ChainedWorkflow.resolveOnFailure m h mem =
            .ok (mem.setLink h { mem.links h with onFailure := some t }) := by
          simp [ChainedWorkflow.resolveOnFailure, hS1, hmS,
            (SetOnFailure_live mem h (some t)).2 ht1]
        refine ⟨_, some t, Or.inl hr, rfl, ?_, by simp, Or.inr ⟨t, ht, rfl, rfl⟩, ?_, ?_⟩
        · intro b hb
          exact setLink_links_other mem h b _ hb
        · intro _
          exact ⟨fun he => absurd he hS1, fun _ => ⟨t, rfl, fun _ => rfl, fun he => absurd he ht⟩⟩
        · rintro ⟨_, hnone⟩
          cases hnone

theorem populateContinuations_effect (m : String → Option Nat) (h : Nat) (mem : ChainMem) :
    ∃ mem1 s1 f1, (ChainedWorkflow.populateContinuations m h mem).Leaves mem1 ∧
      mem1.wfs = mem.wfs ∧
      (∀ b, b ≠ h → mem1.links b = mem.links b) ∧
      mem1.links h = { mem.links h with onSuccess := s1, onFailure := f1 } ∧
      (s1 = (mem.links h).onSuccess ∨
        ∃ t, t ≠ h ∧ m (mem.links h).OnSuccess = some t ∧ s1 = some t) ∧
      (f1 = (mem.links h).onFailure ∨
        ∃ t, t ≠ h ∧ m (mem.links h).OnFailure = some t ∧ f1 = some t) ∧
      ((ChainedWorkflow.populateContinuations m h mem).isOk = true →
        ((mem.links h).OnSuccess = "" → s1 = (mem.links h).onSuccess) ∧
        ((mem.links h).OnSuccess ≠ "" → ∃ t, m (mem.links h).OnSuccess = some t ∧
          (t ≠ h → s1 = some t) ∧ (t = h → s1 = (mem.links h).onSuccess)) ∧
        ((mem.links h).OnFailure = "" → f1 = (mem.links h).onFailure) ∧
        ((mem.links h).OnFailure ≠ "" → ∃ t, m (mem.links h).OnFailure = some t ∧
          (t ≠ h → f1 = some t) ∧ (t = h → f1 = (mem.links h).onFailure))) ∧
      (((mem.links h).OnSuccess ≠ "" ∧ m (mem.links h).OnSuccess = none) →
        (ChainedWorkflow.populateContinuations m h mem).isFail = true) ∧
      (((mem.links h).OnFailure ≠ "" ∧ m (mem.links h).OnFailure = none) →
        (ChainedWorkflow.populateContinuations m h mem).isFail = true) := by
  obtain ⟨memS, s1, hL, hwS, hoS, hlS, hdS, hokS, hmissS⟩ := resolveOnSuccess_effect m h mem
  rw [populateContinuations_halves]
  rcases hL with hL | ⟨e, hL⟩
  · rw [hL] at hokS
    rw [hL]
    simp only []
    obtain ⟨mem1, f1, hL2, hw2, ho2, hl2, hd2, hok2, hmiss2⟩ := resolveOnFailure_effect m h memS
    have hOF : (memS.links h).OnFailure = (mem.links h).OnFailure := by rw [hlS]
    have hoF : (memS.links h).onFailure = (mem.links h).onFailure := by rw [hlS]
    rw [hOF, hoF] at hd2 hok2
    rw [hOF] at hmiss2
    refine ⟨mem1, s1, f1, hL2, hw2.trans hwS, ?_, ?_, hdS, hd2, ?_, ?_, hmiss2⟩
    · intro b hb
      rw [ho2 b hb, hoS b hb]
    · rw [hl2, hlS]
    · intro hok
      obtain ⟨a1, a2⟩ := hokS rfl
      obtain ⟨b1, b2⟩ := hok2 hok
      exact ⟨a1, a2, b1, b2⟩
    · intro hmiss
      have := hmissS hmiss
      rw [hL] at this
      simp [Res.isFail] at this
  · rw [hL]
    simp only []
    refine ⟨memS, s1, (mem.links h).onFailure, Or.inr ⟨e, rfl⟩, hwS, hoS, ?_, hdS, Or.inl rfl,
      ?_, fun _ => rfl, fun _ => rfl⟩
    · rw [hlS]
    · intro hok
      simp [Res.isOk] at hok

theorem populateLink_blank (ops : WorkflowOps) (c : ChainedWorkflow) (m : String → Option Nat)
    (h : Nat) (mem : ChainMem) (hw : (mem.links h).Workflow = none) :
    ChainedWorkflow.populateLink ops c m h mem = .fail (.blankWorkflow c.Name) mem := by
  unfold ChainedWorkflow.populateLink
  split
  · rfl
  · rename_i w1 heq
    rw [hw] at heq
    cases heq

theorem populateLink_some (ops : WorkflowOps) (c : ChainedWorkflow) (m : String → Option Nat)
    (h w : Nat) (mem : ChainMem) (hw : (mem.links h).Workflow = some w) :
    ChainedWorkflow.populateLink ops c m h mem =
      match ChainedWorkflow.populateVars h (mem.links h).Vars
          ((mem.setLink h (ChainedWorkflow.cascadeLink c (mem.links h))).setWf w
            (ChainedWorkflow.cascadeWorkflow (ChainedWorkflow.cascadeLink c (mem.links h))
              (mem.wfs w))) with
      | .fail e mem3 => .fail e mem3
      | .panic => .panic
      | .ok mem3 =>
        match (ops.PopulateClients w
            { mem3.wfs w with externalLogging := c.externalLogging }).2 with
        | some err =>
          .fail (.populateClients (mem3.links h).Name err)
            (mem3.setWf w (ops.PopulateClients w
              { mem3.wfs w with externalLogging := c.externalLogging }).1)
        | none =>
          match (ops.populate w (ops.PopulateClients w
              { mem3.wfs w with externalLogging := c.externalLogging }).1).2 with
          | some err =>
            .fail (.populateWorkflow (mem3.links h).Name err)
              ((mem3.setWf w (ops.PopulateClients w
                { mem3.wfs w with externalLogging := c.externalLogging }).1).setWf w
                (ops.populate w (ops.PopulateClients w
                  { mem3.wfs w with externalLogging := c.externalLogging }).1).1)
          | none =>
            ChainedWorkflow.populateContinuations m h
              ((mem3.setWf w (ops.PopulateClients w
                { mem3.wfs w with externalLogging := c.externalLogging }).1).setWf w
                (ops.populate w (ops.PopulateClients w
                  { mem3.wfs w with externalLogging := c.externalLogging }).1).1) := by
  unfold ChainedWorkflow.populateLink
  split
  · rename_i heq
    rw [hw] at heq
    cases heq
  · rename_i w1 heq
    rw [hw] at heq
    cases heq
    simp only [setWf_wfs_same, setWf_links, setLink_wfs, ChainedWorkflow.cascadeLink,
      ChainedWorkflow.cascadeWorkflow]

theorem cascadeWorkflow_cascaded (l1 : Link) (wf : Workflow) :
    (ChainedWorkflow.cascadeWorkflow l1 wf).cascaded = l1.cascaded := rfl

theorem cascadeWorkflow_declares (l1 : Link) (wf : Workflow) (k : String) :
    (ChainedWorkflow.cascadeWorkflow l1 wf).declares k = wf.declares k := rfl

theorem populateLink_effect (ops : WorkflowOps) (c : ChainedWorkflow) (m : String → Option Nat)
    (h w : Nat) (mem : ChainMem) (hw : (mem.links h).Workflow = some w) :
    ∃ mem1 s1 f1, (ChainedWorkflow.populateLink ops c m h mem).Leaves mem1 ∧
      (∀ b, b ≠ h → mem1.links b = mem.links b) ∧
      (∀ a, a ≠ w → mem1.wfs a = mem.wfs a) ∧
      mem1.links h =
        { ChainedWorkflow.cascadeLink c (mem.links h) with onSuccess := s1, onFailure := f1 } ∧
      (s1 = (mem.links h).onSuccess ∨
        ∃ t, t ≠ h ∧ m (mem.links h).OnSuccess = some t ∧ s1 = some t) ∧
      (f1 = (mem.links h).onFailure ∨
        ∃ t, t ≠ h ∧ m (mem.links h).OnFailure = some t ∧ f1 = some t) ∧
      ((ChainedWorkflow.populateLink ops c m h mem).isOk = true →
        ((mem.links h).OnSuccess = "" → s1 = (mem.links h).onSuccess) ∧
        ((mem.links h).OnSuccess ≠ "" → ∃ t, m (mem.links h).OnSuccess = some t ∧
          (t ≠ h → s1 = some t) ∧ (t = h → s1 = (mem.links h).onSuccess)) ∧
        ((mem.links h).OnFailure = "" → f1 = (mem.links h).onFailure) ∧
        ((mem.links h).OnFailure ≠ "" → ∃ t, m (mem.links h).OnFailure = some t ∧
          (t ≠ h → f1 = some t) ∧ (t = h → f1 = (mem.links h).onFailure))) ∧
      (((mem.links h).OnSuccess ≠ "" ∧ m (mem.links h).OnSuccess = none) →
        (ChainedWorkflow.populateLink ops c m h mem).isFail = true) ∧
      (((mem.links h).OnFailure ≠ "" ∧ m (mem.links h).OnFailure = none) →
        (ChainedWorkflow.populateLink ops c m h mem).isFail = true) ∧
      ((∃ kv ∈ (mem.links h).Vars, (mem.wfs w).declares kv.1 = false) →
        (ChainedWorkflow.populateLink ops c m h mem).isFail = true) ∧
      ((∀ a wf, (ops.PopulateClients a wf).1.cascaded = wf.cascaded) →
        (∀ a wf, (ops.populate a wf).1.cascaded = wf.cascaded) →
        (mem1.wfs w).cascaded = (ChainedWorkflow.cascadeLink c (mem.links h)).cascaded) := by
  rw [populateLink_some ops c m h w mem hw]
  have hw2 : (((mem.setLink h (ChainedWorkflow.cascadeLink c (mem.links h))).setWf w
      (ChainedWorkflow.cascadeWorkflow (ChainedWorkflow.cascadeLink c (mem.links h))
        (mem.wfs w))).links h).Workflow = some w := by
    simp [ChainedWorkflow.cascadeLink, hw]
  obtain ⟨mem3, hL, v1, v2, v3, _, v5, v6⟩ := populateVars_effect h w (mem.links h).Vars _ hw2
  have hl3 : mem3.links h = ChainedWorkflow.cascadeLink c (mem.links h) := by
    rw [v1]; simp
  have hl3o : ∀ b, b ≠ h → mem3.links b = mem.links b := by
    intro b hb
    rw [v1]
    simp [setLink_links_other mem h b _ hb]
  have hw3o : ∀ a, a ≠ w → mem3.wfs a = mem.wfs a := by
    intro a ha
    rw [v2 a ha, setWf_wfs_other _ w a _ ha]
    rfl
  have hc3 : (mem3.wfs w).cascaded = (ChainedWorkflow.cascadeLink c (mem.links h)).cascaded := by
    rw [v3, setWf_wfs_same, cascadeWorkflow_cascaded]
  have hvars : (∃ kv ∈ (mem.links h).Vars, (mem.wfs w).declares kv.1 = false) →
      (ChainedWorkflow.populateVars h (mem.links h).Vars
        ((mem.setLink h (ChainedWorkflow.cascadeLink c (mem.links h))).setWf w
          (ChainedWorkflow.cascadeWorkflow (ChainedWorkflow.cascadeLink c (mem.links h))
            (mem.wfs w)))).isFail = true := by
    rintro ⟨kv, hkv, hund⟩
    apply v6
    refine ⟨kv, hkv, ?_⟩
    rw [setWf_wfs_same, cascadeWorkflow_declares]
    exact hund
  rcases hL with hL | ⟨e, hL⟩
  · -- the variables were applied
    rw [hL] at hvars
    rw [hL]
    simp only []
    have hnovars : ¬ ∃ kv ∈ (mem.links h).Vars, (mem.wfs w).declares kv.1 = false := by
      intro hex
      have := hvars hex
      simp [Res.isFail] at this
    cases hPC : (ops.PopulateClients w
        { mem3.wfs w with externalLogging := c.externalLogging }).2 with
    | some err =>
      simp only []
      refine ⟨_, (mem.links h).onSuccess, (mem.links h).onFailure, Or.inr ⟨_, rfl⟩, ?_, ?_, ?_,
        Or.inl rfl, Or.inl rfl, ?_, fun _ => rfl, fun _ => rfl, fun _ => rfl, ?_⟩
      · intro b hb
        simpa using hl3o b hb
      · intro a ha
        rw [setWf_wfs_other _ w a _ ha]
        exact hw3o a ha
      · simpa using hl3
      · intro hok
        simp [Res.isOk] at hok
      · intro hpc _
        rw [setWf_wfs_same, hpc]
        exact hc3
    | none =>
      simp only []
      cases hP : (ops.populate w (ops.PopulateClients w
          { mem3.wfs w with externalLogging := c.externalLogging }).1).2 with
      | some err =>
        simp only []
        refine ⟨_, (mem.links h).onSuccess, (mem.links h).onFailure, Or.inr ⟨_, rfl⟩, ?_, ?_, ?_,
          Or.inl rfl, Or.inl rfl, ?_, fun _ => rfl, fun _ => rfl, fun _ => rfl, ?_⟩
        · intro b hb
          simpa using hl3o b hb
        · intro a ha
          rw [setWf_wfs_other _ w a _ ha, setWf_wfs_other _ w a _ ha]
          exact hw3o a ha
        · simpa using hl3
        · intro hok
          simp [Res.isOk] at hok
        · intro hpc hpop
          rw [setWf_wfs_same, hpop, hpc]
          exact hc3
      | none =>
        simp only []
        obtain ⟨mem1, s1, f1, q1, q2, q3, q4, q5, q6, q7, q8, q9⟩ :=
          populateContinuations_effect m h
            ((mem3.setWf w (ops.PopulateClients w
              { mem3.wfs w with externalLogging := c.externalLogging }).1).setWf w
              (ops.populate w (ops.PopulateClients w
                { mem3.wfs w with externalLogging := c.externalLogging }).1).1)
        simp only [setWf_links, hl3] at q4 q5 q6 q7 q8 q9
        have hdecl : (ChainedWorkflow.cascadeLink c (mem.links h)).OnSuccess =
            (mem.links h).OnSuccess ∧
            (ChainedWorkflow.cascadeLink c (mem.links h)).OnFailure = (mem.links h).OnFailure ∧
            (ChainedWorkflow.cascadeLink c (mem.links h)).onSuccess = (mem.links h).onSuccess ∧
            (ChainedWorkflow.cascadeLink c (mem.links h)).onFailure = (mem.links h).onFailure :=
          ⟨rfl, rfl, rfl, rfl⟩
        rw [hdecl.1, hdecl.2.2.1] at q5
        rw [hdecl.2.1, hdecl.2.2.2] at q6
        rw [hdecl.1, hdecl.2.1, hdecl.2.2.1, hdecl.2.2.2] at q7
        rw [hdecl.1] at q8
        rw [hdecl.2.1] at q9
        refine ⟨mem1, s1, f1, q1, ?_, ?_, q4, q5, q6, q7, q8, q9, ?_, ?_⟩
        · intro b hb
          rw [q3 b hb]
          simpa using hl3o b hb
        · intro a ha
          rw [q2, setWf_wfs_other _ w a _ ha, setWf_wfs_other _ w a _ ha]
          exact hw3o a ha
        · intro hex
          exact absurd hex hnovars
        · intro hpc hpop
          rw [q2, setWf_wfs_same, hpop, hpc]
          exact hc3
  · -- a variable was rejected
    rw [hL]
    simp only []
    refine ⟨mem3, (mem.links h).onSuccess, (mem.links h).onFailure, Or.inr ⟨e, rfl⟩, hl3o, hw3o,
      ?_, Or.inl rfl, Or.inl rfl, ?_, fun _ => rfl, fun _ => rfl, fun _ => rfl, ?_⟩
    · rw [hl3]
      rfl
    · intro hok
      simp [Res.isOk] at hok
    · intro _ _
      exact hc3

theorem Leaves_isOk_or_isFail {ε σ : Type} (r : Res ε σ) (st : σ) (h : r.Leaves st) :
    (r.isOk = true ∧ r = .ok st) ∨ (r.isFail = true ∧ r.isOk = false) := by
  rcases h with h | ⟨e, h⟩
  · rw [h]; exact Or.inl ⟨rfl, rfl⟩
  · rw [h]; exact Or.inr ⟨rfl, rfl⟩

theorem sameButNumber_refl (l : Link) : l.sameButNumber l := rfl

theorem sameButNumber_trans {l1 l2 l3 : Link} (h1 : l1.sameButNumber l2)
    (h2 : l2.sameButNumber l3) : l1.sameButNumber l3 := by
  unfold Link.sameButNumber at *
  rw [h1, h2]

theorem sameButNumber_name {l1 l2 : Link} (h : l1.sameButNumber l2) :
    l1.Name = l2.Name ∧ l1.declared = l2.declared ∧ l1.cascaded = l2.cascaded ∧
    l1.onSuccess = l2.onSuccess ∧ l1.onFailure = l2.onFailure := by
  unfold Link.sameButNumber at h
  rw [h]
  exact ⟨rfl, rfl, rfl, rfl, rfl⟩

theorem populateNames_effect :
    ∀ (ls : List Nat) (i : Nat) (m : String → Option Nat) (entry : Option Nat) (mem : ChainMem),
      ∃ m1 entry1 mem1,
        (ChainedWorkflow.populateNames i ls m entry mem).Leaves (m1, entry1, mem1) ∧
        mem1.wfs = mem.wfs ∧
        (∀ b, (mem1.links b).sameButNumber (mem.links b)) ∧
        (∀ b, b ∉ ls → mem1.links b = mem.links b) ∧
        (ls = [] → entry1 = entry) ∧
        (i ≠ 0 → entry1 = entry) ∧
        ((ChainedWorkflow.populateNames i ls m entry mem).isOk = true →
          (∀ l ∈ ls, (mem.links l).Name ≠ "" ∧ m (mem.links l).Name = none) ∧
          (∀ (j l : Nat), ls[j]? = some l → (mem1.links l).number = i + j + 1) ∧
          (∀ (j1 j2 l1 l2 : Nat), ls[j1]? = some l1 → ls[j2]? = some l2 →
            (mem.links l1).Name = (mem.links l2).Name → j1 = j2) ∧
          (∀ l ∈ ls, m1 (mem.links l).Name = some l) ∧
          (∀ k, (∀ l ∈ ls, (mem.links l).Name ≠ k) → m1 k = m k) ∧
          (i = 0 → ∀ l rest, ls = l :: rest → entry1 = some l)) := by
  intro ls
  induction ls with
  | nil =>
    intro i m entry mem
    refine ⟨m, entry, mem, Or.inl rfl, rfl, fun _ => sameButNumber_refl _, fun _ _ => rfl,
      fun _ => rfl, fun _ => rfl, ?_⟩
    intro _
    refine ⟨?_, ?_, ?_, ?_, fun _ _ => rfl, ?_⟩
    · intro l hl; simp at hl
    · intro j l hl; simp at hl
    · intro j1 j2 l1 l2 hl; simp at hl
    · intro l hl; simp at hl
    · intro _ l rest hl; cases hl
  | cons l rest ih =>
    intro i m entry mem
    have hname : ((mem.setLink l { mem.links l with number := i + 1 }).links l).Name =
        (mem.links l).Name := by simp
    have hsame : ∀ b, ((mem.setLink l { mem.links l with number := i + 1 }).links b).sameButNumber
        (mem.links b) := by
      intro b
      by_cases hb : b = l
      · subst hb
        simp [Link.sameButNumber]
      · rw [setLink_links_other mem l b _ hb]
        exact sameButNumber_refl _
    have hnames : ∀ b, ((mem.setLink l { mem.links l with number := i + 1 }).links b).Name =
        (mem.links b).Name := fun b => (sameButNumber_name (hsame b)).1
    by_cases hempty : (mem.links l).Name = ""
    · -- the link has no name
      have hr : ChainedWorkflow.populateNames i (l :: rest) m entry mem =
          .fail (.noName (i + 1)) (m, entry, mem.setLink l { mem.links l with number := i + 1 }) := by
        simp [ChainedWorkflow.populateNames, hempty]
      refine ⟨m, entry, _, Or.inr ⟨_, hr⟩, rfl, hsame, ?_, fun _ => rfl, fun _ => rfl, ?_⟩
      · intro b hb
        have hbl : b ≠ l := fun e => hb (by simp [e])
        exact setLink_links_other mem l b _ hbl
      · intro hok
        rw [hr] at hok
        simp [Res.isOk] at hok
    · cases hm : m (mem.links l).Name with
      | some old =>
        have hr : ChainedWorkflow.populateNames i (l :: rest) m entry mem =
            .fail (.duplicateName (i + 1) (mem.links l).Name
              ((mem.setLink l { mem.links l with number := i + 1 }).links old).number)
              (m, entry, mem.setLink l { mem.links l with number := i + 1 }) := by
          simp [ChainedWorkflow.populateNames, hempty, hm]
        refine ⟨m, entry, _, Or.inr ⟨_, hr⟩, rfl, hsame, ?_, fun _ => rfl, fun _ => rfl, ?_⟩
        · intro b hb
          have hbl : b ≠ l := fun e => hb (by simp [e])
          exact setLink_links_other mem l b _ hbl
        · intro hok
          rw [hr] at hok
          simp [Res.isOk] at hok
      | none =>
        have hr : ChainedWorkflow.populateNames i (l :: rest) m entry mem =
            ChainedWorkflow.populateNames (i + 1) rest
              (fun k => if k = (mem.links l).Name then some l else m k)
              (if i + 1 = 1 then some l else entry)
              (mem.setLink l { mem.links l with number := i + 1 }) := by
          simp [ChainedWorkflow.populateNames, hempty, hm]
        obtain ⟨m1, entry1, mem1, hL, hwf, hsb, hfr, _, hent, hok⟩ :=
          ih (i + 1) (fun k => if k = (mem.links l).Name then some l else m k)
            (if i + 1 = 1 then some l else entry)
            (mem.setLink l { mem.links l with number := i + 1 })
        rw [hr]
        have hentry1 : entry1 = if i + 1 = 1 then some l else entry := hent (by omega)
        refine ⟨m1, entry1, mem1, hL, by rw [hwf]; rfl, ?_, ?_, ?_, ?_, ?_⟩
        · intro b
          exact sameButNumber_trans (hsb b) (hsame b)
        · intro b hb
          have hbl : b ≠ l := fun e => hb (by simp [e])
          have hbr : b ∉ rest := fun e => hb (by simp [e])
          rw [hfr b hbr]
          exact setLink_links_other mem l b _ hbl
        · intro hnil
          cases hnil
        · intro hi
          rw [hentry1]
          have : ¬ (i + 1 = 1) := by omega
          simp [this]
        · intro hisok
          obtain ⟨o1, o2, o3, o4, o5, _⟩ := hok hisok
          -- names in the rest differ from the name of `l`
          have hdiff : ∀ l2 ∈ rest, (mem.links l2).Name ≠ (mem.links l).Name := by
            intro l2 hl2 heq
            have h2 := (o1 l2 hl2).2
            rw [hnames l2] at h2
            simp [heq] at h2
          have hlrest : l ∉ rest := fun hl => hdiff l hl rfl
          refine ⟨?_, ?_, ?_, ?_, ?_, ?_⟩
          · intro l2 hl2
            rcases List.mem_cons.1 hl2 with heq | hmem
            · subst heq
              exact ⟨hempty, hm⟩
            · have h2 := o1 l2 hmem
              rw [hnames l2] at h2
              refine ⟨h2.1, ?_⟩
              have h3 := h2.2
              simp only [hdiff l2 hmem, if_false] at h3
              exact h3
          · intro j l2 hj
            cases j with
            | zero =>
              simp only [List.getElem?_cons_zero, Option.some.injEq] at hj
              subst hj
              rw [hfr l hlrest]
              simp
            | succ j1 =>
              simp only [List.getElem?_cons_succ] at hj
              rw [o2 j1 l2 hj]
              omega
          · intro j1 j2 l1 l2 h1 h2 heq
            cases j1 with
            | zero =>
              cases j2 with
              | zero => rfl
              | succ j2 =>
                simp only [List.getElem?_cons_zero, Option.some.injEq] at h1
                simp only [List.getElem?_cons_succ] at h2
                subst h1
                exact absurd heq.symm (hdiff l2 (List.getElem?_mem h2))
            | succ j1 =>
              cases j2 with
              | zero =>
                simp only [List.getElem?_cons_zero, Option.some.injEq] at h2
                simp only [List.getElem?_cons_succ] at h1
                subst h2
                exact absurd heq (hdiff l1 (List.getElem?_mem h1))
              | succ j2 =>
                simp only [List.getElem?_cons_succ] at h1 h2
                have := o3 j1 j2 l1 l2 h1 h2 (by rw [hnames l1, hnames l2]; exact heq)
                omega
          · intro l2 hl2
            rcases List.mem_cons.1 hl2 with heq | hmem
            · subst heq
              rw [o5 (mem.links l2).Name]
              · simp
              · intro l3 hl3
                rw [hnames l3]
                exact hdiff l3 hl3
            · have := o4 l2 hmem
              rw [hnames l2] at this
              exact this
          · intro k hk
            rw [o5 k]
            · have hkl : k ≠ (mem.links l).Name := fun e => hk l (by simp) e.symm
              simp [hkl]
            · intro l3 hl3
              rw [hnames l3]
              exact hk l3 (by simp [hl3])
          · intro hi l0 rest0 hcons
            cases hcons
            rw [hentry1]
            simp [hi]

theorem populateLink_frame (ops : WorkflowOps) (c : ChainedWorkflow) (m : String → Option Nat)
    (h : Nat) (mem : ChainMem) :
    ∃ mem1, (ChainedWorkflow.populateLink ops c m h mem).Leaves mem1 ∧
      (∀ b, b ≠ h → mem1.links b = mem.links b) ∧
      (∀ b, (mem1.links b).declared = (mem.links b).declared ∧
        (mem1.links b).number = (mem.links b).number) ∧
      (∀ a, (mem.links h).Workflow ≠ some a → mem1.wfs a = mem.wfs a) ∧
      (mem.NoSelf → mem1.NoSelf) := by
  cases hw : (mem.links h).Workflow with
  | none =>
    rw [populateLink_blank ops c m h mem hw]
    exact ⟨mem, Or.inr ⟨_, rfl⟩, fun _ _ => rfl, fun _ => ⟨rfl, rfl⟩, fun _ _ => rfl, fun hn => hn⟩
  | some w =>
    obtain ⟨mem1, s1, f1, hL, e1, e2, e3, e4, e5, _⟩ := populateLink_effect ops c m h w mem hw
    refine ⟨mem1, hL, e1, ?_, ?_, ?_⟩
    · intro b
      by_cases hb : b = h
      · subst hb
        rw [e3]
        exact ⟨rfl, rfl⟩
      · rw [e1 b hb]
        exact ⟨rfl, rfl⟩
    · intro a ha
      exact e2 a (fun e => ha (by rw [e]))
    · intro hn a
      by_cases ha : a = h
      · subst ha
        rw [e3]
        constructor
        · show s1 ≠ some a
          rcases e4 with e4 | ⟨t, ht, _, e4⟩
          · rw [e4]; exact (hn a).1
          · rw [e4]
            intro heq
            cases heq
            exact ht rfl
        · show f1 ≠ some a
          rcases e5 with e5 | ⟨t, ht, _, e5⟩
          · rw [e5]; exact (hn a).2
          · rw [e5]
            intro heq
            cases heq
            exact ht rfl
      · rw [e1 a ha]
        exact hn a

theorem populateLinks_frame (ops : WorkflowOps) (c : ChainedWorkflow) (m : String → Option Nat) :
    ∀ (ls : List Nat) (mem : ChainMem),
      ∃ mem1, (ChainedWorkflow.populateLinks ops c m ls mem).Leaves mem1 ∧
        (∀ b, b ∉ ls → mem1.links b = mem.links b) ∧
        (∀ b, (mem1.links b).declared = (mem.links b).declared ∧
          (mem1.links b).number = (mem.links b).number) ∧
        (∀ a, (∀ l ∈ ls, (mem.links l).Workflow ≠ some a) → mem1.wfs a = mem.wfs a) ∧
        (mem.NoSelf → mem1.NoSelf) := by
  intro ls
  induction ls with
  | nil =>
    intro mem
    exact ⟨mem, Or.inl rfl, fun _ _ => rfl, fun _ => ⟨rfl, rfl⟩, fun _ _ => rfl, fun hn => hn⟩
  | cons h rest ih =>
    intro mem
    obtain ⟨mem1, hL, p1, p2, p3, p4⟩ := populateLink_frame ops c m h mem
    rcases hL with hL | ⟨e, hL⟩
    · obtain ⟨mem2, hL2, q1, q2, q3, q4⟩ := ih mem1
      have hr : ChainedWorkflow.populateLinks ops c m (h :: rest) mem =
          ChainedWorkflow.populateLinks ops c m rest mem1 := by
        simp [ChainedWorkflow.populateLinks, hL]
      rw [hr]
      refine ⟨mem2, hL2, ?_, ?_, ?_, fun hn => q4 (p4 hn)⟩
      · intro b hb
        have hbh : b ≠ h := fun e => hb (by simp [e])
        have hbr : b ∉ rest := fun e => hb (by simp [e])
        rw [q1 b hbr, p1 b hbh]
      · intro b
        exact ⟨(q2 b).1.trans (p2 b).1, (q2 b).2.trans (p2 b).2⟩
      · intro a ha
        rw [q3 a, p3 a (ha h (by simp))]
        intro l hl
        have hd := (p2 l).1
        simp only [Link.declared, Prod.mk.injEq] at hd
        rw [hd.2.1]
        exact ha l (by simp [hl])
    · have hr : ChainedWorkflow.populateLinks ops c m (h :: rest) mem = .fail e mem1 := by
        simp [ChainedWorkflow.populateLinks, hL]
      rw [hr]
      refine ⟨mem1, Or.inr ⟨e, rfl⟩, ?_, p2, ?_, p4⟩
      · intro b hb
        exact p1 b (fun e => hb (by simp [e]))
      · intro a ha
        exact p3 a (ha h (by simp))

theorem populate_frame (ops : WorkflowOps) (c : ChainedWorkflow) (mem : ChainMem) :
    ∃ c1 mem1, (ChainedWorkflow.populate ops c mem).Leaves (c1, mem1) ∧
      (∀ b, (mem1.links b).declared = (mem.links b).declared) ∧
      (mem.NoSelf → mem1.NoSelf) := by
  unfold ChainedWorkflow.populate
  by_cases hp : c.Project = ""
  · simp only [hp, if_true]
    exact ⟨c, mem, Or.inr ⟨_, rfl⟩, fun _ => rfl, fun hn => hn⟩
  · simp only [hp, if_false]
    obtain ⟨m1, entry1, mem1, hL, _, hsb, _⟩ :=
      populateNames_effect c.Chain 0 (fun _ => none) c.entry mem
    have hns : mem.NoSelf → mem1.NoSelf := by
      intro hn a
      obtain ⟨_, _, _, hs, hf⟩ := sameButNumber_name (hsb a)
      rw [hs, hf]
      exact hn a
    rcases hL with hL | ⟨e, hL⟩
    · rw [hL]
      simp only []
      obtain ⟨mem2, hL2, _, q2, _, q4⟩ := populateLinks_frame ops c m1 c.Chain mem1
      have hdecl : ∀ b, (mem2.links b).declared = (mem.links b).declared :=
        fun b => (q2 b).1.trans (sameButNumber_name (hsb b)).2.1
      rcases hL2 with hL2 | ⟨e2, hL2⟩
      · rw [hL2]
        exact ⟨_, mem2, Or.inl rfl, hdecl, fun hn => q4 (hns hn)⟩
      · rw [hL2]
        exact ⟨_, mem2, Or.inr ⟨e2, rfl⟩, hdecl, fun hn => q4 (hns hn)⟩
    · rw [hL]
      exact ⟨_, mem1, Or.inr ⟨e, rfl⟩, fun b => (sameButNumber_name (hsb b)).2.1, hns⟩

theorem populateLinks_fail_of (ops : WorkflowOps) (c : ChainedWorkflow)
    (m : String → Option Nat) (S : Nat → Prop) (Bad : ChainMem → Nat → Prop)
    (hhead : ∀ mem h, Bad mem h → (ChainedWorkflow.populateLink ops c m h mem).isFail = true)
    (hpres : ∀ mem h mem1 l, S h → ChainedWorkflow.populateLink ops c m h mem = .ok mem1 →
      l ≠ h → Bad mem l → Bad mem1 l) :
    ∀ (ls : List Nat) (mem : ChainMem), (∀ h ∈ ls, S h) → (∃ l ∈ ls, Bad mem l) →
      (ChainedWorkflow.populateLinks ops c m ls mem).isFail = true := by
  intro ls
  induction ls with
  | nil =>
    intro mem _ hbad
    obtain ⟨l, hl, _⟩ := hbad
    simp at hl
  | cons h rest ih =>
    intro mem hS hbad
    obtain ⟨mem1, hL, _⟩ := populateLink_frame ops c m h mem
    rcases hL with hL | ⟨e, hL⟩
    · have hr : ChainedWorkflow.populateLinks ops c m (h :: rest) mem =
          ChainedWorkflow.populateLinks ops c m rest mem1 := by
        simp [ChainedWorkflow.populateLinks, hL]
      rw [hr]
      obtain ⟨l, hl, hb⟩ := hbad
      by_cases hlh : l = h
      · subst hlh
        have := hhead mem l hb
        rw [hL] at this
        simp [Res.isFail] at this
      · have hlr : l ∈ rest := by
          rcases List.mem_cons.1 hl with e | e
          · exact absurd e hlh
          · exact e
        exact ih mem1 (fun h1 hh1 => hS h1 (by simp [hh1]))
          ⟨l, hlr, hpres mem h mem1 l (hS h (by simp)) hL hlh hb⟩
    · simp [ChainedWorkflow.populateLinks, hL, Res.isFail]

theorem populate_isFail_of_links (ops : WorkflowOps) (c : ChainedWorkflow) (mem : ChainMem)
    (h : ∀ m1 entry1 mem1, mem1.wfs = mem.wfs →
      (∀ b, (mem1.links b).declared = (mem.links b).declared) →
      (ChainedWorkflow.populateNames 0 c.Chain (fun _ => none) c.entry mem).isOk = true →
      (ChainedWorkflow.populateNames 0 c.Chain (fun _ => none) c.entry mem).Leaves
        (m1, entry1, mem1) →
      (ChainedWorkflow.populateLinks ops c m1 c.Chain mem1).isFail = true) :
    (ChainedWorkflow.populate ops c mem).isFail = true := by
  unfold ChainedWorkflow.populate
  by_cases hp : c.Project = ""
  · simp [hp, Res.isFail]
  · simp only [hp, if_false]
    obtain ⟨m1, entry1, mem1, hL, hwf, hsb, _⟩ :=
      populateNames_effect c.Chain 0 (fun _ => none) c.entry mem
    have h1 := h m1 entry1 mem1 hwf (fun b => (sameButNumber_name (hsb b)).2.1)
    rcases hL with hL | ⟨e, hL⟩
    · have h2 := h1 (by rw [hL]; rfl) (Or.inl hL)
      rw [hL]
      simp only []
      cases hr : ChainedWorkflow.populateLinks ops c m1 c.Chain mem1 with
      | ok mem2 => rw [hr] at h2; simp [Res.isFail] at h2
      | fail e mem2 => rfl
      | panic => rw [hr] at h2; simp [Res.isFail] at h2
    · rw [hL]
      rfl

/-- C18: `Link.addVar(k, v)` on a link with a linked workflow returns an error
exactly when `k` is not a key of the workflow's variables, and then writes
nothing; otherwise it returns nil, variable `k` of the workflow holds `v`, the
other variables, the set of declared keys, the other workflows and the links
are unchanged.  And in a chain whose links do not share a linked workflow,
`populate` returns an error whenever some link's Vars has a key its linked
workflow does not declare. -/
theorem addVar_spec (mem : ChainMem) (l w : Nat) (k v : String)
    (ops : WorkflowOps) (c : ChainedWorkflow) (memP : ChainMem)
    (hw : (mem.links l).Workflow = some w)
    (hown : ∀ l1 ∈ c.Chain, ∀ l2 ∈ c.Chain, l1 ≠ l2 → ∀ a,
      (memP.links l1).Workflow = some a → (memP.links l2).Workflow ≠ some a) :
    ((Link.addVar mem l k v).isFail = true ↔ (mem.wfs w).declares k = false) ∧
    ((Link.addVar mem l k v).isOk = true ↔ (mem.wfs w).declares k = true) ∧
    (∀ e mem1, Link.addVar mem l k v = .fail e mem1 → mem1 = mem) ∧
    (∀ mem1, Link.addVar mem l k v = .ok mem1 →
      (mem1.wfs w).varValue k = some v ∧
      (∀ k1, k1 ≠ k → (mem1.wfs w).varValue k1 = (mem.wfs w).varValue k1) ∧
      (∀ k1, (mem1.wfs w).declares k1 = (mem.wfs w).declares k1) ∧
      (∀ a, a ≠ w → mem1.wfs a = mem.wfs a) ∧
      mem1.links = mem.links) ∧
    ((∃ l0 ∈ c.Chain, ∃ w0 kv, (memP.links l0).Workflow = some w0 ∧
        kv ∈ (memP.links l0).Vars ∧ (memP.wfs w0).declares kv.1 = false) →
      (ChainedWorkflow.populate ops c memP).isFail = true) := by
  refine ⟨?_, ?_, ?_, ?_, ?_⟩
  · cases hk : (mem.wfs w).declares k with
    | false => simp [addVar_undeclared mem l w k v hw hk, Res.isFail]
    | true => simp [addVar_declared mem l w k v hw hk, Res.isFail]
  · cases hk : (mem.wfs w).declares k with
    | false => simp [addVar_undeclared mem l w k v hw hk, Res.isOk]
    | true => simp [addVar_declared mem l w k v hw hk, Res.isOk]
  · intro e mem1 h1
    cases hk : (mem.wfs w).declares k with
    | false =>
      rw [addVar_undeclared mem l w k v hw hk] at h1
      cases h1
      rfl
    | true =>
      rw [addVar_declared mem l w k v hw hk] at h1
      cases h1
  · intro mem1 h1
    cases hk : (mem.wfs w).declares k with
    | false =>
      rw [addVar_undeclared mem l w k v hw hk] at h1
      cases h1
    | true =>
      rw [addVar_declared mem l w k v hw hk] at h1
      cases h1
      refine ⟨?_, ?_, ?_, ?_, rfl⟩
      · rw [setWf_wfs_same]
        exact AddVar_varValue_same _ k v hk
      · intro k1 hk1
        rw [setWf_wfs_same]
        exact AddVar_varValue_other _ k v k1 hk hk1
      · intro k1
        rw [setWf_wfs_same]
        exact AddVar_declares_of_declared _ k v k1 hk
      · intro a ha
        exact setWf_wfs_other mem w a _ ha
  · rintro ⟨l0, hl0, w0, kv, hw0, hkv, hund⟩
    apply populate_isFail_of_links
    intro m1 entry1 mem1 hwf hdecl _ _
    have hd : ∀ b, (mem1.links b).Workflow = (memP.links b).Workflow ∧
        (mem1.links b).Vars = (memP.links b).Vars := by
      intro b
      have := hdecl b
      simp only [Link.declared, Prod.mk.injEq] at this
      exact ⟨this.2.1, this.2.2.1⟩
    apply populateLinks_fail_of ops c m1 (fun h => h ∈ c.Chain)
      (fun mem2 l2 => ∃ w2 kv2, (mem2.links l2).Workflow = some w2 ∧
        kv2 ∈ (mem2.links l2).Vars ∧ (mem2.wfs w2).declares kv2.1 = false ∧
        ∀ b ∈ c.Chain, b ≠ l2 → (mem2.links b).Workflow ≠ some w2)
    · rintro mem2 h2 ⟨w2, kv2, a1, a2, a3, _⟩
      obtain ⟨_, _, _, _, _, _, _, _, _, _, _, _, hv, _⟩ :=
        populateLink_effect ops c m1 h2 w2 mem2 a1
      exact hv ⟨kv2, a2, a3⟩
    · rintro mem2 h2 mem3 l2 hS hok hne ⟨w2, kv2, a1, a2, a3, a4⟩
      obtain ⟨mem3a, hL, p1, p2, p3, _⟩ := populateLink_frame ops c m1 h2 mem2
      have hmem : mem3a = mem3 := by
        rw [hok] at hL
        exact Leaves_ok mem3 mem3a hL
      subst hmem
      refine ⟨w2, kv2, ?_, ?_, ?_, ?_⟩
      · rw [p1 l2 hne]; exact a1
      · rw [p1 l2 hne]; exact a2
      · rw [p3 w2 (a4 h2 hS (fun e => hne e.symm))]
        exact a3
      · intro b hb hbl
        have hdb := (p2 b).1
        simp only [Link.declared, Prod.mk.injEq] at hdb
        rw [hdb.2.1]
        exact a4 b hb hbl
    · intro h _
      assumption
    · refine ⟨l0, hl0, w0, kv, ?_, ?_, ?_, ?_⟩
      · rw [(hd l0).1]; exact hw0
      · rw [(hd l0).2]; exact hkv
      · rw [hwf]; exact hund
      · intro b hb hbl
        rw [(hd b).1]
        exact hown l0 hl0 b hb (fun e => hbl e.symm) w0 hw0

/-- Witness for C18: link A passes "zone" and "disk" to a workflow that declares
"zone" only: `addVar` accepts "zone" and `populate` of the one-link chain
returns an error. -/
theorem addVar_spec_witness :
    (varsChainMem.links 0).Workflow = some 0 ∧
    (Link.addVar varsChainMem 0 "zone" "z1").isOk = true ∧
    (Link.addVar varsChainMem 0 "disk" "d1").isFail = true ∧
    (ChainedWorkflow.populate quietOps selfChain varsChainMem).isFail = true :=
  have hw : (varsChainMem.links 0).Workflow = some 0 := rfl
  have hown : ∀ l1 ∈ selfChain.Chain, ∀ l2 ∈ selfChain.Chain, l1 ≠ l2 → ∀ a,
      (varsChainMem.links l1).Workflow = some a → (varsChainMem.links l2).Workflow ≠ some a := by
    intro l1 h1 l2 h2 hne
    simp only [selfChain, List.mem_singleton] at h1 h2
    exact absurd (h1.trans h2.symm) hne
  ⟨hw,
   (addVar_spec varsChainMem 0 0 "zone" "z1" quietOps selfChain varsChainMem hw hown).2.1.2
     (by decide),
   (addVar_spec varsChainMem 0 0 "disk" "d1" quietOps selfChain varsChainMem hw hown).1.2
     (by decide),
   (addVar_spec varsChainMem 0 0 "zone" "z1" quietOps selfChain varsChainMem hw hown).2.2.2.2
     ⟨0, by simp [selfChain], 0, ("disk", "d1"), rfl, by simp [varsChainMem], by decide⟩⟩

theorem ChainOp_apply_NoSelf (mem : ChainMem) (op : ChainOp) (hn : mem.NoSelf) :
    (op.apply mem).NoSelf := by
  cases op with
  | SetOnSuccess l onSuccess =>
    cases l with
    | none =>
      by_cases h : (none : Option Nat) = onSuccess
      · simpa [ChainOp.apply, Link.SetOnSuccess, h] using hn
      · simpa [ChainOp.apply, Link.SetOnSuccess, h] using hn
    | some a =>
      by_cases h : onSuccess = some a
      · simpa [ChainOp.apply, (SetOnSuccess_live mem a onSuccess).1 h] using hn
      · simp only [ChainOp.apply, (SetOnSuccess_live mem a onSuccess).2 h]
        intro b
        by_cases hb : b = a
        · subst hb
          simp only [setLink_links_same]
          exact ⟨h, (hn b).2⟩
        · rw [setLink_links_other mem a b _ hb]
          exact hn b
  | SetOnFailure l onFailure =>
    cases l with
    | none =>
      by_cases h : (none : Option Nat) = onFailure
      · simpa [ChainOp.apply, Link.SetOnFailure, h] using hn
      · simpa [ChainOp.apply, Link.SetOnFailure, h] using hn
    | some a =>
      by_cases h : onFailure = some a
      · simpa [ChainOp.apply, (SetOnFailure_live mem a onFailure).1 h] using hn
      · simp only [ChainOp.apply, (SetOnFailure_live mem a onFailure).2 h]
        intro b
        by_cases hb : b = a
        · subst hb
          simp only [setLink_links_same]
          exact ⟨(hn b).1, h⟩
        · rw [setLink_links_other mem a b _ hb]
          exact hn b
  | populate ops c =>
    obtain ⟨c1, mem1, hL, _, hns⟩ := populate_frame ops c mem
    rcases hL with hL | ⟨e, hL⟩
    · simp only [ChainOp.apply, hL]
      exact hns hn
    · simp only [ChainOp.apply, hL]
      exact hns hn

theorem runChainOps_NoSelf : ∀ (ops : List ChainOp) (mem : ChainMem), mem.NoSelf →
    (runChainOps ops mem).NoSelf := by
  intro ops
  induction ops with
  | nil => intro mem hn; exact hn
  | cons op rest ih =>
    intro mem hn
    exact ih _ (ChainOp_apply_NoSelf mem op hn)

/-- C19: `SetOnSuccess` and `SetOnFailure` return an error exactly when the
argument is the receiver itself, and then write nothing; on a live receiver `l`
any other argument is stored in `onSuccess` (resp. `onFailure`) of `l` and
nothing else is written.  Hence, starting from links without continuations,
after any sequence `seq` of `SetOnSuccess`, `SetOnFailure` and `populate` calls
no link is its own success or failure continuation. -/
theorem SetOn_spec (mem : ChainMem) (recv : Option Nat) (l : Nat) (arg : Option Nat)
    (seq : List ChainOp) (mem0 : ChainMem)
    (hfresh : ∀ a, (mem0.links a).onSuccess = none ∧ (mem0.links a).onFailure = none) :
    ((Link.SetOnSuccess mem recv arg).isFail = true ↔ arg = recv) ∧
    (∀ e mem1, Link.SetOnSuccess mem recv arg = .fail e mem1 → mem1 = mem) ∧
    (arg ≠ some l → ∃ mem1, Link.SetOnSuccess mem (some l) arg = .ok mem1 ∧
      mem1.links l = { mem.links l with onSuccess := arg } ∧
      (∀ b, b ≠ l → mem1.links b = mem.links b) ∧ mem1.wfs = mem.wfs) ∧
    ((Link.SetOnFailure mem recv arg).isFail = true ↔ arg = recv) ∧
    (∀ e mem1, Link.SetOnFailure mem recv arg = .fail e mem1 → mem1 = mem) ∧
    (arg ≠ some l → ∃ mem1, Link.SetOnFailure mem (some l) arg = .ok mem1 ∧
      mem1.links l = { mem.links l with onFailure := arg } ∧
      (∀ b, b ≠ l → mem1.links b = mem.links b) ∧ mem1.wfs = mem.wfs) ∧
    (runChainOps seq mem0).NoSelf := by
  refine ⟨?_, ?_, ?_, ?_, ?_, ?_, ?_⟩
  · by_cases h : recv = arg
    · simp [Link.SetOnSuccess, h, Res.isFail]
    · have h1 : ¬ (arg = recv) := fun e => h e.symm
      cases recv <;> simp [Link.SetOnSuccess, h, h1, Res.isFail]
  · intro e mem1 h1
    by_cases h : recv = arg
    · simp only [Link.SetOnSuccess, h, if_true] at h1
      cases h1
      rfl
    · cases recv <;> simp [Link.SetOnSuccess, h] at h1
  · intro hne
    refine ⟨_, (SetOnSuccess_live mem l arg).2 hne, by simp, ?_, rfl⟩
    intro b hb
    exact setLink_links_other mem l b _ hb
  · by_cases h : recv = arg
    · simp [Link.SetOnFailure, h, Res.isFail]
    · have h1 : ¬ (arg = recv) := fun e => h e.symm
      cases recv <;> simp [Link.SetOnFailure, h, h1, Res.isFail]
  · intro e mem1 h1
    by_cases h : recv = arg
    · simp only [Link.SetOnFailure, h, if_true] at h1
      cases h1
      rfl
    · cases recv <;> simp [Link.SetOnFailure, h] at h1
  · intro hne
    refine ⟨_, (SetOnFailure_live mem l arg).2 hne, by simp, ?_, rfl⟩
    intro b hb
    exact setLink_links_other mem l b _ hb
  · apply runChainOps_NoSelf
    intro a
    rw [(hfresh a).1, (hfresh a).2]
    exact ⟨by simp, by simp⟩

/-- Witness for C19: on the links of `selfChainMem`, which have no continuation,
run the build pass of the chain whose link names itself, then try to make link 0
its own success continuation, then give it link 1. -/
theorem SetOn_spec_witness :
    (∀ a, (selfChainMem.links a).onSuccess = none ∧ (selfChainMem.links a).onFailure = none) ∧
    ((Link.SetOnSuccess selfChainMem (some 0) (some 0)).isFail = true ↔
      (some 0 : Option Nat) = some 0) ∧
    (runChainOps exampleChainOps selfChainMem).NoSelf :=
  have hfresh : ∀ a, (selfChainMem.links a).onSuccess = none ∧
      (selfChainMem.links a).onFailure = none := fun _ => ⟨rfl, rfl⟩
  have h := SetOn_spec selfChainMem (some 0) 0 (some 0) exampleChainOps selfChainMem hfresh
  ⟨hfresh, h.1, h.2.2.2.2.2.2⟩

theorem populate_ok_inv (ops : WorkflowOps) (c c1 : ChainedWorkflow) (mem mem2 : ChainMem)
    (h : ChainedWorkflow.populate ops c mem = .ok (c1, mem2)) :
    c.Project ≠ "" ∧ ∃ m1 entry1 mem1,
      ChainedWorkflow.populateNames 0 c.Chain (fun _ => none) c.entry mem =
        .ok (m1, entry1, mem1) ∧
      ChainedWorkflow.populateLinks ops c m1 c.Chain mem1 = .ok mem2 ∧
      c1 = { c with entry := entry1 } := by
  unfold ChainedWorkflow.populate at h
  by_cases hp : c.Project = ""
  · simp [hp] at h
  · refine ⟨hp, ?_⟩
    simp only [hp, if_false] at h
    cases hn : ChainedWorkflow.populateNames 0 c.Chain (fun _ => none) c.entry mem with
    | panic => rw [hn] at h; cases h
    | fail e st => rw [hn] at h; cases h
    | ok st =>
      obtain ⟨m1, entry1, mem1⟩ := st
      rw [hn] at h
      simp only [] at h
      cases hl : ChainedWorkflow.populateLinks ops c m1 c.Chain mem1 with
      | panic => rw [hl] at h; cases h
      | fail e st => rw [hl] at h; cases h
      | ok mem3 =>
        rw [hl] at h
        simp only [Res.ok.injEq, Prod.mk.injEq] at h
        refine ⟨m1, entry1, mem1, rfl, ?_, h.1.symm⟩
        rw [hl, h.2]

theorem populateNames_isOk_of :
    ∀ (ls : List Nat) (i : Nat) (m : String → Option Nat) (entry : Option Nat) (mem : ChainMem),
      (∀ l ∈ ls, (mem.links l).Name ≠ "" ∧ m (mem.links l).Name = none) →
      (∀ (j1 j2 l1 l2 : Nat), ls[j1]? = some l1 → ls[j2]? = some l2 →
        (mem.links l1).Name = (mem.links l2).Name → j1 = j2) →
      (ChainedWorkflow.populateNames i ls m entry mem).isOk = true := by
  intro ls
  induction ls with
  | nil =>
    intro i m entry mem _ _
    rfl
  | cons l rest ih =>
    intro i m entry mem hne hd
    have hl := hne l (List.mem_cons_self _ _)
    have hname : ((mem.setLink l { mem.links l with number := i + 1 }).links l).Name =
        (mem.links l).Name := by simp
    have hother : ∀ b, ((mem.setLink l { mem.links l with number := i + 1 }).links b).Name =
        (mem.links b).Name := by
      intro b
      by_cases hb : b = l
      · subst hb
        exact hname
      · rw [setLink_links_other mem l b _ hb]
    unfold ChainedWorkflow.populateNames
    simp only [hname, hl.1, if_false, hl.2]
    apply ih
    · intro b hb
      rw [hother b]
      refine ⟨(hne b (List.mem_cons_of_mem _ hb)).1, ?_⟩
      have hbn : (mem.links b).Name ≠ (mem.links l).Name := by
        intro heq
        obtain ⟨j, hj⟩ := List.getElem?_of_mem hb
        have := hd (j + 1) 0 b l (by simpa using hj) (by simp) heq
        omega
      simp only [hbn, if_false]
      exact (hne b (List.mem_cons_of_mem _ hb)).2
    · intro j1 j2 l1 l2 h1 h2 heq
      rw [hother l1, hother l2] at heq
      have := hd (j1 + 1) (j2 + 1) l1 l2 (by simpa using h1) (by simpa using h2) heq
      omega

theorem populate_numbers (ops : WorkflowOps) (c : ChainedWorkflow) (mem : ChainMem)
    (hp : c.Project ≠ "") (hne : ∀ l ∈ c.Chain, (mem.links l).Name ≠ "")
    (hd : ∀ (j1 j2 l1 l2 : Nat), c.Chain[j1]? = some l1 → c.Chain[j2]? = some l2 →
      (mem.links l1).Name = (mem.links l2).Name → j1 = j2) :
    ∃ st, (ChainedWorkflow.populate ops c mem).Leaves st ∧
      (∀ (j l : Nat), c.Chain[j]? = some l → (st.2.links l).number = j + 1) ∧
      (∀ l rest, c.Chain = l :: rest → st.1.entry = some l) := by
  have hok := populateNames_isOk_of c.Chain 0 (fun _ => none) c.entry mem
    (fun l hl => ⟨hne l hl, rfl⟩) hd
  obtain ⟨m1, entry1, mem1, hL, _, _, _, _, _, hfacts⟩ :=
    populateNames_effect c.Chain 0 (fun _ => none) c.entry mem
  obtain ⟨_, o2, _, _, _, o6⟩ := hfacts hok
  rcases Leaves_isOk_or_isFail _ _ hL with ⟨_, heq⟩ | ⟨_, hno⟩
  · obtain ⟨mem2, hL2, _, q2, _⟩ := populateLinks_frame ops c m1 c.Chain mem1
    refine ⟨({ c with entry := entry1 }, mem2), ?_, ?_, ?_⟩
    · unfold ChainedWorkflow.populate
      simp only [hp, if_false, heq]
      rcases hL2 with h | ⟨e, h⟩
      · rw [h]
        exact Or.inl rfl
      · rw [h]
        exact Or.inr ⟨e, rfl⟩
    · intro j l hj
      simp only []
      rw [(q2 l).2, o2 j l hj]
      omega
    · intro l rest hch
      exact o6 rfl l rest hch
  · rw [hok] at hno
    cases hno

/-- C17, as amended: when the chain's Project is set and the Names of its links
are non-empty and differ from position to position, `populate` returns (nil or
an error) with the link at position `j` of the chain (counted from 0) numbered
`j + 1` and `entry` set to the first declared link; in particular the links are
so numbered and `entry` so set whenever `populate` returns nil.  `populate`
returns an error when two positions of the chain hold links of the same Name or
some link has an empty Name, and then no linked workflow has been written; and
it returns an error when some link has no linked workflow. -/
theorem populate_numbering_and_rejections (ops : WorkflowOps) (c : ChainedWorkflow)
    (mem : ChainMem) :
    (∀ c1 mem1, ChainedWorkflow.populate ops c mem = .ok (c1, mem1) →
      (∀ (j l : Nat), c.Chain[j]? = some l → (mem1.links l).number = j + 1) ∧
      (∀ l rest, c.Chain = l :: rest → c1.entry = some l)) ∧
    (((∃ (j1 j2 l1 l2 : Nat), j1 ≠ j2 ∧ c.Chain[j1]? = some l1 ∧ c.Chain[j2]? = some l2 ∧
          (mem.links l1).Name = (mem.links l2).Name) ∨
        (∃ l ∈ c.Chain, (mem.links l).Name = "")) →
      (ChainedWorkflow.populate ops c mem).isFail = true ∧
      ∀ st, (ChainedWorkflow.populate ops c mem).Leaves st → st.2.wfs = mem.wfs) ∧
    ((∃ l ∈ c.Chain, (mem.links l).Workflow = none) →
      (ChainedWorkflow.populate ops c mem).isFail = true) ∧
    (c.Project ≠ "" → (∀ l ∈ c.Chain, (mem.links l).Name ≠ "") →
      (∀ (j1 j2 l1 l2 : Nat), c.Chain[j1]? = some l1 → c.Chain[j2]? = some l2 →
        (mem.links l1).Name = (mem.links l2).Name → j1 = j2) →
      ∃ st, (ChainedWorkflow.populate ops c mem).Leaves st ∧
        (∀ (j l : Nat), c.Chain[j]? = some l → (st.2.links l).number = j + 1) ∧
        (∀ l rest, c.Chain = l :: rest → st.1.entry = some l)) := by
  refine ⟨?_, ?_, ?_, populate_numbers ops c mem⟩
  · intro c1 mem2 hok
    obtain ⟨_, m1, entry1, mem1, hn, hl, hc1⟩ := populate_ok_inv ops c c1 mem mem2 hok
    obtain ⟨m1a, entry1a, mem1a, hL, _, _, _, _, _, hfacts⟩ :=
      populateNames_effect c.Chain 0 (fun _ => none) c.entry mem
    rw [hn] at hL hfacts
    have heq := Leaves_ok _ _ hL
    simp only [Prod.mk.injEq] at heq
    obtain ⟨_, he, hm⟩ := heq
    subst he hm
    obtain ⟨_, o2, _, _, _, o6⟩ := hfacts rfl
    obtain ⟨mem2a, hL2, _, q2, _⟩ := populateLinks_frame ops c m1 c.Chain mem1a
    rw [hl] at hL2
    have hm2 := Leaves_ok _ _ hL2
    subst hm2
    constructor
    · intro j l hj
      rw [(q2 l).2, o2 j l hj]
      omega
    · intro l rest hch
      rw [hc1]
      exact o6 rfl l rest hch
  · intro hbad
    obtain ⟨m1, entry1, mem1, hL, hwf, _, _, _, _, hfacts⟩ :=
      populateNames_effect c.Chain 0 (fun _ => none) c.entry mem
    have hnotok : (ChainedWorkflow.populateNames 0 c.Chain (fun _ => none) c.entry mem).isOk =
        false := by
      cases hb : (ChainedWorkflow.populateNames 0 c.Chain (fun _ => none) c.entry mem).isOk with
      | false => rfl
      | true =>
        obtain ⟨o1, _, o3, _⟩ := hfacts hb
        rcases hbad with ⟨j1, j2, l1, l2, hne, h1, h2, hname⟩ | ⟨l, hl, hname⟩
        · exact absurd (o3 j1 j2 l1 l2 h1 h2 hname) hne
        · exact absurd hname (o1 l hl).1
    rcases hL with hL | ⟨e, hL⟩
    · rw [hL] at hnotok
      simp [Res.isOk] at hnotok
    · unfold ChainedWorkflow.populate
      by_cases hp : c.Project = ""
      · simp only [hp, if_true]
        refine ⟨rfl, ?_⟩
        intro st hst
        rw [Leaves_fail _ _ _ hst]
      · simp only [hp, if_false, hL]
        refine ⟨rfl, ?_⟩
        intro st hst
        rw [Leaves_fail _ _ _ hst]
        exact hwf
  · rintro ⟨l0, hl0, hblank⟩
    apply populate_isFail_of_links
    intro m1 entry1 mem1 _ hdecl _ _
    apply populateLinks_fail_of ops c m1 (fun _ => True)
      (fun mem2 l2 => (mem2.links l2).Workflow = none)
    · intro mem2 h2 hb
      rw [populateLink_blank ops c m1 h2 mem2 hb]
      rfl
    · intro mem2 h2 mem3 l2 _ hok hne hb
      obtain ⟨mem3a, hL, p1, _⟩ := populateLink_frame ops c m1 h2 mem2
      rw [hok] at hL
      have := Leaves_ok _ _ hL
      subst this
      rw [p1 l2 hne]
      exact hb
    · intro _ _
      trivial
    · refine ⟨l0, hl0, ?_⟩
      have := hdecl l0
      simp only [Link.declared, Prod.mk.injEq] at this
      rw [this.2.1]
      exact hblank

/-- C17 (the claim at explicit inputs).  In the chain A, B where A has a linked
workflow and B has none, `populate` returns the blank-workflow error, but the
workflow of A, whose Name was empty, has by then been given the Name "A": the
error for the missing linked workflow does not come before any linked workflow
is touched.  In the chain A, B without a Project, `populate` returns an error
and A keeps the number 0 and `entry` stays nil.  In the chain A, (a link without
Name), C, `populate` returns an error and C, the third link, keeps the number
0: the links are not always numbered 1, 2, ... nor `entry` always set. -/
theorem populate_blank_after_touching :
    (∃ l ∈ blankChain.Chain, (blankChainMem.links l).Workflow = none) ∧
    (ChainedWorkflow.populate quietOps blankChain blankChainMem).isFail = true ∧
    (blankChainMem.wfs 0).Name = "" ∧
    ((ChainedWorkflow.populate quietOps blankChain blankChainMem).state?.map
      (fun st => (st.2.wfs 0).Name)) = some "A" ∧
    unsetProjectChain.Chain = [0, 1] ∧
    (ChainedWorkflow.populate quietOps unsetProjectChain failureOnlyChainMem).isFail = true ∧
    ((ChainedWorkflow.populate quietOps unsetProjectChain failureOnlyChainMem).state?.map
      (fun st => ((st.2.links 0).number, st.1.entry))) = some (0, none) ∧
    namelessChain.Chain = [0, 1, 2] ∧
    (ChainedWorkflow.populate quietOps namelessChain namelessChainMem).isFail = true ∧
    ((ChainedWorkflow.populate quietOps namelessChain namelessChainMem).state?.map
      (fun st => (st.2.links 2).number)) = some 0 := by
  refine ⟨⟨1, by decide, rfl⟩, by decide, rfl, by decide, rfl, by decide, by decide, rfl,
    by decide, by decide⟩

theorem populateLinks_cons_ok (ops : WorkflowOps) (c : ChainedWorkflow)
    (m : String → Option Nat) (h : Nat) (rest : List Nat) (mem mem2 : ChainMem)
    (hok : ChainedWorkflow.populateLinks ops c m (h :: rest) mem = .ok mem2) :
    ∃ mem1, ChainedWorkflow.populateLink ops c m h mem = .ok mem1 ∧
      ChainedWorkflow.populateLinks ops c m rest mem1 = .ok mem2 := by
  cases hl : ChainedWorkflow.populateLink ops c m h mem with
  | ok mem1 =>
    refine ⟨mem1, rfl, ?_⟩
    simpa [ChainedWorkflow.populateLinks, hl] using hok
  | fail e mem1 => simp [ChainedWorkflow.populateLinks, hl] at hok
  | panic => simp [ChainedWorkflow.populateLinks, hl] at hok

theorem link_workflow_of_declared {l1 l2 : Link} (h : l1.declared = l2.declared) :
    l1.Name = l2.Name ∧ l1.Workflow = l2.Workflow ∧ l1.Vars = l2.Vars ∧
    l1.OnSuccess = l2.OnSuccess ∧ l1.OnFailure = l2.OnFailure := by
  simp only [Link.declared, Prod.mk.injEq] at h
  exact h

theorem populateLinks_ok_split (ops : WorkflowOps) (c : ChainedWorkflow)
    (m : String → Option Nat) :
    ∀ (ls : List Nat) (mem mem2 : ChainMem), ls.Nodup →
      ChainedWorkflow.populateLinks ops c m ls mem = .ok mem2 →
      ∀ l ∈ ls, ∃ memA memB, ChainedWorkflow.populateLink ops c m l memA = .ok memB ∧
        memA.links l = mem.links l ∧ mem2.links l = memB.links l ∧
        (∀ a, (∀ b ∈ ls, b ≠ l → (mem.links b).Workflow ≠ some a) →
          memA.wfs a = mem.wfs a ∧ mem2.wfs a = memB.wfs a) := by
  intro ls
  induction ls with
  | nil => intro mem mem2 _ _ l hl; simp at hl
  | cons h rest ih =>
    intro mem mem2 hnd hok l hl
    have hnd1 : h ∉ rest ∧ rest.Nodup := by simpa using hnd
    obtain ⟨mem1, hh, hrest⟩ := populateLinks_cons_ok ops c m h rest mem mem2 hok
    obtain ⟨mem1a, hL, p1, p2, p3, _⟩ := populateLink_frame ops c m h mem
    rw [hh] at hL
    have e1 := Leaves_ok _ _ hL
    subst e1
    obtain ⟨mem2a, hL2, q1, q2, q3, _⟩ := populateLinks_frame ops c m rest mem1a
    rw [hrest] at hL2
    have e2 := Leaves_ok _ _ hL2
    subst e2
    by_cases hlh : l = h
    · subst hlh
      refine ⟨mem, mem1a, hh, rfl, q1 l hnd1.1, ?_⟩
      intro a ha
      refine ⟨rfl, q3 a ?_⟩
      intro b hb
      rw [(link_workflow_of_declared (p2 b).1).2.1]
      exact ha b (by simp [hb]) (fun e => hnd1.1 (e ▸ hb))
    · have hlr : l ∈ rest := by
        rcases List.mem_cons.1 hl with e | e
        · exact absurd e hlh
        · exact e
      obtain ⟨memA, memB, r1, r2, r3, r4⟩ := ih mem1a mem2a hnd1.2 hrest l hlr
      refine ⟨memA, memB, r1, by rw [r2, p1 l hlh], r3, ?_⟩
      intro a ha
      have hrest_a : ∀ b ∈ rest, b ≠ l → (mem1a.links b).Workflow ≠ some a := by
        intro b hb hbl
        rw [(link_workflow_of_declared (p2 b).1).2.1]
        exact ha b (by simp [hb]) hbl
      obtain ⟨s1, s2⟩ := r4 a hrest_a
      refine ⟨?_, s2⟩
      rw [s1]
      exact p3 a (ha h (by simp) (fun e => hlh e.symm))

/-- C15: when `populate` returns nil, no two links of the chain have the same
Name, and for every link of the chain: if OnSuccess is non-empty and is the Name
of another link `t` of the chain then `onSuccess` is `t`, and if OnSuccess is
empty then `onSuccess` is what it was before the pass; likewise for OnFailure
and `onFailure`.  And if a non-empty OnSuccess or OnFailure of some link of the
chain is the Name of no link of the chain, `populate` returns an error. -/
theorem populate_resolves_continuations (ops : WorkflowOps) (c : ChainedWorkflow)
    (mem : ChainMem) :
    (∀ c1 mem1, ChainedWorkflow.populate ops c mem = .ok (c1, mem1) →
      (∀ t1 ∈ c.Chain, ∀ t2 ∈ c.Chain, (mem.links t1).Name = (mem.links t2).Name → t1 = t2) ∧
      ∀ l ∈ c.Chain,
        (∀ t ∈ c.Chain, (mem.links l).OnSuccess ≠ "" →
          (mem.links t).Name = (mem.links l).OnSuccess → t ≠ l →
          (mem1.links l).onSuccess = some t) ∧
        ((mem.links l).OnSuccess = "" → (mem1.links l).onSuccess = (mem.links l).onSuccess) ∧
        (∀ t ∈ c.Chain, (mem.links l).OnFailure ≠ "" →
          (mem.links t).Name = (mem.links l).OnFailure → t ≠ l →
          (mem1.links l).onFailure = some t) ∧
        ((mem.links l).OnFailure = "" → (mem1.links l).onFailure = (mem.links l).onFailure)) ∧
    ((∃ l ∈ c.Chain,
        ((mem.links l).OnSuccess ≠ "" ∧
          ∀ t ∈ c.Chain, (mem.links t).Name ≠ (mem.links l).OnSuccess) ∨
        ((mem.links l).OnFailure ≠ "" ∧
          ∀ t ∈ c.Chain, (mem.links t).Name ≠ (mem.links l).OnFailure)) →
      (ChainedWorkflow.populate ops c mem).isFail = true) := by
  constructor
  · intro c1 mem2 hok
    obtain ⟨_, m1, entry1, mem1, hn, hl, _⟩ := populate_ok_inv ops c c1 mem mem2 hok
    obtain ⟨m1a, entry1a, mem1a, hL, _, hsb, _, _, _, hfacts⟩ :=
      populateNames_effect c.Chain 0 (fun _ => none) c.entry mem
    rw [hn] at hL hfacts
    have heq := Leaves_ok _ _ hL
    simp only [Prod.mk.injEq] at heq
    obtain ⟨hmm, he, hm⟩ := heq
    subst hmm he hm
    obtain ⟨_, _, o3, o4, _, _⟩ := hfacts rfl
    have huniq : ∀ t1 ∈ c.Chain, ∀ t2 ∈ c.Chain,
        (mem.links t1).Name = (mem.links t2).Name → t1 = t2 := by
      intro t1 h1 t2 h2 hname
      obtain ⟨j1, hj1⟩ := List.mem_iff_getElem?.1 h1
      obtain ⟨j2, hj2⟩ := List.mem_iff_getElem?.1 h2
      have := o3 j1 j2 t1 t2 hj1 hj2 hname
      subst this
      rw [hj1] at hj2
      cases hj2
      rfl
    have hnd : c.Chain.Nodup := by
      rw [List.nodup_iff_getElem?_ne_getElem?]
      intro i j hij hj heq
      have hlt : i < c.Chain.length := by omega
      obtain ⟨t, ht⟩ : ∃ t, c.Chain[i]? = some t := ⟨c.Chain[i], List.getElem?_eq_getElem hlt⟩
      have ht2 : c.Chain[j]? = some t := by rw [← heq]; exact ht
      have := o3 i j t t ht ht2 rfl
      omega
    refine ⟨huniq, ?_⟩
    intro l hlc
    obtain ⟨memA, memB, r1, r2, r3, _⟩ :=
      populateLinks_ok_split ops c m1a c.Chain mem1a mem2 hnd hl l hlc
    obtain ⟨hnm, hdec, _, hos, hof⟩ := sameButNumber_name (hsb l)
    obtain ⟨_, _, _, hOS, hOF⟩ := link_workflow_of_declared hdec
    cases hw : (memA.links l).Workflow with
    | none =>
      rw [populateLink_blank ops c m1a l memA hw] at r1
      cases r1
    | some w =>
      obtain ⟨memB1, s1, f1, hLB, _, _, e3, _, _, e6, _⟩ :=
        populateLink_effect ops c m1a l w memA hw
      rw [r1] at hLB e6
      have := Leaves_ok _ _ hLB
      subst this
      obtain ⟨g1, g2, g3, g4⟩ := e6 rfl
      rw [r2, hOS, hos] at g1 g2
      rw [r2, hOF, hof] at g3 g4
      have hs1 : (mem2.links l).onSuccess = s1 := by rw [r3, e3]
      have hf1 : (mem2.links l).onFailure = f1 := by rw [r3, e3]
      rw [hs1, hf1]
      refine ⟨?_, g1, ?_, g3⟩
      · intro t ht hne hname htl
        obtain ⟨t1, ht1, ht2, _⟩ := g2 hne
        have hmt := o4 t ht
        rw [hname, ht1] at hmt
        cases hmt
        exact ht2 htl
      · intro t ht hne hname htl
        obtain ⟨t1, ht1, ht2, _⟩ := g4 hne
        have hmt := o4 t ht
        rw [hname, ht1] at hmt
        cases hmt
        exact ht2 htl
  · rintro ⟨l0, hl0, hbad⟩
    apply populate_isFail_of_links
    intro m1 entry1 mem1 _ hdecl hisok hleaves
    obtain ⟨m1a, entry1a, mem1a, hL, _, _, _, _, _, hfacts⟩ :=
      populateNames_effect c.Chain 0 (fun _ => none) c.entry mem
    obtain ⟨_, _, _, _, o5, _⟩ := hfacts hisok
    have hm1 : m1a = m1 := by
      rcases hleaves with h1 | ⟨e, h1⟩
      · rw [h1] at hL
        have := Leaves_ok _ _ hL
        simp only [Prod.mk.injEq] at this
        exact this.1
      · rw [h1] at hisok
        simp [Res.isOk] at hisok
    subst hm1
    apply populateLinks_fail_of ops c m1a (fun _ => True)
      (fun mem2 l2 =>
        ((mem2.links l2).OnSuccess ≠ "" ∧ m1a (mem2.links l2).OnSuccess = none) ∨
        ((mem2.links l2).OnFailure ≠ "" ∧ m1a (mem2.links l2).OnFailure = none))
    · intro mem2 h2 hb
      cases hw : (mem2.links h2).Workflow with
      | none =>
        rw [populateLink_blank ops c m1a h2 mem2 hw]
        rfl
      | some w =>
        obtain ⟨_, _, _, _, _, _, _, _, _, _, e7, e8, _⟩ :=
          populateLink_effect ops c m1a h2 w mem2 hw
        rcases hb with hb | hb
        · exact e7 hb
        · exact e8 hb
    · intro mem2 h2 mem3 l2 _ hok hne hb
      obtain ⟨mem3a, hL3, p1, _⟩ := populateLink_frame ops c m1a h2 mem2
      rw [hok] at hL3
      have := Leaves_ok _ _ hL3
      subst this
      rw [p1 l2 hne]
      exact hb
    · intro _ _
      trivial
    · refine ⟨l0, hl0, ?_⟩
      obtain ⟨_, _, _, hOS, hOF⟩ := link_workflow_of_declared (hdecl l0)
      rw [hOS, hOF]
      rcases hbad with ⟨hne, hno⟩ | ⟨hne, hno⟩
      · exact Or.inl ⟨hne, by rw [o5 _ hno]⟩
      · exact Or.inr ⟨hne, by rw [o5 _ hno]⟩

/-! ### The cascade of defaults -/

theorem strOr_idem (x d : String) : strOr (strOr x d) d = strOr x d := by
  unfold strOr
  by_cases hx : x = ""
  · by_cases hd : d = "" <;> simp [hx, hd]
  · simp [hx]

theorem cascadeLink_cascaded_congr (c : ChainedWorkflow) (l1 l2 : Link)
    (h : l1.cascaded = l2.cascaded) :
    (ChainedWorkflow.cascadeLink c l1).cascaded = (ChainedWorkflow.cascadeLink c l2).cascaded := by
  simp only [Link.cascaded, Prod.mk.injEq] at h
  obtain ⟨h1, h2, h3, h4, h5⟩ := h
  simp [Link.cascaded, ChainedWorkflow.cascadeLink, h1, h2, h3, h4, h5]

theorem cascadeLink_idem (c : ChainedWorkflow) (l : Link) :
    (ChainedWorkflow.cascadeLink c (ChainedWorkflow.cascadeLink c l)).cascaded =
      (ChainedWorkflow.cascadeLink c l).cascaded := by
  simp [Link.cascaded, ChainedWorkflow.cascadeLink, strOr_idem]

theorem Leaves_unique {ε σ : Type} (r : Res ε σ) (a b : σ) (ha : r.Leaves a) (hb : r.Leaves b) :
    a = b := by
  rcases ha with ha | ⟨e, ha⟩
  · rw [ha] at hb
    exact (Leaves_ok _ _ hb).symm
  · rw [ha] at hb
    exact (Leaves_fail _ _ _ hb).symm

theorem populateLinks_preserves (ops : WorkflowOps) (c : ChainedWorkflow)
    (m : String → Option Nat) (S : Nat → Prop) (P : ChainMem → Prop)
    (hstep : ∀ mem h mem1, S h → P mem →
      (ChainedWorkflow.populateLink ops c m h mem).Leaves mem1 → P mem1) :
    ∀ (ls : List Nat) (mem mem2 : ChainMem), (∀ h ∈ ls, S h) → P mem →
      (ChainedWorkflow.populateLinks ops c m ls mem).Leaves mem2 → P mem2 := by
  intro ls
  induction ls with
  | nil =>
    intro mem mem2 _ hP hL
    have : mem2 = mem := Leaves_ok _ _ hL
    rw [this]
    exact hP
  | cons h rest ih =>
    intro mem mem2 hS hP hL
    obtain ⟨mem1, hL1, _⟩ := populateLink_frame ops c m h mem
    have hP1 := hstep mem h mem1 (hS h (by simp)) hP hL1
    rcases hL1 with hL1 | ⟨e, hL1⟩
    · have hr : ChainedWorkflow.populateLinks ops c m (h :: rest) mem =
          ChainedWorkflow.populateLinks ops c m rest mem1 := by
        simp [ChainedWorkflow.populateLinks, hL1]
      rw [hr] at hL
      exact ih mem1 mem2 (fun h1 hh1 => hS h1 (by simp [hh1])) hP1 hL
    · have hr : ChainedWorkflow.populateLinks ops c m (h :: rest) mem = .fail e mem1 := by
        simp [ChainedWorkflow.populateLinks, hL1]
      rw [hr] at hL
      have : mem2 = mem1 := Leaves_fail _ _ _ hL
      rw [this]
      exact hP1

theorem populate_keeps_settled (ops : WorkflowOps) (c : ChainedWorkflow) (mem : ChainMem)
    (hpc : ∀ a wf, (ops.PopulateClients a wf).1.cascaded = wf.cascaded)
    (hpop : ∀ a wf, (ops.populate a wf).1.cascaded = wf.cascaded)
    (hown : ∀ l1 ∈ c.Chain, ∀ l2 ∈ c.Chain, l1 ≠ l2 → ∀ a,
      (mem.links l1).Workflow = some a → (mem.links l2).Workflow ≠ some a)
    (hset : ∀ l ∈ c.Chain, mem.Settled c l) :
    ∀ st, (ChainedWorkflow.populate ops c mem).Leaves st →
      ∀ l ∈ c.Chain, (st.2.links l).cascaded = (mem.links l).cascaded ∧
        ∀ w, (mem.links l).Workflow = some w → (st.2.wfs w).cascaded = (mem.wfs w).cascaded := by
  intro st hst
  unfold ChainedWorkflow.populate at hst
  by_cases hp : c.Project = ""
  · simp only [hp, if_true] at hst
    rw [Leaves_fail _ _ _ hst]
    intro l _
    exact ⟨rfl, fun _ _ => rfl⟩
  · simp only [hp, if_false] at hst
    obtain ⟨m1, entry1, mem1, hL, hwf, hsb, _⟩ :=
      populateNames_effect c.Chain 0 (fun _ => none) c.entry mem
    have hbase : ∀ l ∈ c.Chain, (mem1.links l).cascaded = (mem.links l).cascaded ∧
        (mem1.links l).declared = (mem.links l).declared ∧
        ∀ w, (mem.links l).Workflow = some w → (mem1.wfs w).cascaded = (mem.wfs w).cascaded := by
      intro l _
      obtain ⟨_, hd, hc, _⟩ := sameButNumber_name (hsb l)
      exact ⟨hc, hd, fun w _ => by rw [hwf]⟩
    rcases hL with hL | ⟨e, hL⟩
    · rw [hL] at hst
      simp only [] at hst
      have hkey : ∀ mem2, (ChainedWorkflow.populateLinks ops c m1 c.Chain mem1).Leaves mem2 →
          ∀ l ∈ c.Chain, (mem2.links l).cascaded = (mem.links l).cascaded ∧
            (mem2.links l).declared = (mem.links l).declared ∧
            ∀ w, (mem.links l).Workflow = some w →
              (mem2.wfs w).cascaded = (mem.wfs w).cascaded := by
        intro mem2 hL2
        refine populateLinks_preserves ops c m1 (fun h => h ∈ c.Chain)
          (fun cur => ∀ l ∈ c.Chain, (cur.links l).cascaded = (mem.links l).cascaded ∧
            (cur.links l).declared = (mem.links l).declared ∧
            ∀ w, (mem.links l).Workflow = some w →
              (cur.wfs w).cascaded = (mem.wfs w).cascaded) ?_ c.Chain mem1 mem2
          (fun _ hh => hh) hbase hL2
        intro cur h next hS hP hLn
        have hPh := hP h hS
        cases hw : (cur.links h).Workflow with
        | none =>
          rw [populateLink_blank ops c m1 h cur hw] at hLn
          rw [Leaves_fail _ _ _ hLn]
          exact hP
        | some w =>
          obtain ⟨next1, s1, f1, hLe, e1, e2, e3, _, _, _, _, _, _, e10⟩ :=
            populateLink_effect ops c m1 h w cur hw
          have hnn : next = next1 := Leaves_unique _ _ _ hLn hLe
          subst hnn
          have hwmem : (mem.links h).Workflow = some w := by
            rw [← (link_workflow_of_declared hPh.2.1).2.1]
            exact hw
          have hcasc : (ChainedWorkflow.cascadeLink c (cur.links h)).cascaded =
              (mem.links h).cascaded := by
            rw [cascadeLink_cascaded_congr c _ _ hPh.1]
            exact (hset h hS).1
          intro l hl
          by_cases hlh : l = h
          · subst hlh
            refine ⟨?_, ?_, ?_⟩
            · rw [e3]
              exact hcasc
            · rw [e3]
              exact hPh.2.1
            · intro w1 hw1
              rw [hwmem] at hw1
              cases hw1
              rw [e10 hpc hpop, hcasc]
              exact ((hset l hS).2 w hwmem).symm
          · obtain ⟨p1, p2, p3⟩ := hP l hl
            refine ⟨?_, ?_, ?_⟩
            · rw [e1 l hlh]; exact p1
            · rw [e1 l hlh]; exact p2
            · intro w1 hw1
              have hne : w1 ≠ w := by
                intro e
                subst e
                exact hown l hl h hS hlh w1 hw1 hwmem
              rw [e2 w1 hne]
              exact p3 w1 hw1
      cases hr : ChainedWorkflow.populateLinks ops c m1 c.Chain mem1 with
      | panic =>
        rw [hr] at hst
        exact absurd hst (fun h => Leaves_panic _ h)
      | ok mem2 =>
        rw [hr] at hst
        rw [Leaves_ok _ _ hst]
        intro l hl
        have := hkey mem2 (by rw [hr]; exact Or.inl rfl) l hl
        exact ⟨this.1, this.2.2⟩
      | fail e mem2 =>
        rw [hr] at hst
        rw [Leaves_fail _ _ _ hst]
        intro l hl
        have := hkey mem2 (by rw [hr]; exact Or.inr ⟨e, rfl⟩) l hl
        exact ⟨this.1, this.2.2⟩
    · rw [hL] at hst
      rw [Leaves_fail _ _ _ hst]
      intro l hl
      have := hbase l hl
      exact ⟨this.1, this.2.2⟩

theorem populate_first_pass (ops : WorkflowOps) (c c1 : ChainedWorkflow) (mem mem1 : ChainMem)
    (hpc : ∀ a wf, (ops.PopulateClients a wf).1.cascaded = wf.cascaded)
    (hpop : ∀ a wf, (ops.populate a wf).1.cascaded = wf.cascaded)
    (hown : ∀ l1 ∈ c.Chain, ∀ l2 ∈ c.Chain, l1 ≠ l2 → ∀ a,
      (mem.links l1).Workflow = some a → (mem.links l2).Workflow ≠ some a)
    (hok : ChainedWorkflow.populate ops c mem = .ok (c1, mem1)) :
    ∀ l ∈ c.Chain,
      (mem1.links l).cascaded = (ChainedWorkflow.cascadeLink c (mem.links l)).cascaded ∧
      (mem1.links l).declared = (mem.links l).declared ∧
      ∃ w, (mem.links l).Workflow = some w ∧ (mem1.wfs w).cascaded = (mem1.links l).cascaded := by
  obtain ⟨_, m1, entry1, memN, hn, hl, _⟩ := populate_ok_inv ops c c1 mem mem1 hok
  obtain ⟨m1a, entry1a, memNa, hL, _, hsb, _, _, _, hfacts⟩ :=
    populateNames_effect c.Chain 0 (fun _ => none) c.entry mem
  rw [hn] at hL hfacts
  have heq := Leaves_ok _ _ hL
  simp only [Prod.mk.injEq] at heq
  obtain ⟨hmm, he, hm⟩ := heq
  subst hmm he hm
  obtain ⟨_, _, o3, _⟩ := hfacts rfl
  have hnd : c.Chain.Nodup := by
    rw [List.nodup_iff_getElem?_ne_getElem?]
    intro i j hij hj heq
    have hlt : i < c.Chain.length := by omega
    obtain ⟨t, ht⟩ : ∃ t, c.Chain[i]? = some t := ⟨c.Chain[i], List.getElem?_eq_getElem hlt⟩
    have ht2 : c.Chain[j]? = some t := by rw [← heq]; exact ht
    have := o3 i j t t ht ht2 rfl
    omega
  intro l hlc
  obtain ⟨memA, memB, r1, r2, r3, r4⟩ :=
    populateLinks_ok_split ops c m1a c.Chain memNa mem1 hnd hl l hlc
  obtain ⟨_, hdec, hcas, _⟩ := sameButNumber_name (hsb l)
  cases hw : (memA.links l).Workflow with
  | none =>
    rw [populateLink_blank ops c m1a l memA hw] at r1
    cases r1
  | some w =>
    obtain ⟨memB1, s1, f1, hLB, _, _, e3, _, _, _, _, _, _, e10⟩ :=
      populateLink_effect ops c m1a l w memA hw
    rw [r1] at hLB
    have := Leaves_ok _ _ hLB
    subst this
    have hwmem : (mem.links l).Workflow = some w := by
      rw [← (link_workflow_of_declared hdec).2.1, ← r2]
      exact hw
    have hshare : ∀ b ∈ c.Chain, b ≠ l → (memNa.links b).Workflow ≠ some w := by
      intro b hb hbl
      rw [(link_workflow_of_declared (sameButNumber_name (hsb b)).2.1).2.1]
      exact hown l hlc b hb (fun e => hbl e.symm) w hwmem
    obtain ⟨_, s2⟩ := r4 w hshare
    have hlink : (mem1.links l).cascaded =
        (ChainedWorkflow.cascadeLink c (mem.links l)).cascaded := by
      rw [r3, e3]
      show (ChainedWorkflow.cascadeLink c (memA.links l)).cascaded = _
      rw [r2]
      exact cascadeLink_cascaded_congr c _ _ hcas
    refine ⟨hlink, ?_, w, hwmem, ?_⟩
    · rw [r3, e3]
      show (memA.links l).declared = _
      rw [r2]
      exact hdec
    · rw [s2, e10 hpc hpop, hlink, r2]
      exact cascadeLink_cascaded_congr c _ _ hcas

theorem populate_first_pass_links (ops : WorkflowOps) (c c1 : ChainedWorkflow)
    (mem mem1 : ChainMem) (hok : ChainedWorkflow.populate ops c mem = .ok (c1, mem1)) :
    ∀ l ∈ c.Chain,
      (mem1.links l).cascaded = (ChainedWorkflow.cascadeLink c (mem.links l)).cascaded ∧
      (mem1.links l).declared = (mem.links l).declared ∧
      ∃ w, (mem.links l).Workflow = some w := by
  obtain ⟨_, m1, entry1, memN, hn, hl, _⟩ := populate_ok_inv ops c c1 mem mem1 hok
  obtain ⟨m1a, entry1a, memNa, hL, _, hsb, _, _, _, hfacts⟩ :=
    populateNames_effect c.Chain 0 (fun _ => none) c.entry mem
  rw [hn] at hL hfacts
  have heq := Leaves_ok _ _ hL
  simp only [Prod.mk.injEq] at heq
  obtain ⟨hmm, he, hm⟩ := heq
  subst hmm he hm
  obtain ⟨_, _, o3, _⟩ := hfacts rfl
  have hnd : c.Chain.Nodup := by
    rw [List.nodup_iff_getElem?_ne_getElem?]
    intro i j hij hj heq
    have hlt : i < c.Chain.length := by omega
    obtain ⟨t, ht⟩ : ∃ t, c.Chain[i]? = some t := ⟨c.Chain[i], List.getElem?_eq_getElem hlt⟩
    have ht2 : c.Chain[j]? = some t := by rw [← heq]; exact ht
    have := o3 i j t t ht ht2 rfl
    omega
  intro l hlc
  obtain ⟨memA, memB, r1, r2, r3, _⟩ :=
    populateLinks_ok_split ops c m1a c.Chain memNa mem1 hnd hl l hlc
  obtain ⟨_, hdec, hcas, _⟩ := sameButNumber_name (hsb l)
  cases hw : (memA.links l).Workflow with
  | none =>
    rw [populateLink_blank ops c m1a l memA hw] at r1
    cases r1
  | some w =>
    obtain ⟨memB1, s1, f1, hLB, _, _, e3, _⟩ := populateLink_effect ops c m1a l w memA hw
    rw [r1] at hLB
    have := Leaves_ok _ _ hLB
    subst this
    refine ⟨?_, ?_, w, ?_⟩
    · rw [r3, e3]
      show (ChainedWorkflow.cascadeLink c (memA.links l)).cascaded = _
      rw [r2]
      exact cascadeLink_cascaded_congr c _ _ hcas
    · rw [r3, e3]
      show (memA.links l).declared = _
      rw [r2]
      exact hdec
    · rw [← (link_workflow_of_declared hdec).2.1, ← r2]
      exact hw

theorem populate_keeps_links (ops : WorkflowOps) (c : ChainedWorkflow) (mem : ChainMem)
    (hset : ∀ l ∈ c.Chain,
      (ChainedWorkflow.cascadeLink c (mem.links l)).cascaded = (mem.links l).cascaded) :
    ∀ st, (ChainedWorkflow.populate ops c mem).Leaves st →
      ∀ l, (st.2.links l).cascaded = (mem.links l).cascaded := by
  intro st hst
  unfold ChainedWorkflow.populate at hst
  by_cases hp : c.Project = ""
  · simp only [hp, if_true] at hst
    rw [Leaves_fail _ _ _ hst]
    intro l
    rfl
  · simp only [hp, if_false] at hst
    obtain ⟨m1, entry1, mem1, hL, _, hsb, _⟩ :=
      populateNames_effect c.Chain 0 (fun _ => none) c.entry mem
    have hbase : ∀ l, (mem1.links l).cascaded = (mem.links l).cascaded := by
      intro l
      exact (sameButNumber_name (hsb l)).2.2.1
    rcases hL with hL | ⟨e, hL⟩
    · rw [hL] at hst
      simp only [] at hst
      have hkey : ∀ mem2, (ChainedWorkflow.populateLinks ops c m1 c.Chain mem1).Leaves mem2 →
          ∀ l, (mem2.links l).cascaded = (mem.links l).cascaded := by
        intro mem2 hL2
        refine populateLinks_preserves ops c m1 (fun h => h ∈ c.Chain)
          (fun cur => ∀ l, (cur.links l).cascaded = (mem.links l).cascaded) ?_ c.Chain mem1 mem2
          (fun _ hh => hh) hbase hL2
        intro cur h next hS hP hLn
        cases hw : (cur.links h).Workflow with
        | none =>
          rw [populateLink_blank ops c m1 h cur hw] at hLn
          rw [Leaves_fail _ _ _ hLn]
          exact hP
        | some w =>
          obtain ⟨next1, s1, f1, hLe, e1, _, e3, _⟩ := populateLink_effect ops c m1 h w cur hw
          have hnn : next = next1 := Leaves_unique _ _ _ hLn hLe
          subst hnn
          intro l
          by_cases hlh : l = h
          · subst hlh
            rw [e3]
            show (ChainedWorkflow.cascadeLink c (cur.links l)).cascaded = _
            rw [cascadeLink_cascaded_congr c _ _ (hP l)]
            exact hset l hS
          · rw [e1 l hlh]
            exact hP l
      cases hr : ChainedWorkflow.populateLinks ops c m1 c.Chain mem1 with
      | panic =>
        rw [hr] at hst
        exact absurd hst (fun h => Leaves_panic _ h)
      | ok mem2 =>
        rw [hr] at hst
        rw [Leaves_ok _ _ hst]
        exact hkey mem2 (by rw [hr]; exact Or.inl rfl)
      | fail e mem2 =>
        rw [hr] at hst
        rw [Leaves_fail _ _ _ hst]
        exact hkey mem2 (by rw [hr]; exact Or.inr ⟨e, rfl⟩)
    · rw [hL] at hst
      rw [Leaves_fail _ _ _ hst]
      exact hbase

/-- C16 (the claim at explicit inputs): the build pass returns nil and a linked
workflow does not hold its link's values, or a second pass changes a workflow's
values.  With a `Workflow.populate` that gives an empty GCSPath a default, the
workflow of A holds the GCSPath "gs://default" while A holds "".  With a
`Workflow.populate` that derives the GCSPath from what an earlier call left in
the workflow, the workflow of A holds "gs://first" after the first pass, while A
holds "", and "gs://later" after the second.  With a `Workflow.PopulateClients`
that does so for the OAuthPath, the workflow of A holds "first.json" after the
first pass, while A holds "", and "later.json" after the second.  With A and B
linked to the same workflow, that workflow holds the Name "B" while A holds "A";
and with methods that leave the five values alone, of which `PopulateClients`
fails in the second pass, the shared workflow holds the Name "B" after the
first pass and "A" after the second. -/
theorem populate_cascade_depends_on_workflows :
    (((ChainedWorkflow.populate defaultingOps failureOnlyChain failureOnlyChainMem).isOk,
        (ChainedWorkflow.populate defaultingOps failureOnlyChain failureOnlyChainMem).state?.map
          (fun st => ((st.2.links 0).GCSPath, (st.2.wfs 0).GCSPath))) =
      (true, some ("", "gs://default"))) ∧
    (((ChainedWorkflow.populate statefulOps failureOnlyChain failureOnlyChainMem).isOk,
        (ChainedWorkflow.populate statefulOps failureOnlyChain failureOnlyChainMem).state?.map
          (fun st => ((st.2.links 0).GCSPath, (st.2.wfs 0).GCSPath))) =
      (true, some ("", "gs://first"))) ∧
    (((ChainedWorkflow.populate statefulOps failureOnlyChain failureOnlyChainMem).state?.bind
        (fun st => (ChainedWorkflow.populate statefulOps st.1 st.2).state?.map
          (fun st2 => (st2.2.wfs 0).GCSPath))) =
      some "gs://later") ∧
    (((ChainedWorkflow.populate statefulClientOps failureOnlyChain failureOnlyChainMem).isOk,
        (ChainedWorkflow.populate statefulClientOps failureOnlyChain
          failureOnlyChainMem).state?.map
          (fun st => ((st.2.links 0).OAuthPath, (st.2.wfs 0).OAuthPath))) =
      (true, some ("", "first.json"))) ∧
    (((ChainedWorkflow.populate statefulClientOps failureOnlyChain
        failureOnlyChainMem).state?.bind
        (fun st => (ChainedWorkflow.populate statefulClientOps st.1 st.2).state?.map
          (fun st2 => (st2.2.wfs 0).OAuthPath))) =
      some "later.json") ∧
    ((sharedChainMem.links 0).Workflow = some 0 ∧ (sharedChainMem.links 1).Workflow = some 0) ∧
    (((ChainedWorkflow.populate quietOps failureOnlyChain sharedChainMem).isOk,
        (ChainedWorkflow.populate quietOps failureOnlyChain sharedChainMem).state?.map
          (fun st => ((st.2.links 0).Name, (st.2.wfs 0).Name))) =
      (true, some ("A", "B"))) ∧
    ((∀ a wf, (countingOps.PopulateClients a wf).1.cascaded = wf.cascaded) ∧
      (∀ a wf, (countingOps.populate a wf).1.cascaded = wf.cascaded)) ∧
    (((ChainedWorkflow.populate countingOps failureOnlyChain sharedChainMem).isOk,
        (ChainedWorkflow.populate countingOps failureOnlyChain sharedChainMem).state?.map
          (fun st => (st.2.wfs 0).Name)) =
      (true, some "B")) ∧
    (((ChainedWorkflow.populate countingOps failureOnlyChain sharedChainMem).state?.bind
        (fun st => (ChainedWorkflow.populate countingOps st.1 st.2).state?.map
          (fun st2 => (st2.2.wfs 0).Name))) =
      some "A") := by
  refine ⟨by decide, by decide, by decide, by decide, by decide, ⟨rfl, rfl⟩, by decide,
    ⟨fun _ _ => rfl, fun _ _ => rfl⟩, by decide, by decide⟩

/-- C16, as amended: let `populate` return nil.  Then for every link of the chain
each of Project, Zone, GCSPath, OAuthPath is its value before the pass if that
was non-empty and the chain's otherwise, and the link has a linked workflow.
If no two links of the chain share a linked workflow and
`Workflow.PopulateClients` and `Workflow.populate` leave a workflow's Name,
Project, Zone, GCSPath and OAuthPath as they find them, the linked workflow's
Name and four fields equal the link's.  A second run of the pass returns (nil or
an error) and, however it ends, leaves the Name and the four fields of every
link unchanged, and under the same two conditions those of every linked
workflow. -/
theorem populate_cascade (ops : WorkflowOps) (c c1 : ChainedWorkflow) (mem mem1 : ChainMem)
    (hok : ChainedWorkflow.populate ops c mem = .ok (c1, mem1)) :
    (∀ l ∈ c.Chain,
      (mem1.links l).Project =
        (if (mem.links l).Project = "" then c.Project else (mem.links l).Project) ∧
      (mem1.links l).Zone = (if (mem.links l).Zone = "" then c.Zone else (mem.links l).Zone) ∧
      (mem1.links l).GCSPath =
        (if (mem.links l).GCSPath = "" then c.GCSPath else (mem.links l).GCSPath) ∧
      (mem1.links l).OAuthPath =
        (if (mem.links l).OAuthPath = "" then c.OAuthPath else (mem.links l).OAuthPath) ∧
      ∃ w, (mem.links l).Workflow = some w) ∧
    ((∀ a wf, (ops.PopulateClients a wf).1.cascaded = wf.cascaded) →
      (∀ a wf, (ops.populate a wf).1.cascaded = wf.cascaded) →
      (∀ l1 ∈ c.Chain, ∀ l2 ∈ c.Chain, l1 ≠ l2 → ∀ a,
        (mem.links l1).Workflow = some a → (mem.links l2).Workflow ≠ some a) →
      ∀ l ∈ c.Chain, ∃ w, (mem.links l).Workflow = some w ∧
        (mem1.wfs w).Project = (mem1.links l).Project ∧
        (mem1.wfs w).Zone = (mem1.links l).Zone ∧
        (mem1.wfs w).GCSPath = (mem1.links l).GCSPath ∧
        (mem1.wfs w).OAuthPath = (mem1.links l).OAuthPath ∧
        (mem1.wfs w).Name = (mem1.links l).Name) ∧
    (∃ st, (ChainedWorkflow.populate ops c1 mem1).Leaves st) ∧
    (∀ st, (ChainedWorkflow.populate ops c1 mem1).Leaves st → ∀ l ∈ c.Chain,
      (st.2.links l).cascaded = (mem1.links l).cascaded) ∧
    ((∀ a wf, (ops.PopulateClients a wf).1.cascaded = wf.cascaded) →
      (∀ a wf, (ops.populate a wf).1.cascaded = wf.cascaded) →
      (∀ l1 ∈ c.Chain, ∀ l2 ∈ c.Chain, l1 ≠ l2 → ∀ a,
        (mem.links l1).Workflow = some a → (mem.links l2).Workflow ≠ some a) →
      ∀ st, (ChainedWorkflow.populate ops c1 mem1).Leaves st → ∀ l ∈ c.Chain,
        ∀ w, (mem.links l).Workflow = some w →
          (st.2.wfs w).cascaded = (mem1.wfs w).cascaded) := by
  have hlinks := populate_first_pass_links ops c c1 mem mem1 hok
  obtain ⟨_, m1, entry1, memN, _, _, hc1⟩ := populate_ok_inv ops c c1 mem mem1 hok
  have hchain : c1.Chain = c.Chain := by rw [hc1]
  have hcasc : ∀ l0 : Link, ChainedWorkflow.cascadeLink c1 l0 =
      ChainedWorkflow.cascadeLink c l0 := by
    intro l0
    rw [hc1]
    rfl
  refine ⟨?_, ?_, ?_, ?_, ?_⟩
  · intro l hl
    obtain ⟨h1, _, w, hw⟩ := hlinks l hl
    simp only [Link.cascaded, ChainedWorkflow.cascadeLink, strOr, Prod.mk.injEq] at h1
    obtain ⟨_, a2, a3, a4, a5⟩ := h1
    exact ⟨a2, a3, a4, a5, w, hw⟩
  · intro hpc hpop hown l hl
    obtain ⟨_, _, w, hw, h3⟩ := populate_first_pass ops c c1 mem mem1 hpc hpop hown hok l hl
    simp only [Workflow.cascaded, Link.cascaded, Prod.mk.injEq] at h3
    exact ⟨w, hw, h3.2.1, h3.2.2.1, h3.2.2.2.1, h3.2.2.2.2, h3.1⟩
  · obtain ⟨c2, mem2, hL, _⟩ := populate_frame ops c1 mem1
    exact ⟨(c2, mem2), hL⟩
  · intro st hst l _
    have hset1 : ∀ l0 ∈ c1.Chain,
        (ChainedWorkflow.cascadeLink c1 (mem1.links l0)).cascaded = (mem1.links l0).cascaded := by
      intro l0 h0
      rw [hchain] at h0
      obtain ⟨h1, _⟩ := hlinks l0 h0
      rw [hcasc, cascadeLink_cascaded_congr c _ _ h1, cascadeLink_idem, h1]
    exact populate_keeps_links ops c1 mem1 hset1 st hst l
  · intro hpc hpop hown st hst l hl
    have hfirst := populate_first_pass ops c c1 mem mem1 hpc hpop hown hok
    have hown1 : ∀ l1 ∈ c1.Chain, ∀ l2 ∈ c1.Chain, l1 ≠ l2 → ∀ a,
        (mem1.links l1).Workflow = some a → (mem1.links l2).Workflow ≠ some a := by
      intro l1 h1 l2 h2 hne a ha
      rw [hchain] at h1 h2
      rw [(link_workflow_of_declared (hfirst l1 h1).2.1).2.1] at ha
      rw [(link_workflow_of_declared (hfirst l2 h2).2.1).2.1]
      exact hown l1 h1 l2 h2 hne a ha
    have hset1 : ∀ l0 ∈ c1.Chain, mem1.Settled c1 l0 := by
      intro l0 h0
      rw [hchain] at h0
      obtain ⟨h1, h2, w, hw, h3⟩ := hfirst l0 h0
      constructor
      · rw [hcasc, cascadeLink_cascaded_congr c _ _ h1, cascadeLink_idem, h1]
      · intro w1 hw1
        rw [(link_workflow_of_declared h2).2.1, hw] at hw1
        cases hw1
        exact h3
    have hkeep := populate_keeps_settled ops c1 mem1 hpc hpop hown1 hset1 st hst l
      (by rw [hchain]; exact hl)
    intro w hw
    apply hkeep.2 w
    rw [(link_workflow_of_declared (hfirst l hl).2.1).2.1]
    exact hw

/-- Witness for C16: the build pass of the chain A, B, C (project "p", zone "z",
GCS path "gs://b"), whose link A has its own project "pa" and link B its own
zone "zb"; its links have a workflow each and the workflows' methods change
nothing. -/
theorem populate_cascade_witness :
    ChainedWorkflow.populate quietOps cascadeChain cascadeChainMem =
      .ok (cascadeChainPopulated.1, cascadeChainPopulated.2) ∧
    (cascadeChainPopulated.2.links 0).Project = "pa" ∧
    (cascadeChainPopulated.2.links 1).Project = "p" ∧
    (∃ w, (cascadeChainMem.links 1).Workflow = some w ∧
      (cascadeChainPopulated.2.wfs w).Project = (cascadeChainPopulated.2.links 1).Project ∧
      (cascadeChainPopulated.2.wfs w).Zone = (cascadeChainPopulated.2.links 1).Zone ∧
      (cascadeChainPopulated.2.wfs w).GCSPath = (cascadeChainPopulated.2.links 1).GCSPath ∧
      (cascadeChainPopulated.2.wfs w).OAuthPath = (cascadeChainPopulated.2.links 1).OAuthPath ∧
      (cascadeChainPopulated.2.wfs w).Name = (cascadeChainPopulated.2.links 1).Name) ∧
    (∀ st, (ChainedWorkflow.populate quietOps cascadeChainPopulated.1
        cascadeChainPopulated.2).Leaves st → ∀ l ∈ cascadeChain.Chain,
      (st.2.links l).cascaded = (cascadeChainPopulated.2.links l).cascaded) :=
  have hok : ChainedWorkflow.populate quietOps cascadeChain cascadeChainMem =
      .ok (cascadeChainPopulated.1, cascadeChainPopulated.2) := by
    rfl
  have hown : ∀ l1 ∈ cascadeChain.Chain, ∀ l2 ∈ cascadeChain.Chain, l1 ≠ l2 → ∀ a,
      (cascadeChainMem.links l1).Workflow = some a →
      (cascadeChainMem.links l2).Workflow ≠ some a := by
    intro l1 h1 l2 h2 hne a ha hb
    simp only [cascadeChain, List.mem_cons, List.mem_singleton, List.not_mem_nil, or_false]
      at h1 h2
    rcases h1 with h1 | h1 | h1 <;> rcases h2 with h2 | h2 | h2 <;> subst h1 <;> subst h2 <;>
      simp [cascadeChainMem] at ha hb hne <;> omega
  have h := populate_cascade quietOps cascadeChain cascadeChainPopulated.1 cascadeChainMem
    cascadeChainPopulated.2 hok
  have h0 := (h.1 0 (by decide)).1
  have h1 := (h.1 1 (by decide)).1
  ⟨hok, h0, h1, h.2.1 (fun _ _ => rfl) (fun _ _ => rfl) hown 1 (by decide), h.2.2.2.1⟩

/-! ### Cancellation of `run` -/

theorem allDone_false_of_sending (s : RunState) (i : Nat) (err : DErr)
    (h : s.workers[i]? = some (.sending err)) : s.allDone = false := by
  cases hb : s.allDone with
  | false => rfl
  | true =>
    unfold RunState.allDone at hb
    rw [List.all_eq_true] at hb
    have := hb _ (List.getElem?_mem h)
    simp at this

theorem stuck_step (s t : RunState) (hm : s.main = .draining) (i : Nat) (err : DErr)
    (hw : s.workers[i]? = some (.sending err)) (ht : t ∈ s.next) :
    t.main = .draining ∧ t.workers[i]? = some (.sending err) := by
  have hall := allDone_false_of_sending s i err hw
  simp only [RunState.next, List.mem_append, List.mem_flatMap, List.mem_range] at ht
  rcases ht with ((⟨j, _, hj⟩ | hc) | hcan) | hmn
  · unfold RunState.workerSteps at hj
    split at hj
    · rename_i hwj
      simp only [List.mem_singleton] at hj
      subst hj
      refine ⟨hm, ?_⟩
      have hji : j ≠ i := by
        intro e
        subst e
        rw [hw] at hwj
        cases hwj
      simp only []
      rw [List.getElem?_set_ne hji]
      exact hw
    · rename_i err1 hwj
      simp only [List.mem_singleton] at hj
      subst hj
      refine ⟨hm, ?_⟩
      have hji : j ≠ i := by
        intro e
        subst e
        rw [hw] at hwj
        cases hwj
      simp only []
      rw [List.getElem?_set_ne hji]
      exact hw
    · simp [hm] at hj
    · simp at hj
  · unfold RunState.closerSteps at hc
    split at hc
    · simp [hall] at hc
    · simp [hm] at hc
    · simp at hc
  · unfold RunState.cancelSteps at hcan
    split at hcan
    · simp at hcan
    · simp only [List.mem_singleton] at hcan
      subst hcan
      exact ⟨hm, hw⟩
  · unfold RunState.mainSteps at hmn
    split at hmn
    · rename_i hsel
      rw [hm] at hsel
      cases hsel
    · simp [hall] at hmn
    · simp at hmn

theorem stuck_forever (s t : RunState) (hr : s.Reaches t) :
    ∀ (i : Nat) (err : DErr), s.main = .draining → s.workers[i]? = some (.sending err) →
      t.main = .draining ∧ t.workers[i]? = some (.sending err) := by
  induction hr with
  | refl s => intro i err hm hw; exact ⟨hm, hw⟩
  | step s t u h _ ih =>
    intro i err hm hw
    obtain ⟨hm1, hw1⟩ := stuck_step s t hm i err hw h
    exact ih i err hm1 hw1

/-- C12 (the goroutines at a failing input): a run with one worker whose creation
call will fail can reach, by the cancellation, then `run` taking the branch
`case <-w.Cancel`, then the failure of the call, the state `stuckRun`; that
state has no next state, although `run` has not returned.  In general, once
`run` is at `wg.Wait()` of the cancellation branch and some worker is blocked
sending its error, `run` is still there in every state reached later: it never
returns.  The claim asks that `run` always returns nil, also when a worker's
calls fail after the cancellation. -/
theorem run_blocks_after_cancel (s t : RunState) (i : Nat) (err : DErr) :
    (RunState.start [some quotaErr]).Reaches stuckRun ∧
    stuckRun.next = [] ∧
    stuckRun.main = .draining ∧
    (s.main = .draining → s.workers[i]? = some (.sending err) → s.Reaches t →
      t.main = .draining) := by
  refine ⟨?_, by decide, rfl, ?_⟩
  · refine RunState.Reaches.step _
      { workers := [.calling (some quotaErr)], closer := .waiting, main := .selecting,
        cancelled := true } _ (by decide) ?_
    refine RunState.Reaches.step _
      { workers := [.calling (some quotaErr)], closer := .waiting, main := .draining,
        cancelled := true } _ (by decide) ?_
    refine RunState.Reaches.step _ stuckRun _ (by decide) ?_
    exact RunState.Reaches.refl _
  · intro hm hw hr
    exact (stuck_forever s t hr i err hm hw).1

/-! ### Nil links in `Link.run` and `ChainedWorkflow.Run` -/

theorem Link_run_success_without_onSuccess (wfRun : Option Nat → Option String) (mem : ChainMem)
    (fuel l : Nat) (hrun : wfRun (mem.links l).Workflow = none)
    (hf : (mem.links l).onFailure ≠ none) (hs : (mem.links l).onSuccess = none) :
    Link.run wfRun mem (fuel + 2) (some l) = ([l], .panicked) := by
  simp [Link.run, hrun, hf, hs]

/-- C21 (code at a failing input): in the chain A (OnFailure "B", no OnSuccess),
B, the build pass succeeds and gives A the failure continuation B and no success
continuation; with every workflow succeeding, `ChainedWorkflow.Run` runs the
workflow of A and then calls `run` on the nil `onSuccess` of A, which dereferences
nil.  In general, whenever the workflow of a link succeeds, its `onFailure` is
non-nil and its `onSuccess` is nil, `Link.run` calls `run` on nil.  The claim
asks that `run` is never called on a nil continuation. -/
theorem Link_run_follows_nil_onSuccess (wfRun : Option Nat → Option String) (mem : ChainMem)
    (fuel l : Nat) :
    ((ChainedWorkflow.populate quietOps { failureOnlyChain with externalLogging := true }
        failureOnlyChainMem).state?.map
      (fun st => ((st.2.links 0).onSuccess, (st.2.links 0).onFailure))) =
      some (none, some 1) ∧
    (ChainedWorkflow.populate quietOps { failureOnlyChain with externalLogging := true }
      failureOnlyChainMem).isOk = true ∧
    ChainedWorkflow.Run quietOps (fuel + 2) failureOnlyChain failureOnlyChainMem =
      ([0], .panicked) ∧
    (wfRun (mem.links l).Workflow = none → (mem.links l).onFailure ≠ none →
      (mem.links l).onSuccess = none →
      Link.run wfRun mem (fuel + 2) (some l) = ([l], .panicked)) := by
  refine ⟨by decide, by decide, ?_, Link_run_success_without_onSuccess wfRun mem fuel l⟩
  rfl

/-- C22 (code at a failing input): on a chained workflow with a Project and an
empty Chain, `populate` returns nil and leaves `entry` as it was; for
`emptyChain`, whose `entry` is nil, `ChainedWorkflow.Run` then calls `run` on
the nil `entry`, which dereferences nil, without running any workflow.  The
claim asks that `entry` is a non-nil link after every successful `populate`.
When the Chain is not empty, `entry` is its first link after a successful
`populate`. -/
theorem ChainedWorkflow_Run_empty_chain (ops : WorkflowOps) (c : ChainedWorkflow)
    (mem : ChainMem) (fuel : Nat) :
    (c.Project ≠ "" → c.Chain = [] → ChainedWorkflow.populate ops c mem = .ok (c, mem)) ∧
    ChainedWorkflow.populate ops { emptyChain with externalLogging := true } mem =
      .ok ({ emptyChain with externalLogging := true }, mem) ∧
    ChainedWorkflow.Run ops (fuel + 1) emptyChain mem = ([], .panicked) ∧
    (∀ c1 mem1 l rest, ChainedWorkflow.populate ops c mem = .ok (c1, mem1) →
      c.Chain = l :: rest → c1.entry = some l) := by
  refine ⟨?_, rfl, rfl, ?_⟩
  · intro hp hc
    cases c
    simp only at hp hc
    subst hc
    unfold ChainedWorkflow.populate
    simp only [hp, if_false, ChainedWorkflow.populateNames, ChainedWorkflow.populateLinks]
  · intro c1 mem2 l rest hok hch
    obtain ⟨_, m1, entry1, mem1, hn, _, hc1⟩ := populate_ok_inv ops c c1 mem mem2 hok
    obtain ⟨m1a, entry1a, mem1a, hL, _, _, _, _, _, hfacts⟩ :=
      populateNames_effect c.Chain 0 (fun _ => none) c.entry mem
    rw [hn] at hL hfacts
    have heq := Leaves_ok _ _ hL
    simp only [Prod.mk.injEq] at heq
    obtain ⟨_, he, _⟩ := heq
    subst he
    obtain ⟨_, _, _, _, _, o6⟩ := hfacts rfl
    rw [hc1]
    exact o6 rfl l rest hch

/-! ### `PatchJob.populate` -/

theorem HasPrefix_append (pre x : String) : HasPrefix (pre ++ x) pre = true := by
  unfold HasPrefix
  rw [String.data_append, List.isPrefixOf_iff_prefix]
  exact List.prefix_append _ _

theorem PatchJob_populate_established (env : PopulateEnv) (w : StepWorkflow) (j : PatchJob)
    (r : ExecutePatchJobRequest) (hc : w.osconfigClient ≠ none)
    (hr : j.ExecutePatchJobRequest = some r) :
    PatchJob.populate env w j =
      .ok (w,
        { j with
          ExecutePatchJobRequest := some
            { Parent :=
                if !HasPrefix (strOr r.Parent w.Project) "projects/" then
                  "projects/" ++ strOr r.Parent w.Project
                else strOr r.Parent w.Project,
              Description := strOr r.Description
                ("PatchJob created by Daisy in workflow " ++ env.quote w.Name ++
                  " on behalf of " ++ w.username ++ ".") } }) := by
  cases hw : w.osconfigClient with
  | none => exact absurd hw hc
  | some c => simp only [PatchJob.populate, hw, hr]

/-- C25: let the workflow have its patch-service client and the descriptor a
request `r`.  Then `PatchJob.populate` returns nil and leaves the workflow as it
was; the new Parent is `strOr(r.Parent, w.Project)`, with "projects/" put in
front unless that value starts with "projects/"; it starts with "projects/"; it
is `r.Parent` when `r.Parent` started with "projects/"; a non-empty Description
is kept; and `populate` applied to the result returns nil and changes nothing. -/
theorem PatchJob_populate_spec (env : PopulateEnv) (w : StepWorkflow) (j : PatchJob)
    (r : ExecutePatchJobRequest) (hc : w.osconfigClient ≠ none)
    (hr : j.ExecutePatchJobRequest = some r) :
    ∃ r1, PatchJob.populate env w j = .ok (w, { j with ExecutePatchJobRequest := some r1 }) ∧
      r1.Parent =
        (if HasPrefix (strOr r.Parent w.Project) "projects/" then strOr r.Parent w.Project
         else "projects/" ++ strOr r.Parent w.Project) ∧
      HasPrefix r1.Parent "projects/" = true ∧
      (HasPrefix r.Parent "projects/" = true → r1.Parent = r.Parent) ∧
      (r.Description ≠ "" → r1.Description = r.Description) ∧
      PatchJob.populate env w { j with ExecutePatchJobRequest := some r1 } =
        .ok (w, { j with ExecutePatchJobRequest := some r1 }) := by
  have hne : ∀ x : String, HasPrefix x "projects/" = true → x ≠ "" := by
    intro x hx he
    subst he
    revert hx
    decide
  have hpre : HasPrefix
      (if !HasPrefix (strOr r.Parent w.Project) "projects/" then
        "projects/" ++ strOr r.Parent w.Project
      else strOr r.Parent w.Project) "projects/" = true := by
    cases hp : HasPrefix (strOr r.Parent w.Project) "projects/" with
    | true => simpa using hp
    | false => simpa using HasPrefix_append "projects/" _
  refine ⟨_, PatchJob_populate_established env w j r hc hr, ?_, hpre, ?_, ?_, ?_⟩
  · cases hp : HasPrefix (strOr r.Parent w.Project) "projects/" <;> simp
  · intro h
    have hs : strOr r.Parent w.Project = r.Parent := by
      simp [strOr, hne _ h]
    simp only [hs, h]
    simp
  · intro hd
    simp [strOr, hd]
  · rw [PatchJob_populate_established env w _ _ hc rfl]
    have hs : ∀ x : String, HasPrefix x "projects/" = true →
        (if !HasPrefix (strOr x w.Project) "projects/" then "projects/" ++ strOr x w.Project
         else strOr x w.Project) = x := by
      intro x hx
      have : strOr x w.Project = x := by simp [strOr, hne _ hx]
      simp [this, hx]
    simp only [hs _ hpre, strOr_idem]

/-- C25 at an example: the job without a Parent, in the workflow "wf" of project
"p" that has its client, gets the Parent "projects/p". -/
theorem PatchJob_populate_spec_witness :
    exampleStepWorkflow.osconfigClient ≠ none ∧
    examplePatchJob.ExecutePatchJobRequest = some { Parent := "", Description := "" } ∧
    PatchJob.populate exampleEnv exampleStepWorkflow examplePatchJob =
      .ok (exampleStepWorkflow,
        { examplePatchJob with
          ExecutePatchJobRequest := some
            { Parent := "projects/p",
              Description := "PatchJob created by Daisy in workflow \"wf\" on behalf of user." } }) ∧
    ∃ r1, PatchJob.populate exampleEnv exampleStepWorkflow examplePatchJob =
        .ok (exampleStepWorkflow, { examplePatchJob with ExecutePatchJobRequest := some r1 }) ∧
      r1.Parent =
        (if HasPrefix (strOr "" exampleStepWorkflow.Project) "projects/" then
          strOr "" exampleStepWorkflow.Project
         else "projects/" ++ strOr "" exampleStepWorkflow.Project) ∧
      HasPrefix r1.Parent "projects/" = true ∧
      (HasPrefix "" "projects/" = true → r1.Parent = "") ∧
      ("" ≠ "" → r1.Description = "") ∧
      PatchJob.populate exampleEnv exampleStepWorkflow
          { examplePatchJob with ExecutePatchJobRequest := some r1 } =
        .ok (exampleStepWorkflow, { examplePatchJob with ExecutePatchJobRequest := some r1 }) :=
  ⟨by decide, rfl, rfl,
    PatchJob_populate_spec exampleEnv exampleStepWorkflow examplePatchJob
      { Parent := "", Description := "" } (by decide) rfl⟩

/-! ### The project of a descriptor's link and of its provider calls -/

theorem CreateSnapshots_worker_project (client : ComputeClient) (w : Registries)
    (namedSubexp : String → String → String) (cs : Snapshot) :
    ∀ c ∈ (CreateSnapshots.worker client w namedSubexp cs).1, c.project = cs.Resource.Project := by
  have hres : (CreateSnapshots.resolveSource w cs).Resource = cs.Resource := by
    unfold CreateSnapshots.resolveSource
    cases w.disks cs.SourceDisk <;> rfl
  intro c hc
  unfold CreateSnapshots.worker at hc
  simp only [hres] at hc
  split at hc
  · split at hc
    · split at hc
      · simp at hc
        subst hc
        rfl
      · split at hc <;>
        · simp at hc
          rcases hc with hc | hc <;>
          · subst hc
            rfl
    · split at hc <;>
      · simp at hc
        rcases hc with hc | hc <;>
        · subst hc
          rfl
  · split at hc <;>
    · simp at hc
      subst hc
      rfl

theorem CreateMachineImages_worker_project (client : ComputeClient) (w : Registries)
    (ci : MachineImage) :
    ∀ c ∈ (CreateMachineImages.worker client w ci).1, c.project = ci.Resource.Project := by
  have hres : (CreateMachineImages.resolveSource w ci).Resource = ci.Resource := by
    unfold CreateMachineImages.resolveSource
    cases w.disks ci.SourceInstance <;> rfl
  intro c hc
  unfold CreateMachineImages.worker at hc
  simp only [hres] at hc
  split at hc
  · split at hc
    · split at hc
      · simp at hc
        subst hc
        rfl
      · split at hc <;>
        · simp at hc
          rcases hc with hc | hc <;>
          · subst hc
            rfl
    · split at hc <;>
      · simp at hc
        rcases hc with hc | hc <;>
        · subst hc
          rfl
  · split at hc <;>
    · simp at hc
      subst hc
      rfl

/-- C23 (code on every input, and at a failing input): whatever the code around
it does, `Snapshot.populate` builds the link from the Project of the workflow,
`projects/<w.Project>/global/snapshots/<Name>`, while every provider call of the
worker of `CreateSnapshots.run` is made in the descriptor's own Project;
`MachineImage.populate` builds the link from the descriptor's Project, in which
the worker of `CreateMachineImages.run` makes its calls.  For the snapshot
"snap" declared with Project "q" in a workflow of project "p", the link is
`projects/p/global/snapshots/snap` and the worker deletes and creates the
snapshot in project "q"; the claim asks for a link naming "q".  The machine
image "img" declared with Project "q" gets the link
`projects/q/global/machineImages/img`. -/
theorem Snapshot_populate_link_uses_workflow_project (env : PopulateEnv) (w : StepWorkflow)
    (s : Snapshot) (i : MachineImage) (client : ComputeClient) (regs : Registries)
    (namedSubexp : String → String → String) :
    (Snapshot.populate env w s).2.Resource.link =
      "projects/" ++ w.Project ++ "/global/snapshots/" ++ (Snapshot.populate env w s).2.Name ∧
    (∀ c ∈ (CreateSnapshots.worker client regs namedSubexp (Snapshot.populate env w s).2).1,
      c.project = (Snapshot.populate env w s).2.Resource.Project) ∧
    (MachineImage.populate env w i).2.Resource.link =
      "projects/" ++ (MachineImage.populate env w i).2.Resource.Project ++
        "/global/machineImages/" ++ (MachineImage.populate env w i).2.Name ∧
    (∀ c ∈ (CreateMachineImages.worker client regs (MachineImage.populate env w i).2).1,
      c.project = (MachineImage.populate env w i).2.Resource.Project) ∧
    (Snapshot.populate exampleEnv exampleStepWorkflow crossProjectSnapshot).2.Resource.link =
      "projects/p/global/snapshots/snap" ∧
    (CreateSnapshots.worker okClient exampleRegistries exampleSubexp
        (Snapshot.populate exampleEnv exampleStepWorkflow crossProjectSnapshot).2).1 =
      [.DeleteSnapshot "q" "snap",
       .CreateSnapshot "q" "z" "d0" "snap" "d" "projects/q/zones/z/disks/d0"] ∧
    (MachineImage.populate exampleEnv exampleStepWorkflow crossProjectMachineImage).2.Resource.link =
      "projects/q/global/machineImages/img" ∧
    (CreateMachineImages.worker okClient exampleRegistries
        (MachineImage.populate exampleEnv exampleStepWorkflow crossProjectMachineImage).2).1 =
      [.DeleteMachineImage "q" "img",
       .CreateMachineImage "q" "img" "d" "projects/q/zones/z/instances/i0"] := by
  refine ⟨?_, CreateSnapshots_worker_project client regs namedSubexp _, ?_,
    CreateMachineImages_worker_project client regs _, by decide, by decide, by decide, by decide⟩
  · unfold Snapshot.populate
    simp only []
  · unfold MachineImage.populate
    simp only []

/-! ### Termination of `Link.run` on an acyclic chain -/

theorem Link_run_path (wfRun : Option Nat → Option String) (mem : ChainMem) :
    ∀ (fuel : Nat) (p : Option Nat),
      List.Chain' (Link.follows mem) (Link.run wfRun mem fuel p).1 ∧
      (∀ x ∈ (Link.run wfRun mem fuel p).1.head?, p = some x) ∧
      ((Link.run wfRun mem fuel p).2 = .outOfFuel →
        (Link.run wfRun mem fuel p).1.length = fuel) := by
  intro fuel
  induction fuel with
  | zero =>
    intro p
    simp [Link.run]
  | succ fuel ih =>
    intro p
    cases p with
    | none => simp [Link.run]
    | some l =>
      have hS := ih (mem.links l).onSuccess
      have hF := ih (mem.links l).onFailure
      unfold Link.run
      cases hrun : wfRun (mem.links l).Workflow with
      | some err =>
        by_cases hf : (mem.links l).onFailure = none
        · simp [hf]
        · simp only [hf, ne_eq, not_false_eq_true, if_true]
          refine ⟨?_, by simp, ?_⟩
          · rw [List.chain'_cons']
            refine ⟨?_, hF.1⟩
            intro y hy
            exact Or.inr (hF.2.1 y hy)
          · intro h
            simp [hF.2.2 h]
      | none =>
        by_cases hf : (mem.links l).onFailure = none
        · simp [hf]
        · simp only [hf, ne_eq, not_false_eq_true, if_true]
          refine ⟨?_, by simp, ?_⟩
          · rw [List.chain'_cons']
            refine ⟨?_, hS.1⟩
            intro y hy
            exact Or.inl (hS.2.1 y hy)
          · intro h
            simp [hS.2.2 h]

theorem Link_run_more_fuel (wfRun : Option Nat → Option String) (mem : ChainMem) :
    ∀ (fuel : Nat) (p : Option Nat), (Link.run wfRun mem fuel p).2 ≠ .outOfFuel →
      Link.run wfRun mem (fuel + 1) p = Link.run wfRun mem fuel p := by
  intro fuel
  induction fuel with
  | zero =>
    intro p h
    simp [Link.run] at h
  | succ fuel ih =>
    intro p h
    cases p with
    | none => simp [Link.run]
    | some l =>
      have hS := ih (mem.links l).onSuccess
      have hF := ih (mem.links l).onFailure
      rw [Link.run] at h
      rw [Link.run, Link.run.eq_3 wfRun mem fuel l]
      cases hrun : wfRun (mem.links l).Workflow with
      | some err =>
        by_cases hf : (mem.links l).onFailure = none
        · simp [hf]
        · simp only [hrun, hf, ne_eq, not_false_eq_true, if_true] at h ⊢
          rw [hF h]
      | none =>
        by_cases hf : (mem.links l).onFailure = none
        · simp [hf]
        · simp only [hrun, hf, ne_eq, not_false_eq_true, if_true] at h ⊢
          rw [hS h]

theorem Link_run_stable (wfRun : Option Nat → Option String) (mem : ChainMem) (p : Option Nat)
    (n : Nat) (h : (Link.run wfRun mem n p).2 ≠ .outOfFuel) :
    ∀ k, Link.run wfRun mem (n + k) p = Link.run wfRun mem n p := by
  intro k
  induction k with
  | zero => rfl
  | succ k ih =>
    have := Link_run_more_fuel wfRun mem (n + k) p (by rw [ih]; exact h)
    rw [← Nat.add_assoc, this, ih]

theorem path_in_nodes (mem : ChainMem) (nodes : List Nat) (hclosed : mem.Closed nodes) :
    ∀ xs : List Nat, List.Chain' (Link.follows mem) xs → (∀ x ∈ xs.head?, x ∈ nodes) →
      ∀ x ∈ xs, x ∈ nodes := by
  intro xs
  induction xs with
  | nil =>
    intro _ _ x hx
    simp at hx
  | cons a rest ih =>
    intro hch hhead x hx
    have ha : a ∈ nodes := hhead a (by simp)
    rw [List.chain'_cons'] at hch
    rcases List.mem_cons.mp hx with hx | hx
    · rw [hx]
      exact ha
    · exact ih hch.2 (fun y hy => hclosed a ha y (hch.1 y hy)) x hx

theorem path_nodup (mem : ChainMem) (nodes : List Nat) (hacyc : mem.Acyclic nodes)
    (xs : List Nat) (hch : List.Chain' (Link.follows mem) xs) (hin : ∀ x ∈ xs, x ∈ nodes) :
    xs.Nodup := by
  have h1 : List.Chain' (Relation.TransGen (Link.follows mem)) xs :=
    hch.imp (fun _ _ h => Relation.TransGen.single h)
  have h2 : List.Pairwise (Relation.TransGen (Link.follows mem)) xs :=
    List.chain'_iff_pairwise.mp h1
  unfold List.Nodup
  refine h2.imp_of_mem ?_
  intro a b ha _ hab heq
  subst heq
  exact hacyc a (hin a ha) hab

theorem acyclic_of_rank (mem : ChainMem) (nodes : List Nat) (rank : Nat → Nat)
    (h : ∀ l ∈ nodes, ∀ t, Link.follows mem l t → t ∈ nodes ∧ rank t < rank l) :
    mem.Acyclic nodes := by
  have key : ∀ a b, Relation.TransGen (Link.follows mem) a b → a ∈ nodes →
      b ∈ nodes ∧ rank b < rank a := by
    intro a b hab
    induction hab with
    | single hs => intro ha; exact h a ha _ hs
    | tail _ hs ih =>
      intro ha
      obtain ⟨hb, hr⟩ := ih ha
      obtain ⟨hc, hr2⟩ := h _ hb _ hs
      exact ⟨hc, by omega⟩
  intro l hl hcyc
  have := (key l l hcyc hl).2
  omega

/-- C24: let the continuations of the links `nodes` of a chain be links of
`nodes` and form an acyclic graph, and let `l` be one of them.  Then for every
assignment `wfRun` of outcomes to the workflows, `Link.run` started at `l` ends
within `nodes.length + 1` nested calls (with any larger bound on the depth the
result is the same, and it is not the out-of-depth result); the links whose
workflow it runs are links of `nodes`, none of them twice, so they are at most
as many as `nodes` has links. -/
theorem Link_run_acyclic_terminates (wfRun : Option Nat → Option String) (mem : ChainMem)
    (nodes : List Nat) (l fuel : Nat) (hl : l ∈ nodes) (hclosed : mem.Closed nodes)
    (hacyc : mem.Acyclic nodes) (hfuel : nodes.length < fuel) :
    (Link.run wfRun mem fuel (some l)).2 ≠ .outOfFuel ∧
    Link.run wfRun mem fuel (some l) = Link.run wfRun mem (nodes.length + 1) (some l) ∧
    (Link.run wfRun mem fuel (some l)).1.Nodup ∧
    (∀ x ∈ (Link.run wfRun mem fuel (some l)).1, x ∈ nodes) ∧
    (Link.run wfRun mem fuel (some l)).1.length ≤ nodes.length := by
  have facts : ∀ n, (Link.run wfRun mem n (some l)).1.Nodup ∧
      (∀ x ∈ (Link.run wfRun mem n (some l)).1, x ∈ nodes) ∧
      (Link.run wfRun mem n (some l)).1.length ≤ nodes.length ∧
      (nodes.length < n → (Link.run wfRun mem n (some l)).2 ≠ .outOfFuel) := by
    intro n
    obtain ⟨hch, hhead, hout⟩ := Link_run_path wfRun mem n (some l)
    have hin := path_in_nodes mem nodes hclosed _ hch (by
      intro x hx
      have := hhead x hx
      cases this
      exact hl)
    have hnd := path_nodup mem nodes hacyc _ hch hin
    have hlen := (hnd.subperm hin).length_le
    refine ⟨hnd, hin, hlen, ?_⟩
    intro hn h
    have := hout h
    omega
  obtain ⟨hnd, hin, hlen, hne⟩ := facts fuel
  refine ⟨hne hfuel, ?_, hnd, hin, hlen⟩
  have hstable := Link_run_stable wfRun mem (some l) (nodes.length + 1)
    ((facts (nodes.length + 1)).2.2.2 (by omega)) (fuel - (nodes.length + 1))
  have hfe : nodes.length + 1 + (fuel - (nodes.length + 1)) = fuel := by omega
  rw [hfe] at hstable
  exact hstable

/-- C24 at an example: the populated chain A, B, C (A continues with B on
success, B with C on failure) is acyclic, and `Link.run` from A ends within four
nested calls whatever the outcomes are. -/
theorem Link_run_acyclic_terminates_witness :
    (0 : Nat) ∈ [0, 1, 2] ∧ exampleChainMem.Closed [0, 1, 2] ∧
    exampleChainMem.Acyclic [0, 1, 2] ∧ [0, 1, 2].length < 7 ∧
    (Link.run exampleOutcomes exampleChainMem 7 (some 0)).2 ≠ .outOfFuel ∧
    Link.run exampleOutcomes exampleChainMem 7 (some 0) =
      Link.run exampleOutcomes exampleChainMem ([0, 1, 2].length + 1) (some 0) ∧
    (Link.run exampleOutcomes exampleChainMem 7 (some 0)).1.Nodup ∧
    (∀ x ∈ (Link.run exampleOutcomes exampleChainMem 7 (some 0)).1, x ∈ [0, 1, 2]) ∧
    (Link.run exampleOutcomes exampleChainMem 7 (some 0)).1.length ≤ [0, 1, 2].length :=
  have hedges : ∀ l ∈ [0, 1, 2], ∀ t, Link.follows exampleChainMem l t →
      t ∈ [0, 1, 2] ∧ 3 - t < 3 - l := by
    intro l hl t ht
    simp only [List.mem_cons, List.mem_singleton, List.not_mem_nil, or_false] at hl
    rcases hl with hl | hl | hl <;> subst hl <;>
      simp [Link.follows, exampleChainMem] at ht <;> subst ht <;> simp
  have hclosed : exampleChainMem.Closed [0, 1, 2] := fun l hl t ht => (hedges l hl t ht).1
  have hacyc : exampleChainMem.Acyclic [0, 1, 2] :=
    acyclic_of_rank exampleChainMem [0, 1, 2] (fun a => 3 - a) hedges
  ⟨by decide, hclosed, hacyc, by decide,
    Link_run_acyclic_terminates exampleOutcomes exampleChainMem [0, 1, 2] 0 7 (by decide) hclosed
      hacyc (by decide)⟩

end Daisy
